import Mathlib

/-! # Cache simulator (`cachesim.cc`): shallow embedding

The embedding follows `ORIG_cachesim.cc` / `ORIG_cachesim.h` (set-associative store with
LFSR replacement, fully-associative store backed by `std::map`) and `SELF_cachesim.cc`
(set-associative store with a per-line `timer` array).

Conventions.
* `uint64_t` / `size_t` values are natural numbers below `2 ^ 64`; every operation that can
  wrap is written with an explicit `% 2 ^ 64`.
* A pointer returned by `check_tag` is the position of the tag word it points to: an index
  into the `tags` array for the set-associative stores, a key of the map for the
  fully-associative store.  `NULL` is `none`.
* `miss_handler->access(..)` and `miss_handler->clean_invalidate(..)` return nothing and the
  callee is another engine, so an operation returns the list of calls it makes on its miss
  handler, in order; `replay` and `chain2` execute them on the next level.
* Dereferencing the `NULL` result of the second `check_tag` in `access` is undefined; the model
  returns `none` there.  The `log` diagnostic output is not modelled.
* Array indices `idx*ways + i` are computed in `Nat`; the well-formedness predicates ask the
  arrays to have `sets*ways` entries, which is what `init` allocates.
* The definitions stand for the code where `ways >= 1` and `sets*ways < 2 ^ 64`
  (`valid_config`).  `init` checks neither: with `ways = 0` the C++ `lfsr.next() % ways` is a
  division by zero, and a product `sets*ways` of `2 ^ 64` or more wraps in `size_t`.  Outside
  that domain the definitions say nothing about the code.
-/

namespace CacheSim

/-! ## Machine words -/

/-- `static const uint64_t VALID = 1ULL << 63`. -/
def VALID : Nat := 2 ^ 63

/-- `static const uint64_t DIRTY = 1ULL << 62`. -/
def DIRTY : Nat := 2 ^ 62

/-- Bitwise complement `~x` of a 64-bit word. -/
def not64 (x : Nat) : Nat := (2 ^ 64 - 1) ^^^ x

/-- The value of `x - 1` for an unsigned 64-bit `x` (wraps at zero). -/
def dec64 (x : Nat) : Nat := if x = 0 then 2 ^ 64 - 1 else x - 1

/-- The value of `x + 1` (`x++`) for an unsigned 64-bit `x`. -/
def inc64 (x : Nat) : Nat := (x + 1) % 2 ^ 64

/-! ## Calls made on the miss handler -/

/-- A call on a cache engine: `access(addr, bytes, store)` or
`clean_invalidate(addr, bytes, clean, inval)`. -/
inductive call where
  | access (addr bytes : Nat) (store : Bool)
  | clean_invalidate (addr bytes : Nat) (clean inval : Bool)
deriving DecidableEq, Repr

/-! ## The engine -/

/-- The data members of `cache_sim_t` that `access` and `clean_invalidate` use.  `store` holds
the members that differ between the variants (`tags` with `lfsr`, or with `timer`, or the map).
`miss_handler` records whether a next level is attached. -/
structure cache_sim_t (τ : Type) where
  sets : Nat
  ways : Nat
  linesz : Nat
  idx_shift : Nat
  store : τ
  read_accesses : Nat
  read_misses : Nat
  bytes_read : Nat
  write_accesses : Nat
  write_misses : Nat
  bytes_written : Nat
  writebacks : Nat
  miss_handler : Bool
deriving DecidableEq, Repr

/-- The virtual functions `check_tag` and `victimize` of a store, with the read (`peek`) and
write (`poke`) of the tag word a `check_tag` pointer points to. -/
structure vtable (τ : Type) where
  check_tag : cache_sim_t τ → Nat → τ × Option Nat
  victimize : cache_sim_t τ → Nat → τ × Nat
  peek : τ → Nat → Nat
  poke : τ → Nat → Nat → τ

/-- The loop `for (size_t x = linesz; x>1; x >>= 1) idx_shift++` of `init`; a 64-bit `x`
reaches 1 within 64 halvings, which is the fuel `init` passes. -/
def idx_shift_loop : Nat → Nat → Nat → Nat
  | 0, _, idx_shift => idx_shift
  | fuel + 1, x, idx_shift =>
    if x > 1 then idx_shift_loop fuel (x >>> 1) (idx_shift + 1) else idx_shift

/-- `cache_sim_t::init`, called by the constructor with `sets`, `ways`, `linesz` already stored.
`none` is `help()`, which ends the process.  `store` is the freshly allocated store. -/
def init {τ : Type} (store : τ) (sets ways linesz : Nat) : Option (cache_sim_t τ) :=
  if sets = 0 ∨ sets &&& dec64 sets ≠ 0 then none
  else if linesz < 8 ∨ linesz &&& dec64 linesz ≠ 0 then none
  else some
    { sets := sets, ways := ways, linesz := linesz,
      idx_shift := idx_shift_loop 64 linesz 0,
      store := store,
      read_accesses := 0, read_misses := 0, bytes_read := 0,
      write_accesses := 0, write_misses := 0, bytes_written := 0,
      writebacks := 0, miss_handler := false }

/-- `set_miss_handler(mh)` with a non-null `mh`. -/
def set_miss_handler {τ : Type} (c : cache_sim_t τ) : cache_sim_t τ :=
  { c with miss_handler := true }

/-- `cache_sim_t::access`.  The result is the engine afterwards with the calls made on the
miss handler; `none` is the dereference of a `NULL` returned by the second `check_tag`. -/
def access {τ : Type} (vt : vtable τ) (c : cache_sim_t τ) (addr bytes : Nat) (store : Bool) :
    Option (cache_sim_t τ × List call) :=
  -- store ? write_accesses++ : read_accesses++;
  let c1 := if store then { c with write_accesses := inc64 c.write_accesses }
            else { c with read_accesses := inc64 c.read_accesses }
  -- (store ? bytes_written : bytes_read) += bytes;
  let c2 := if store then { c1 with bytes_written := (c1.bytes_written + bytes) % 2 ^ 64 }
            else { c1 with bytes_read := (c1.bytes_read + bytes) % 2 ^ 64 }
  -- uint64_t* hit_way = check_tag(addr);
  let r := vt.check_tag c2 addr
  let c3 := { c2 with store := r.1 }
  match r.2 with
  | some hit_way =>
    -- if (store) *hit_way |= DIRTY; return;
    some (if store then { c3 with store := vt.poke c3.store hit_way (vt.peek c3.store hit_way ||| DIRTY) }
          else c3, [])
  | none =>
    -- store ? write_misses++ : read_misses++;
    let c4 := if store then { c3 with write_misses := inc64 c3.write_misses }
              else { c3 with read_misses := inc64 c3.read_misses }
    -- uint64_t victim = victimize(addr);
    let v := vt.victimize c4 addr
    let c5 := { c4 with store := v.1 }
    let victim := v.2
    -- if ((victim & (VALID | DIRTY)) == (VALID | DIRTY))
    let wb : Bool := decide (victim &&& (VALID ||| DIRTY) = (VALID ||| DIRTY))
    let dirty_addr := ((victim &&& not64 (VALID ||| DIRTY)) <<< c5.idx_shift) % 2 ^ 64
    let calls1 := if wb && c5.miss_handler then [call.access dirty_addr c5.linesz true] else []
    let c6 := if wb then { c5 with writebacks := inc64 c5.writebacks } else c5
    -- if (miss_handler) miss_handler->access(addr & ~(linesz-1), linesz, false);
    let calls2 := if c6.miss_handler
                  then [call.access (addr &&& not64 (dec64 c6.linesz)) c6.linesz false] else []
    -- if (store) *check_tag(addr) |= DIRTY;
    if store then
      let r2 := vt.check_tag c6 addr
      let c7 := { c6 with store := r2.1 }
      match r2.2 with
      | some p => some ({ c7 with store := vt.poke c7.store p (vt.peek c7.store p ||| DIRTY) },
                        calls1 ++ calls2)
      | none => none
    else some (c6, calls1 ++ calls2)

/-- The body of the range loop of `clean_invalidate`, at `cur_addr`. -/
def clean_invalidate_body {τ : Type} (vt : vtable τ) (clean inval : Bool)
    (c : cache_sim_t τ) (cur_addr : Nat) : cache_sim_t τ :=
  let r := vt.check_tag c cur_addr
  let c1 := { c with store := r.1 }
  match r.2 with
  | some hit_way =>
    let c2 := if clean && decide (vt.peek c1.store hit_way &&& DIRTY ≠ 0)
              then { c1 with writebacks := inc64 c1.writebacks,
                             store := vt.poke c1.store hit_way
                               (vt.peek c1.store hit_way &&& not64 DIRTY) }
              else c1
    if inval then { c2 with store := vt.poke c2.store hit_way
                              (vt.peek c2.store hit_way &&& not64 VALID) }
    else c2
  | none => c1

/-- The loop `while (cur_addr < end_addr) { body; cur_addr += linesz; }` with `cur_addr` a 64-bit
word.  `none` when the fuel runs out before the loop exits. -/
def while_loop {α : Type} (body : α → Nat → α) (linesz end_addr : Nat) :
    Nat → α → Nat → Option α
  | 0, s, cur_addr => if cur_addr < end_addr then none else some s
  | fuel + 1, s, cur_addr =>
    if cur_addr < end_addr
    then while_loop body linesz end_addr fuel (body s cur_addr) ((cur_addr + linesz) % 2 ^ 64)
    else some s

/-- The `start_addr` of `clean_invalidate`: `addr & ~(linesz-1)`. -/
def start_addr (linesz addr : Nat) : Nat := addr &&& not64 (dec64 linesz)

/-- The `end_addr` of `clean_invalidate`: `(addr + bytes + linesz-1) & ~(linesz-1)`. -/
def end_addr (linesz addr bytes : Nat) : Nat :=
  dec64 ((addr + bytes + linesz) % 2 ^ 64) &&& not64 (dec64 linesz)

/-- The fuel given to the range loop of `clean_invalidate`: the number of distinct values of
the 64-bit `cur_addr`. -/
def loop_fuel : Nat := 2 ^ 64

/-- `cache_sim_t::clean_invalidate`.  The loop is given `loop_fuel` units of fuel. -/
def clean_invalidate {τ : Type} (vt : vtable τ) (c : cache_sim_t τ) (addr bytes : Nat)
    (clean inval : Bool) : Option (cache_sim_t τ × List call) :=
  (while_loop (clean_invalidate_body vt clean inval) c.linesz
      (end_addr c.linesz addr bytes) loop_fuel c (start_addr c.linesz addr)).map
    -- if (miss_handler) miss_handler->clean_invalidate(addr, bytes, clean, inval);
    (fun c1 => (c1, if c1.miss_handler then [call.clean_invalidate addr bytes clean inval] else []))

/-! ## Set-associative store, LFSR replacement (`ORIG_cachesim.cc`) -/

/-- `lfsr_t::next`: `reg = (reg>>1)^(-(reg&1) & 0xd0000001)` on a `uint32_t`. -/
def lfsr_next (reg : Nat) : Nat :=
  (reg >>> 1) ^^^ (((2 ^ 32 - (reg &&& 1)) % 2 ^ 32) &&& 0xd0000001)

/-- The loop `for (size_t i = 0; i < ways; i++) if (tag == (tags[base + i] & ~DIRTY)) return
&tags[base + i];` with `n` iterations left, at way `i`. -/
def find_way (tags : List Nat) (base tag : Nat) : Nat → Nat → Option Nat
  | 0, _ => none
  | n + 1, i =>
    if tag = (tags.getD (base + i) 0 &&& not64 DIRTY) then some (base + i)
    else find_way tags base tag n (i + 1)

/-- The members of the set-associative `cache_sim_t` of `ORIG_cachesim.h`: the tag array and
the LFSR register. -/
structure orig_store where
  tags : List Nat
  lfsr : Nat
deriving DecidableEq, Repr

namespace ORIG

/-- `cache_sim_t::check_tag` of `ORIG_cachesim.cc`. -/
def check_tag (c : cache_sim_t orig_store) (addr : Nat) : orig_store × Option Nat :=
  let idx := (addr >>> c.idx_shift) &&& dec64 c.sets
  let tag := (addr >>> c.idx_shift) ||| VALID
  (c.store, find_way c.store.tags (idx * c.ways) tag c.ways 0)

/-- `cache_sim_t::victimize` of `ORIG_cachesim.cc`.  For `ways = 0`, which `init` lets through,
the C++ `lfsr.next() % ways` is a division by zero that ends the process; `%` on `Nat` is total
(`reg % 0 = reg`), so the definition stands for the code only where `ways >= 1`. -/
def victimize (c : cache_sim_t orig_store) (addr : Nat) : orig_store × Nat :=
  let idx := (addr >>> c.idx_shift) &&& dec64 c.sets
  let reg := lfsr_next c.store.lfsr
  let way := reg % c.ways
  let victim := c.store.tags.getD (idx * c.ways + way) 0
  ({ tags := c.store.tags.set (idx * c.ways + way) ((addr >>> c.idx_shift) ||| VALID),
     lfsr := reg }, victim)

/-- The virtual table of the set-associative store of `ORIG_cachesim.cc`. -/
def vt : vtable orig_store :=
  { check_tag := check_tag, victimize := victimize,
    peek := fun s p => s.tags.getD p 0,
    poke := fun s p w => { s with tags := s.tags.set p w } }

/-- The constructor `cache_sim_t(sets, ways, linesz, name)`: `new uint64_t[sets*ways]()` and
`lfsr_t()`, which starts the register at 1. -/
def new (sets ways linesz : Nat) : Option (cache_sim_t orig_store) :=
  init { tags := List.replicate (sets * ways) 0, lfsr := 1 } sets ways linesz

end ORIG

/-! ## Fully-associative store (`fa_cache_sim_t` of `ORIG_cachesim.cc`) -/

/-- `std::map::operator[](k) = v` on a map kept as a list of entries in increasing key order. -/
def map_assign : List (Nat × Nat) → Nat → Nat → List (Nat × Nat)
  | [], k, v => [(k, v)]
  | (k1, v1) :: m, k, v =>
    if k < k1 then (k, v) :: (k1, v1) :: m
    else if k = k1 then (k, v) :: m
    else (k1, v1) :: map_assign m k v

/-- `std::map::find(k)`: the value of the entry with key `k`, if there is one. -/
def map_find : List (Nat × Nat) → Nat → Option Nat
  | [], _ => none
  | (k1, v1) :: m, k => if k = k1 then some v1 else map_find m k

/-- The members of `fa_cache_sim_t`: the map `tags` and the LFSR register. -/
structure fa_store where
  tags : List (Nat × Nat)
  lfsr : Nat
deriving DecidableEq, Repr

namespace FA

/-- `fa_cache_sim_t::check_tag`: the pointer to `it->second` is the key of the entry. -/
def check_tag (c : cache_sim_t fa_store) (addr : Nat) : fa_store × Option Nat :=
  match map_find c.store.tags (addr >>> c.idx_shift) with
  | some _ => (c.store, some (addr >>> c.idx_shift))
  | none => (c.store, none)

/-- `fa_cache_sim_t::victimize`.  As for `ORIG.victimize`, the definition stands for the code
only where `ways >= 1`: with `ways = 0` the C++ `lfsr.next() % ways` divides by zero. -/
def victimize (c : cache_sim_t fa_store) (addr : Nat) : fa_store × Nat :=
  if c.store.tags.length = c.ways then
    let reg := lfsr_next c.store.lfsr
    let n := reg % c.ways
    let old_tag := (c.store.tags.getD n (0, 0)).2
    ({ tags := map_assign (c.store.tags.eraseIdx n) (addr >>> c.idx_shift)
                 ((addr >>> c.idx_shift) ||| VALID),
       lfsr := reg }, old_tag)
  else
    ({ c.store with tags := map_assign c.store.tags (addr >>> c.idx_shift)
                              ((addr >>> c.idx_shift) ||| VALID) }, 0)

/-- The virtual table of `fa_cache_sim_t`. -/
def vt : vtable fa_store :=
  { check_tag := check_tag, victimize := victimize,
    peek := fun s p => (map_find s.tags p).getD 0,
    poke := fun s p w => { s with tags := map_assign s.tags p w } }

/-- The constructor `fa_cache_sim_t(ways, linesz, name)`, which is `cache_sim_t(1, ways, linesz,
name)` with an empty map. -/
def new (ways linesz : Nat) : Option (cache_sim_t fa_store) :=
  init { tags := [], lfsr := 1 } 1 ways linesz

end FA

/-! ## Set-associative store, timer replacement (`SELF_cachesim.cc`) -/

/-- The loop `for (uint64_t i = 0; i < n; i++) if (tags[i] & VALID) timer[i]++;` -/
def tick (tags : List Nat) : Nat → List Nat → List Nat
  | 0, timer => timer
  | n + 1, timer =>
    let t := tick tags n timer
    if tags.getD n 0 &&& VALID ≠ 0 then t.set n (inc64 (t.getD n 0)) else t

/-- `std::min_element(first, last) - first` on the range held in `l`: the position of the
first smallest element (0 for an empty range, where `first == last`).  `go` is the loop
`for (++first; first != last; ++first) if (*first < *smallest) smallest = first;`. -/
def min_element.go : List Nat → Nat → Nat → Nat → Nat
  | [], _, smallest, _ => smallest
  | x :: rest, i, smallest, least =>
    if x < least then min_element.go rest (i + 1) i x
    else min_element.go rest (i + 1) smallest least

/-- `std::min_element(first, last) - first`. -/
def min_element : List Nat → Nat
  | [] => 0
  | x :: rest => min_element.go rest 1 0 x

/-- The members of the `cache_sim_t` of `SELF_cachesim.cc`: the tag array and the timer
array. -/
structure self_store where
  tags : List Nat
  timer : List Nat
deriving DecidableEq, Repr

namespace SELF

/-- `cache_sim_t::check_tag` of `SELF_cachesim.cc`: the sweep over all `sets*ways` timers, then
the lookup, which resets the timer of the line it hits. -/
def check_tag (c : cache_sim_t self_store) (addr : Nat) : self_store × Option Nat :=
  let timer := tick c.store.tags (c.sets * c.ways) c.store.timer
  let idx := (addr >>> c.idx_shift) &&& dec64 c.sets
  let tag := (addr >>> c.idx_shift) ||| VALID
  match find_way c.store.tags (idx * c.ways) tag c.ways 0 with
  | some p => ({ tags := c.store.tags, timer := timer.set p 0 }, some p)
  | none => ({ tags := c.store.tags, timer := timer }, none)

/-- The way `victimize` chooses:
`std::min_element(timer+(idx*ways), timer+(idx*ways) + ways) - (timer+(idx*ways))`. -/
def victim_way (c : cache_sim_t self_store) (addr : Nat) : Nat :=
  let idx := (addr >>> c.idx_shift) &&& dec64 c.sets
  min_element ((c.store.timer.drop (idx * c.ways)).take c.ways)

/-- `cache_sim_t::victimize` of `SELF_cachesim.cc`. -/
def victimize (c : cache_sim_t self_store) (addr : Nat) : self_store × Nat :=
  let idx := (addr >>> c.idx_shift) &&& dec64 c.sets
  let way := victim_way c addr
  let victim := c.store.tags.getD (idx * c.ways + way) 0
  ({ tags := c.store.tags.set (idx * c.ways + way) ((addr >>> c.idx_shift) ||| VALID),
     timer := c.store.timer.set (idx * c.ways + way) 0 }, victim)

/-- The virtual table of the store of `SELF_cachesim.cc`. -/
def vt : vtable self_store :=
  { check_tag := check_tag, victimize := victimize,
    peek := fun s p => s.tags.getD p 0,
    poke := fun s p w => { s with tags := s.tags.set p w } }

/-- The constructor of `SELF_cachesim.cc`: both arrays are allocated zeroed. -/
def new (sets ways linesz : Nat) : Option (cache_sim_t self_store) :=
  init { tags := List.replicate (sets * ways) 0, timer := List.replicate (sets * ways) 0 }
    sets ways linesz

end SELF

/-! ## Configurations, chains -/

/-- A valid configuration: `sets` and `linesz` are powers of two that fit a `size_t`,
`linesz` is at least 8, there is at least one way, and the `sets*ways` entries of the tag
array can be counted in a `size_t`. -/
def valid_config (sets ways linesz : Nat) : Prop :=
  (∃ j, j < 64 ∧ sets = 2 ^ j) ∧ 0 < ways ∧ (∃ k, k < 64 ∧ (3 ≤ k ∧ linesz = 2 ^ k)) ∧
    sets * ways < 2 ^ 64

instance (sets ways linesz : Nat) : Decidable (valid_config sets ways linesz) := by
  unfold valid_config
  infer_instance

/-- The engine holds a valid configuration and the `idx_shift` that `init` derives from it. -/
def geom_ok {τ : Type} (c : cache_sim_t τ) : Prop :=
  valid_config c.sets c.ways c.linesz ∧ c.linesz = 2 ^ c.idx_shift

instance {τ : Type} (c : cache_sim_t τ) : Decidable (geom_ok c) := by
  unfold geom_ok
  infer_instance

/-- One call on an engine. -/
def dispatch {τ : Type} (vt : vtable τ) (c : cache_sim_t τ) : call →
    Option (cache_sim_t τ × List call)
  | call.access addr bytes store => access vt c addr bytes store
  | call.clean_invalidate addr bytes clean inval => clean_invalidate vt c addr bytes clean inval

/-- A sequence of calls on an engine, in order, with the calls it makes on its own miss
handler. -/
def replay {τ : Type} (vt : vtable τ) : cache_sim_t τ → List call →
    Option (cache_sim_t τ × List call)
  | c, [] => some (c, [])
  | c, x :: rest =>
    match dispatch vt c x with
    | none => none
    | some (c1, out1) =>
      match replay vt c1 rest with
      | none => none
      | some (c2, out2) => some (c2, out1 ++ out2)

/-- A call on the first engine of a two-level chain `l1 -> l2`: the calls `l1` makes on its miss
handler are executed by `l2`.  The result holds both engines and what `l2` forwards. -/
def chain2 {τ1 τ2 : Type} (vt1 : vtable τ1) (vt2 : vtable τ2)
    (l1 : cache_sim_t τ1) (l2 : cache_sim_t τ2) (x : call) :
    Option (cache_sim_t τ1 × cache_sim_t τ2 × List call) :=
  match dispatch vt1 l1 x with
  | none => none
  | some (l1a, out1) =>
    match replay vt2 l2 out1 with
    | none => none
    | some (l2a, out2) => some (l1a, l2a, out2)

/-- The arguments of a call are 64-bit values. -/
def call.fits : call → Prop
  | call.access addr bytes _ => addr < 2 ^ 64 ∧ bytes < 2 ^ 64
  | call.clean_invalidate addr bytes _ _ => addr < 2 ^ 64 ∧ bytes < 2 ^ 64

/-- The states an engine can be in: those reached from `c0` by `set_miss_handler`, `access`
and `clean_invalidate` calls with 64-bit arguments. -/
inductive reachable {τ : Type} (vt : vtable τ) (c0 : cache_sim_t τ) : cache_sim_t τ → Prop
  | start : reachable vt c0 c0
  | handler {c : cache_sim_t τ} : reachable vt c0 c → reachable vt c0 (set_miss_handler c)
  | step {c c1 : cache_sim_t τ} {out : List call} (x : call) :
      reachable vt c0 c → x.fits → dispatch vt c x = some (c1, out) → reachable vt c0 c1

/-- The addresses the range loop visits: `n` steps of `linesz` from `cur`. -/
def range_addrs (linesz cur n : Nat) : List Nat :=
  (List.range n).map (fun i => cur + i * linesz)

/-- The number of iterations of the range loop of `clean_invalidate`. -/
def iterations (linesz addr bytes : Nat) : Nat :=
  if start_addr linesz addr < end_addr linesz addr bytes
  then (end_addr linesz addr bytes - start_addr linesz addr) / linesz else 0

/-! ## Example engines -/

/-- The engine `ORIG.new 1 2 8` builds: one set, two ways, 8-byte lines, cold. -/
def ORIG.cold_1_2_8 : cache_sim_t orig_store :=
  { sets := 1, ways := 2, linesz := 8, idx_shift := 3, store := { tags := [0, 0], lfsr := 1 },
    read_accesses := 0, read_misses := 0, bytes_read := 0, write_accesses := 0,
    write_misses := 0, bytes_written := 0, writebacks := 0, miss_handler := false }

/-- The engine `SELF.new 1 2 8` builds: one set, two ways, 8-byte lines, cold. -/
def SELF.cold_1_2_8 : cache_sim_t self_store :=
  { sets := 1, ways := 2, linesz := 8, idx_shift := 3, store := { tags := [0, 0], timer := [0, 0] },
    read_accesses := 0, read_misses := 0, bytes_read := 0, write_accesses := 0,
    write_misses := 0, bytes_written := 0, writebacks := 0, miss_handler := false }

/-- The engine `FA.new 8 64` builds: a fully-associative store of 8 lines of 64 bytes, cold. -/
def FA.cold_8_64 : cache_sim_t fa_store :=
  { sets := 1, ways := 8, linesz := 64, idx_shift := 6, store := { tags := [], lfsr := 1 },
    read_accesses := 0, read_misses := 0, bytes_read := 0, write_accesses := 0,
    write_misses := 0, bytes_written := 0, writebacks := 0, miss_handler := false }

/-! ## Specification vocabulary -/

/-- The set an address maps to: `(addr >> idx_shift) & (sets-1)`. -/
def set_index {τ : Type} (c : cache_sim_t τ) (addr : Nat) : Nat :=
  (addr >>> c.idx_shift) &&& dec64 c.sets

/-- The way search shared by the `check_tag`s of `ORIG_cachesim.cc` and `SELF_cachesim.cc`. -/
def lookup {τ : Type} (c : cache_sim_t τ) (tags : List Nat) (addr : Nat) : Option Nat :=
  find_way tags (set_index c addr * c.ways) ((addr >>> c.idx_shift) ||| VALID) c.ways 0

/-- The tag word `w` holds the block of `addr`: VALID is set and the bits other than VALID and
DIRTY are `addr >> idx_shift`. -/
def holds (idx_shift w addr : Nat) : Prop :=
  w &&& VALID ≠ 0 ∧ w &&& not64 (VALID ||| DIRTY) = addr >>> idx_shift

instance (idx_shift w addr : Nat) : Decidable (holds idx_shift w addr) := by
  unfold holds
  infer_instance

/-- Every tag word is a 64-bit value. -/
def words_ok (tags : List Nat) : Prop := ∀ w ∈ tags, w < 2 ^ 64

instance (tags : List Nat) : Decidable (words_ok tags) := by
  unfold words_ok
  infer_instance

/-- A state of the set-associative engine of `ORIG_cachesim.cc`: a valid configuration with
the `idx_shift` of `init`, and a tag array of `sets*ways` 64-bit words. -/
def ORIG.wf (c : cache_sim_t orig_store) : Prop :=
  geom_ok c ∧ c.store.tags.length = c.sets * c.ways ∧ words_ok c.store.tags

instance (c : cache_sim_t orig_store) : Decidable (ORIG.wf c) := by
  unfold ORIG.wf
  infer_instance

/-- A state of the engine of `SELF_cachesim.cc`: a valid configuration with the `idx_shift`
of `init`, and tag and timer arrays of `sets*ways` entries, the tags 64-bit words. -/
def SELF.wf (c : cache_sim_t self_store) : Prop :=
  geom_ok c ∧ c.store.tags.length = c.sets * c.ways ∧
    c.store.timer.length = c.sets * c.ways ∧ words_ok c.store.tags

instance (c : cache_sim_t self_store) : Decidable (SELF.wf c) := by
  unfold SELF.wf
  infer_instance

/-- The lookup contract for the result `r` of `check_tag(addr)` on the tag array `tags`: a line
is returned exactly when some way of the set of `addr` holds the block of `addr`, and the line
returned is the lowest such way of that set. -/
def is_lookup_of {τ : Type} (c : cache_sim_t τ) (tags : List Nat) (addr : Nat)
    (r : Option Nat) : Prop :=
  ((∃ p, r = some p) ↔
    ∃ i, i < c.ways ∧ holds c.idx_shift (tags.getD (set_index c addr * c.ways + i) 0) addr) ∧
  ∀ p, r = some p →
    ∃ i, i < c.ways ∧ p = set_index c addr * c.ways + i ∧
      holds c.idx_shift (tags.getD p 0) addr ∧
      ∀ j, j < i → ¬ holds c.idx_shift (tags.getD (set_index c addr * c.ways + j) 0) addr

/-- The effect of `victimize(addr)` on the tag array: the way at index `p` lies in the set of
`addr` and inside the array, `victim` is the word stored there before, afterwards it holds
`(addr >> idx_shift) | VALID` (VALID set, DIRTY clear), and no other entry changes. -/
def installs {τ : Type} (c : cache_sim_t τ) (addr : Nat) (tags tags1 : List Nat)
    (p victim : Nat) : Prop :=
  set_index c addr * c.ways ≤ p ∧ p < (set_index c addr + 1) * c.ways ∧ p < tags.length ∧
  victim = tags.getD p 0 ∧
  tags1.getD p 0 = ((addr >>> c.idx_shift) ||| VALID) ∧
  tags1.getD p 0 &&& VALID ≠ 0 ∧ tags1.getD p 0 &&& DIRTY = 0 ∧
  tags1.length = tags.length ∧ ∀ q, q ≠ p → tags1.getD q 0 = tags.getD q 0

/-- The word `victimize` writes for `addr`: `(addr >> idx_shift) | VALID`. -/
def new_tag {τ : Type} (c : cache_sim_t τ) (addr : Nat) : Nat := (addr >>> c.idx_shift) ||| VALID

/-- The index `idx*ways + way` that `victimize` of `ORIG_cachesim.cc` replaces. -/
def ORIG.victim_index (c : cache_sim_t orig_store) (addr : Nat) : Nat :=
  set_index c addr * c.ways + lfsr_next c.store.lfsr % c.ways

/-- The index `idx*ways + way` that `victimize` of `SELF_cachesim.cc` replaces. -/
def SELF.victim_index (c : cache_sim_t self_store) (addr : Nat) : Nat :=
  set_index c addr * c.ways + SELF.victim_way c addr

/-- The victim word has both VALID and DIRTY set. -/
def valid_dirty (victim : Nat) : Prop := victim &&& (VALID ||| DIRTY) = (VALID ||| DIRTY)

instance (victim : Nat) : Decidable (valid_dirty victim) := by
  unfold valid_dirty
  infer_instance

/-- The calls `access` makes on its miss handler after a miss that evicted `victim`: the
writeback of the victim when it was valid and dirty, then the fill of the line of `addr`. -/
def miss_calls {τ : Type} (c : cache_sim_t τ) (victim addr : Nat) : List call :=
  (if valid_dirty victim ∧ c.miss_handler = true
   then [call.access (((victim &&& not64 (VALID ||| DIRTY)) <<< c.idx_shift) % 2 ^ 64)
           c.linesz true]
   else []) ++
  (if c.miss_handler = true
   then [call.access (addr &&& not64 (dec64 c.linesz)) c.linesz false] else [])

/-- The timers after the sweep that opens `check_tag` of `SELF_cachesim.cc`. -/
def SELF.ticked (c : cache_sim_t self_store) : List Nat :=
  tick c.store.tags (c.sets * c.ways) c.store.timer

/-- The index that `victimize` of `SELF_cachesim.cc` replaces when `access` calls it after the
lookup that missed, which has swept the timers. -/
def SELF.miss_index (c : cache_sim_t self_store) (addr : Nat) : Nat :=
  set_index c addr * c.ways
    + min_element (((SELF.ticked c).drop (set_index c addr * c.ways)).take c.ways)

/-- The map of `fa_cache_sim_t` after `victimize(addr)`. -/
def FA.installed (c : cache_sim_t fa_store) (addr : Nat) : List (Nat × Nat) :=
  (FA.victimize c addr).1.tags

/-- The engine after the first two statements of `access`, which count the access and its
bytes in the class of the access. -/
def count_access {τ : Type} (c : cache_sim_t τ) (bytes : Nat) (store : Bool) : cache_sim_t τ :=
  if store
  then { c with write_accesses := inc64 c.write_accesses,
                bytes_written := (c.bytes_written + bytes) % 2 ^ 64 }
  else { c with read_accesses := inc64 c.read_accesses,
                bytes_read := (c.bytes_read + bytes) % 2 ^ 64 }

/-- The lookup that opens `access` misses. -/
def first_lookup_misses {τ : Type} (vt : vtable τ) (c : cache_sim_t τ) (addr bytes : Nat)
    (store : Bool) : Prop :=
  (vt.check_tag (count_access c bytes store) addr).2 = none

/-- What one iteration of the range loop of `clean_invalidate` leaves in the tag word `w` of
the line it found: DIRTY cleared when `clean` and the line was dirty, then VALID cleared when
`inval`. -/
def clean_word (clean inval : Bool) (w : Nat) : Nat :=
  if inval then (if clean ∧ w &&& DIRTY ≠ 0 then w &&& not64 DIRTY else w) &&& not64 VALID
  else (if clean ∧ w &&& DIRTY ≠ 0 then w &&& not64 DIRTY else w)

/-- Every line of `SELF_cachesim.cc` with VALID clear has timer 0. -/
def SELF.idle_zero (c : cache_sim_t self_store) : Prop :=
  ∀ i, i < c.sets * c.ways → c.store.tags.getD i 0 &&& VALID = 0 → c.store.timer.getD i 0 = 0

/-- The invariant of the engine of `SELF_cachesim.cc`: well formed, and idle lines have
timer 0. -/
def SELF.inv (c : cache_sim_t self_store) : Prop := SELF.wf c ∧ SELF.idle_zero c

/-- A sequence of calls on the first engine of a chain `l1 -> l2`, in order; `l2` receives
only the calls `l1` makes on its miss handler. -/
def chain_run {τ1 τ2 : Type} (vt1 : vtable τ1) (vt2 : vtable τ2) :
    cache_sim_t τ1 → cache_sim_t τ2 → List call → Option (cache_sim_t τ1 × cache_sim_t τ2)
  | l1, l2, [] => some (l1, l2)
  | l1, l2, x :: xs =>
    (chain2 vt1 vt2 l1 l2 x).bind (fun r => chain_run vt1 vt2 r.1 r.2.1 xs)

/-- The call is an `access`. -/
def call.is_access : call → Prop
  | call.access _ _ _ => True
  | call.clean_invalidate _ _ _ _ => False

/-- The seven statistics counters are zero. -/
def counters_zero {τ : Type} (c : cache_sim_t τ) : Prop :=
  c.read_accesses = 0 ∧ c.read_misses = 0 ∧ c.bytes_read = 0 ∧ c.write_accesses = 0 ∧
  c.write_misses = 0 ∧ c.bytes_written = 0 ∧ c.writebacks = 0

instance {τ : Type} (c : cache_sim_t τ) : Decidable (counters_zero c) := by
  unfold counters_zero
  infer_instance

/-- The counters of the second level in terms of those of the first, as 64-bit values: every
miss of `l1` is one read access of `l2`, every writeback of `l1` one write access of `l2`, and
each of those accesses moves `l1.linesz` bytes. -/
def chain_counters {τ1 τ2 : Type} (l1 : cache_sim_t τ1) (l2 : cache_sim_t τ2) : Prop :=
  l2.read_accesses = (l1.read_misses + l1.write_misses) % 2 ^ 64 ∧
  l2.write_accesses = l1.writebacks % 2 ^ 64 ∧
  l2.bytes_read = (l1.linesz * l2.read_accesses) % 2 ^ 64 ∧
  l2.bytes_written = (l1.linesz * l2.write_accesses) % 2 ^ 64

/-- No two distinct ways of one set both have VALID set and equal tag bits (the bits other than
VALID and DIRTY). -/
def no_dup {τ : Type} (c : cache_sim_t τ) (tags : List Nat) : Prop :=
  ∀ s i j, s < c.sets → i < c.ways → j < c.ways → i ≠ j →
    tags.getD (s * c.ways + i) 0 &&& VALID ≠ 0 → tags.getD (s * c.ways + j) 0 &&& VALID ≠ 0 →
    tags.getD (s * c.ways + i) 0 &&& not64 (VALID ||| DIRTY)
      ≠ tags.getD (s * c.ways + j) 0 &&& not64 (VALID ||| DIRTY)

/-- The invariant of the engine of `ORIG_cachesim.cc`: well formed, and no set holds a block
twice. -/
def ORIG.inv (c : cache_sim_t orig_store) : Prop := ORIG.wf c ∧ no_dup c c.store.tags

/-- The engine `ORIG.new 1 3 8` builds: one set, three ways, 8-byte lines, cold. -/
def ORIG.cold_1_3_8 : cache_sim_t orig_store :=
  { sets := 1, ways := 3, linesz := 8, idx_shift := 3, store := { tags := [0, 0, 0], lfsr := 1 },
    read_accesses := 0, read_misses := 0, bytes_read := 0, write_accesses := 0,
    write_misses := 0, bytes_written := 0, writebacks := 0, miss_handler := false }

/-- The engine `ORIG.cold_1_2_8` after `access(0, 8, true)`: the line of block 0 is in way 1,
valid and dirty. -/
def ORIG.dirty_1_2_8 : cache_sim_t orig_store :=
  { sets := 1, ways := 2, linesz := 8, idx_shift := 3,
    store := { tags := [0, VALID ||| DIRTY], lfsr := lfsr_next 1 },
    read_accesses := 0, read_misses := 0, bytes_read := 0, write_accesses := 1,
    write_misses := 1, bytes_written := 8, writebacks := 0, miss_handler := false }

/-- The index of the line that `access(addr, ..)` of `SELF_cachesim.cc` touches: the line the
lookup hits, or the line `victimize` installs after a miss. -/
def SELF.touched (d : cache_sim_t self_store) (addr : Nat) : Nat :=
  match lookup d d.store.tags addr with
  | some p => p
  | none => SELF.miss_index d addr

/-- The engine `SELF.cold_1_2_8` after `access(0, 8, false)`: block 0 is in way 0. -/
def SELF.one_1_2_8 : cache_sim_t self_store :=
  { sets := 1, ways := 2, linesz := 8, idx_shift := 3,
    store := { tags := [VALID, 0], timer := [0, 0] },
    read_accesses := 1, read_misses := 1, bytes_read := 8, write_accesses := 0,
    write_misses := 0, bytes_written := 0, writebacks := 0, miss_handler := false }

/-- The map of `fa_cache_sim_t` is within capacity and consistent: at most `ways` entries, keys
strictly increasing (it is a `std::map`), and every value is its key with, possibly, VALID and
DIRTY or-ed in. -/
def fa_ok (ways : Nat) (m : List (Nat × Nat)) : Prop :=
  m.length ≤ ways ∧ m.Pairwise (fun a b => a.1 < b.1) ∧
    ∀ e ∈ m, e.2 &&& not64 (VALID ||| DIRTY) = e.1

/-- The invariant of `fa_cache_sim_t`: a valid configuration and a map within capacity. -/
def FA.inv (c : cache_sim_t fa_store) : Prop := geom_ok c ∧ fa_ok c.ways c.store.tags

/-- The engine `FA.new 1 8` builds: a fully-associative store of one line of 8 bytes, cold. -/
def FA.cold_1_8 : cache_sim_t fa_store :=
  { sets := 1, ways := 1, linesz := 8, idx_shift := 3, store := { tags := [], lfsr := 1 },
    read_accesses := 0, read_misses := 0, bytes_read := 0, write_accesses := 0,
    write_misses := 0, bytes_written := 0, writebacks := 0, miss_handler := false }

/-- The engine `FA.cold_1_8` after `access(0, 8, true)`: the map is full, block 0 is dirty. -/
def FA.one_1_8 : cache_sim_t fa_store :=
  { sets := 1, ways := 1, linesz := 8, idx_shift := 3,
    store := { tags := [(0, VALID ||| DIRTY)], lfsr := 1 },
    read_accesses := 0, read_misses := 0, bytes_read := 0, write_accesses := 1,
    write_misses := 1, bytes_written := 8, writebacks := 0, miss_handler := false }

/-- The lookup of `addr` in the tag array hits a line that has DIRTY set. -/
def dirty_hit {τ : Type} (c : cache_sim_t τ) (tags : List Nat) (addr : Nat) : Bool :=
  match lookup c tags addr with
  | some p => decide (tags.getD p 0 &&& DIRTY ≠ 0)
  | none => false

/-- The engine `ORIG.cold_1_3_8` after the loads `access(0, 8, false)`, `access(8, 8, false)`,
`access(16, 8, false)`: block 2 is in way 0 and block 1 in way 2. -/
def ORIG.warm_1_3_8 : cache_sim_t orig_store :=
  { sets := 1, ways := 3, linesz := 8, idx_shift := 3,
    store := { tags := [2 ||| VALID, 0, 1 ||| VALID],
               lfsr := lfsr_next (lfsr_next (lfsr_next 1)) },
    read_accesses := 3, read_misses := 3, bytes_read := 24, write_accesses := 0,
    write_misses := 0, bytes_written := 0, writebacks := 0, miss_handler := false }

/-- The engine `SELF.cold_1_2_8` after the loads `access(0, 8, false)`, `access(8, 8, false)`:
block 0 is in way 0 with timer 1, block 1 in way 1 with timer 0. -/
def SELF.two_1_2_8 : cache_sim_t self_store :=
  { sets := 1, ways := 2, linesz := 8, idx_shift := 3,
    store := { tags := [VALID, 1 ||| VALID], timer := [1, 0] },
    read_accesses := 2, read_misses := 2, bytes_read := 16, write_accesses := 0,
    write_misses := 0, bytes_written := 0, writebacks := 0, miss_handler := false }

/-- The engine `SELF.two_1_2_8` after `clean_invalidate(0, 8, false, true)`: way 0 is free
again, block 1 is in way 1 with timer 1. -/
def SELF.inval_1_2_8 : cache_sim_t self_store :=
  { sets := 1, ways := 2, linesz := 8, idx_shift := 3,
    store := { tags := [0, 1 ||| VALID], timer := [0, 1] },
    read_accesses := 2, read_misses := 2, bytes_read := 16, write_accesses := 0,
    write_misses := 0, bytes_written := 0, writebacks := 0, miss_handler := false }

/-- The outcome of a sequence of calls on the first engine of a chain `l1 -> l2`: the calls
return, the counters of `l2` are those of `l1` as 64-bit values, and they are those values
exactly when the sums and products do not pass `2 ^ 64`. -/
def chain_relation {τ1 τ2 : Type} (vt1 : vtable τ1) (vt2 : vtable τ2)
    (l1 : cache_sim_t τ1) (l2 : cache_sim_t τ2) (xs : List call) : Prop :=
  ∃ r, chain_run vt1 vt2 l1 l2 xs = some r ∧
    chain_counters r.1 r.2 ∧
    (r.1.read_misses + r.1.write_misses < 2 ^ 64 →
      r.2.read_accesses = r.1.read_misses + r.1.write_misses) ∧
    (r.1.writebacks < 2 ^ 64 → r.2.write_accesses = r.1.writebacks) ∧
    (r.1.linesz * r.2.read_accesses < 2 ^ 64 →
      r.2.bytes_read = r.1.linesz * r.2.read_accesses) ∧
    (r.1.linesz * r.2.write_accesses < 2 ^ 64 →
      r.2.bytes_written = r.1.linesz * r.2.write_accesses)

/-! ## Machine-word lemmas -/

theorem dec64_two_pow (k : Nat) : dec64 (2 ^ k) = 2 ^ k - 1 := by
  have h1 : 0 < 2 ^ k := Nat.two_pow_pos k
  unfold dec64
  rw [if_neg (by omega)]

/-- The decrement of a 64-bit word is the sum with `2 ^ 64 - 1` modulo `2 ^ 64`. -/
theorem dec64_mod (x : Nat) : dec64 (x % 2 ^ 64) = (x + (2 ^ 64 - 1)) % 2 ^ 64 := by
  unfold dec64
  split <;> omega

theorem testBit_not64 (x i : Nat) : (not64 x).testBit i = (decide (i < 64) ^^ x.testBit i) := by
  unfold not64
  rw [Nat.testBit_xor, Nat.testBit_two_pow_sub_one]

theorem testBit_ge_of_lt {x n i : Nat} (hx : x < 2 ^ n) (hi : n ≤ i) : x.testBit i = false := by
  apply Nat.testBit_lt_two_pow
  exact lt_of_lt_of_le hx (Nat.pow_le_pow_right (by norm_num) hi)

/-- The mask `~(2^k - 1)` clears the low `k` bits of a 64-bit word. -/
theorem and_not64_mask (x k : Nat) (hx : x < 2 ^ 64) :
    x &&& not64 (dec64 (2 ^ k)) = x / 2 ^ k * 2 ^ k := by
  rw [dec64_two_pow k]
  apply Nat.eq_of_testBit_eq
  intro i
  rw [Nat.testBit_and, testBit_not64, Nat.testBit_two_pow_sub_one,
    ← Nat.shiftRight_eq_div_pow, ← Nat.shiftLeft_eq, Nat.testBit_shiftLeft,
    Nat.testBit_shiftRight]
  by_cases h1 : i < 64
  · by_cases h2 : i < k
    · simp [h1, h2]
    · have : k + (i - k) = i := by omega
      simp [h1, h2, this]
      omega
  · have := testBit_ge_of_lt hx (not_lt.mp h1)
    simp [this]
    intro _
    have : k + (i - k) = i := by omega
    rw [this]; assumption

/-! ## The range loop of `clean_invalidate` -/

theorem range_addrs_succ (linesz cur n : Nat) :
    range_addrs linesz cur (n + 1) = cur :: range_addrs linesz (cur + linesz) n := by
  unfold range_addrs
  rw [List.range_succ_eq_map, List.map_cons, List.map_map]
  simp only [Nat.zero_mul, Nat.add_zero, List.cons.injEq, true_and]
  apply List.map_congr_left
  intro i _
  simp only [Function.comp, Nat.succ_eq_add_one]
  ring

/-- With `n` line-sized steps between `cur` and `end_addr`, and `end_addr` a 64-bit word, the
loop runs the body at exactly those `n` addresses, in order, whenever `n` units of fuel are
given. -/
theorem while_loop_steps {α : Type} (body : α → Nat → α) (linesz end_addr : Nat)
    (hl : 0 < linesz) (he : end_addr < 2 ^ 64) :
    ∀ (n fuel : Nat) (s : α) (cur : Nat), n ≤ fuel → cur + n * linesz = end_addr →
      while_loop body linesz end_addr fuel s cur
        = some ((range_addrs linesz cur n).foldl body s) := by
  intro n
  induction n with
  | zero =>
    intro fuel s cur _ hc
    have hnot : ¬ cur < end_addr := by omega
    cases fuel <;> simp [while_loop, hnot, range_addrs]
  | succ n ih =>
    intro fuel s cur hf hc
    have hlt : cur < end_addr := by
      have : 0 < (n + 1) * linesz := Nat.mul_pos (Nat.succ_pos n) hl
      omega
    have hstep : cur + linesz + n * linesz = end_addr := by
      rw [← hc]; ring
    have hle : cur + linesz ≤ end_addr := by
      rw [← hstep]; exact Nat.le_add_right _ _
    cases fuel with
    | zero => omega
    | succ fuel =>
      have hmod : (cur + linesz) % 2 ^ 64 = cur + linesz := Nat.mod_eq_of_lt (by omega)
      rw [while_loop, if_pos hlt, hmod, ih fuel (body s cur) (cur + linesz) (by omega) hstep,
        range_addrs_succ, List.foldl_cons]

/-- When `end_addr` is not above `cur`, the loop exits at once. -/
theorem while_loop_none {α : Type} (body : α → Nat → α) (linesz end_addr fuel : Nat) (s : α)
    (cur : Nat) (h : end_addr ≤ cur) : while_loop body linesz end_addr fuel s cur = some s := by
  have hnot : ¬ cur < end_addr := by omega
  cases fuel <;> simp [while_loop, hnot]

theorem start_addr_eq (k addr : Nat) (_ : k < 64) (ha : addr < 2 ^ 64) :
    start_addr (2 ^ k) addr = addr / 2 ^ k * 2 ^ k := by
  unfold start_addr
  exact and_not64_mask addr k ha

theorem end_addr_eq (k addr bytes : Nat) (_ : k < 64) :
    end_addr (2 ^ k) addr bytes
      = ((addr + bytes + 2 ^ k + (2 ^ 64 - 1)) % 2 ^ 64) / 2 ^ k * 2 ^ k := by
  unfold end_addr
  rw [dec64_mod]
  exact and_not64_mask _ k (Nat.mod_lt _ (by norm_num))

theorem end_addr_lt (k addr bytes : Nat) (hk : k < 64) :
    end_addr (2 ^ k) addr bytes < 2 ^ 64 := by
  rw [end_addr_eq k addr bytes hk]
  have h1 : (addr + bytes + 2 ^ k + (2 ^ 64 - 1)) % 2 ^ 64 < 2 ^ 64 := Nat.mod_lt _ (by norm_num)
  exact lt_of_le_of_lt (Nat.div_mul_le_self _ _) h1

/-- The loop of `clean_invalidate` as a fold over the visited addresses. -/
theorem while_loop_range {α : Type} (body : α → Nat → α) (k addr bytes fuel : Nat) (s : α)
    (hk : k < 64) (ha : addr < 2 ^ 64) (hf : iterations (2 ^ k) addr bytes ≤ fuel) :
    while_loop body (2 ^ k) (end_addr (2 ^ k) addr bytes) fuel s (start_addr (2 ^ k) addr)
      = some ((range_addrs (2 ^ k) (start_addr (2 ^ k) addr)
          (iterations (2 ^ k) addr bytes)).foldl body s) := by
  have hpos : 0 < 2 ^ k := Nat.two_pow_pos k
  unfold iterations at hf ⊢
  by_cases hlt : start_addr (2 ^ k) addr < end_addr (2 ^ k) addr bytes
  · rw [if_pos hlt] at hf ⊢
    apply while_loop_steps body (2 ^ k) _ hpos (end_addr_lt k addr bytes hk) _ fuel s _ hf
    have hs := start_addr_eq k addr hk ha
    have he := end_addr_eq k addr bytes hk
    have hdvd : 2 ^ k ∣ end_addr (2 ^ k) addr bytes - start_addr (2 ^ k) addr := by
      apply Nat.dvd_sub'
      · rw [he]; exact Nat.dvd_mul_left _ _
      · rw [hs]; exact Nat.dvd_mul_left _ _
    rw [Nat.div_mul_cancel hdvd]
    omega
  · rw [if_neg hlt]
    rw [while_loop_none body _ _ fuel s _ (not_lt.mp hlt)]
    simp [range_addrs]

theorem iterations_le (k addr bytes : Nat) (hk : k < 64) :
    iterations (2 ^ k) addr bytes ≤ loop_fuel := by
  unfold iterations loop_fuel
  split
  · have h1 := end_addr_lt k addr bytes hk
    have h2 : (end_addr (2 ^ k) addr bytes - start_addr (2 ^ k) addr) / 2 ^ k
        ≤ end_addr (2 ^ k) addr bytes - start_addr (2 ^ k) addr := Nat.div_le_self _ _
    omega
  · exact Nat.zero_le _

/-- The `clean_invalidate` of an engine whose line size is `2 ^ k`, in closed form. -/
theorem clean_invalidate_eq {τ : Type} (vt : vtable τ) (c : cache_sim_t τ) (k addr bytes : Nat)
    (clean inval : Bool) (hk : k < 64) (hl : c.linesz = 2 ^ k) (ha : addr < 2 ^ 64) :
    clean_invalidate vt c addr bytes clean inval
      = some ((range_addrs (2 ^ k) (start_addr (2 ^ k) addr)
                (iterations (2 ^ k) addr bytes)).foldl (clean_invalidate_body vt clean inval) c,
              if ((range_addrs (2 ^ k) (start_addr (2 ^ k) addr)
                (iterations (2 ^ k) addr bytes)).foldl
                  (clean_invalidate_body vt clean inval) c).miss_handler
              then [call.clean_invalidate addr bytes clean inval] else []) := by
  unfold clean_invalidate
  rw [hl, while_loop_range _ k addr bytes loop_fuel c hk ha (iterations_le k addr bytes hk),
    Option.map_some']

/-! ## The range loop terminates (C8) -/

theorem range_addrs_length (linesz cur n : Nat) : (range_addrs linesz cur n).length = n := by
  simp [range_addrs]

theorem mem_range_addrs (linesz cur n x : Nat) :
    x ∈ range_addrs linesz cur n ↔ ∃ i, i < n ∧ x = cur + i * linesz := by
  simp only [range_addrs, List.mem_map, List.mem_range]
  constructor
  · rintro ⟨i, hi, rfl⟩
    exact ⟨i, hi, rfl⟩
  · rintro ⟨i, hi, rfl⟩
    exact ⟨i, hi, rfl⟩

theorem foldl_count (l : List Nat) (n : Nat) : l.foldl (fun m _ => m + 1) n = n + l.length := by
  induction l generalizing n with
  | nil => rfl
  | cons x l ih => rw [List.foldl_cons, ih, List.length_cons]; omega

/-- When the loop is entered, the iterations cover the distance from `start_addr` to `end_addr`
exactly. -/
theorem iterations_mul (k addr bytes : Nat) (hk : k < 64) (ha : addr < 2 ^ 64)
    (hlt : start_addr (2 ^ k) addr < end_addr (2 ^ k) addr bytes) :
    start_addr (2 ^ k) addr + iterations (2 ^ k) addr bytes * 2 ^ k
      = end_addr (2 ^ k) addr bytes := by
  unfold iterations
  rw [if_pos hlt]
  have hs := start_addr_eq k addr hk ha
  have he := end_addr_eq k addr bytes hk
  have hdvd : 2 ^ k ∣ end_addr (2 ^ k) addr bytes - start_addr (2 ^ k) addr := by
    apply Nat.dvd_sub'
    · rw [he]; exact Nat.dvd_mul_left _ _
    · rw [hs]; exact Nat.dvd_mul_left _ _
  rw [Nat.div_mul_cancel hdvd]
  omega

/-- C8: for a line size `2 ^ k` and 64-bit `addr`, whatever `bytes` is, the range loop of
`clean_invalidate` exits: it runs its body at the addresses `start_addr + i * linesz` for
`i < iterations`, in order, where `iterations` is `(end_addr - start_addr) / linesz` when
`start_addr < end_addr` and zero otherwise; a body that counts is run exactly `iterations`
times; and at every visited address `cur + linesz` stays below `2 ^ 64` (no wrap-around). -/
theorem clean_invalidate_loop_terminates {α : Type} (body : α → Nat → α) (s : α)
    (k addr bytes : Nat) (hk : k < 64) (ha : addr < 2 ^ 64) :
    while_loop body (2 ^ k) (end_addr (2 ^ k) addr bytes) loop_fuel s (start_addr (2 ^ k) addr)
        = some ((range_addrs (2 ^ k) (start_addr (2 ^ k) addr)
            (iterations (2 ^ k) addr bytes)).foldl body s)
      ∧ while_loop (fun m _ => m + 1) (2 ^ k) (end_addr (2 ^ k) addr bytes) loop_fuel 0
          (start_addr (2 ^ k) addr)
        = some (if start_addr (2 ^ k) addr < end_addr (2 ^ k) addr bytes
                then (end_addr (2 ^ k) addr bytes - start_addr (2 ^ k) addr) / 2 ^ k else 0)
      ∧ ∀ i, i < iterations (2 ^ k) addr bytes →
          start_addr (2 ^ k) addr + i * 2 ^ k < end_addr (2 ^ k) addr bytes ∧
          start_addr (2 ^ k) addr + i * 2 ^ k + 2 ^ k < 2 ^ 64 := by
  refine ⟨while_loop_range body k addr bytes loop_fuel s hk ha (iterations_le k addr bytes hk),
    ?_, ?_⟩
  · rw [while_loop_range _ k addr bytes loop_fuel 0 hk ha (iterations_le k addr bytes hk),
      foldl_count, range_addrs_length, Nat.zero_add]
    rfl
  · intro i hi
    have hlt : start_addr (2 ^ k) addr < end_addr (2 ^ k) addr bytes := by
      by_contra h
      unfold iterations at hi
      rw [if_neg h] at hi
      omega
    have hm := iterations_mul k addr bytes hk ha hlt
    have he := end_addr_lt k addr bytes hk
    have hpos : 0 < 2 ^ k := Nat.two_pow_pos k
    have h1 : (i + 1) * 2 ^ k ≤ iterations (2 ^ k) addr bytes * 2 ^ k :=
      Nat.mul_le_mul_right _ hi
    have h2 : (i + 1) * 2 ^ k = i * 2 ^ k + 2 ^ k := by ring
    omega

theorem clean_invalidate_loop_terminates_witness :
    3 < 64 ∧ 13 < 2 ^ 64 ∧
    (while_loop (fun (m : Nat) _ => m + 1) (2 ^ 3) (end_addr (2 ^ 3) 13 20) loop_fuel 0
        (start_addr (2 ^ 3) 13)
        = some ((range_addrs (2 ^ 3) (start_addr (2 ^ 3) 13)
            (iterations (2 ^ 3) 13 20)).foldl (fun (m : Nat) _ => m + 1) 0)
      ∧ while_loop (fun m _ => m + 1) (2 ^ 3) (end_addr (2 ^ 3) 13 20) loop_fuel 0
          (start_addr (2 ^ 3) 13)
        = some (if start_addr (2 ^ 3) 13 < end_addr (2 ^ 3) 13 20
                then (end_addr (2 ^ 3) 13 20 - start_addr (2 ^ 3) 13) / 2 ^ 3 else 0)
      ∧ ∀ i, i < iterations (2 ^ 3) 13 20 →
          start_addr (2 ^ 3) 13 + i * 2 ^ 3 < end_addr (2 ^ 3) 13 20 ∧
          start_addr (2 ^ 3) 13 + i * 2 ^ 3 + 2 ^ 3 < 2 ^ 64) :=
  ⟨by decide, by decide, clean_invalidate_loop_terminates _ 0 3 13 20 (by decide) (by decide)⟩

/-! ## Frame of the range loop -/

/-- One step of the range loop writes only the store and the `writebacks` counter. -/
theorem clean_invalidate_body_eq {τ : Type} (vt : vtable τ) (clean inval : Bool)
    (c : cache_sim_t τ) (a : Nat) :
    ∃ st wb, clean_invalidate_body vt clean inval c a = { c with store := st, writebacks := wb } := by
  simp only [clean_invalidate_body]
  cases (vt.check_tag c a).2 with
  | none => exact ⟨_, _, rfl⟩
  | some p =>
    simp only []
    split <;> split <;> exact ⟨_, _, rfl⟩

theorem foldl_body_eq {τ : Type} (vt : vtable τ) (clean inval : Bool) (l : List Nat)
    (c : cache_sim_t τ) :
    ∃ st wb, l.foldl (clean_invalidate_body vt clean inval) c
      = { c with store := st, writebacks := wb } := by
  induction l generalizing c with
  | nil => exact ⟨_, _, rfl⟩
  | cons a l ih =>
    obtain ⟨st, wb, h⟩ := clean_invalidate_body_eq vt clean inval c a
    obtain ⟨st2, wb2, h2⟩ := ih (clean_invalidate_body vt clean inval c a)
    rw [List.foldl_cons, h2, h]
    exact ⟨_, _, rfl⟩

theorem foldl_body_miss_handler {τ : Type} (vt : vtable τ) (clean inval : Bool) (l : List Nat)
    (c : cache_sim_t τ) :
    (l.foldl (clean_invalidate_body vt clean inval) c).miss_handler = c.miss_handler := by
  obtain ⟨st, wb, h⟩ := foldl_body_eq vt clean inval l c
  rw [h]

/-! ## Example engines are the constructed ones -/

theorem orig_new_1_2_8 : ORIG.new 1 2 8 = some ORIG.cold_1_2_8 := by decide

theorem self_new_1_2_8 : SELF.new 1 2 8 = some SELF.cold_1_2_8 := by decide

theorem fa_new_8_64 : FA.new 8 64 = some FA.cold_8_64 := by decide

/-! ## Chain propagation of `clean_invalidate` (C10) -/

/-- C10: `clean_invalidate(addr, bytes, clean, inval)` on an engine `l1` returns, and the calls
it makes on its miss handler are exactly the one call `clean_invalidate(addr, bytes, clean,
inval)` when a handler is attached and none otherwise, whatever the range loop found.  In a
chain `l1 -> l2` the next level therefore ends in the state that the same call made on it
directly gives; with no handler attached `l2` is untouched. -/
theorem clean_invalidate_forwards_once {τ1 τ2 : Type} (vt1 : vtable τ1) (vt2 : vtable τ2)
    (l1 : cache_sim_t τ1) (l2 : cache_sim_t τ2) (k addr bytes : Nat) (clean inval : Bool)
    (hk : k < 64) (hl : l1.linesz = 2 ^ k) (ha : addr < 2 ^ 64) :
    ∃ l1a, clean_invalidate vt1 l1 addr bytes clean inval
        = some (l1a, if l1.miss_handler then [call.clean_invalidate addr bytes clean inval]
                     else [])
      ∧ (l1.miss_handler = true →
          chain2 vt1 vt2 l1 l2 (call.clean_invalidate addr bytes clean inval)
            = (clean_invalidate vt2 l2 addr bytes clean inval).map (fun r => (l1a, r.1, r.2)))
      ∧ (l1.miss_handler = false →
          chain2 vt1 vt2 l1 l2 (call.clean_invalidate addr bytes clean inval)
            = some (l1a, l2, [])) := by
  have h := clean_invalidate_eq vt1 l1 k addr bytes clean inval hk hl ha
  rw [foldl_body_miss_handler] at h
  refine ⟨_, h, ?_, ?_⟩
  · intro hm
    generalize hr : clean_invalidate vt2 l2 addr bytes clean inval = r2
    simp only [chain2, dispatch, h, hm, if_true, replay, hr]
    cases r2 with
    | none => rfl
    | some r => simp
  · intro hm
    simp [chain2, dispatch, h, hm, replay]

theorem clean_invalidate_forwards_once_witness :
    ∃ l1a, clean_invalidate ORIG.vt (set_miss_handler ORIG.cold_1_2_8) 5 20 true true
        = some (l1a, if (set_miss_handler ORIG.cold_1_2_8).miss_handler
                     then [call.clean_invalidate 5 20 true true] else [])
      ∧ ((set_miss_handler ORIG.cold_1_2_8).miss_handler = true →
          chain2 ORIG.vt FA.vt (set_miss_handler ORIG.cold_1_2_8) FA.cold_8_64
              (call.clean_invalidate 5 20 true true)
            = (clean_invalidate FA.vt FA.cold_8_64 5 20 true true).map
                (fun r => (l1a, r.1, r.2)))
      ∧ ((set_miss_handler ORIG.cold_1_2_8).miss_handler = false →
          chain2 ORIG.vt FA.vt (set_miss_handler ORIG.cold_1_2_8) FA.cold_8_64
              (call.clean_invalidate 5 20 true true)
            = some (l1a, FA.cold_8_64, [])) :=
  clean_invalidate_forwards_once ORIG.vt FA.vt (set_miss_handler ORIG.cold_1_2_8) FA.cold_8_64
    3 5 20 true true (by decide) (by decide) (by decide)

/-! ## Zero-length `clean_invalidate` (C7) -/

/-- An aligned 64-bit address leaves room for one more line below `2 ^ 64`. -/
theorem aligned_add_le (k addr : Nat) (hk : k < 64) (ha : addr < 2 ^ 64)
    (hal : addr % 2 ^ k = 0) : addr + 2 ^ k ≤ 2 ^ 64 := by
  have hpos : 0 < 2 ^ k := Nat.two_pow_pos k
  have hsplit : (2 : Nat) ^ 64 = 2 ^ k * 2 ^ (64 - k) := by
    rw [← Nat.pow_add]; congr 1; omega
  have hq : addr = 2 ^ k * (addr / 2 ^ k) := by
    have := Nat.div_add_mod addr (2 ^ k)
    omega
  have hlt : addr / 2 ^ k < 2 ^ (64 - k) := by
    rw [Nat.div_lt_iff_lt_mul hpos, Nat.mul_comm, ← hsplit]
    exact ha
  have h1 : 2 ^ k * (addr / 2 ^ k + 1) ≤ 2 ^ k * 2 ^ (64 - k) := Nat.mul_le_mul_left _ hlt
  rw [hsplit]
  calc addr + 2 ^ k = 2 ^ k * (addr / 2 ^ k + 1) := by rw [Nat.mul_add, Nat.mul_one, ← hq]
    _ ≤ 2 ^ k * 2 ^ (64 - k) := h1

theorem iterations_zero_aligned (k addr : Nat) (hk : k < 64) (ha : addr < 2 ^ 64)
    (hal : addr % 2 ^ k = 0) : iterations (2 ^ k) addr 0 = 0 := by
  have hpos : 0 < 2 ^ k := Nat.two_pow_pos k
  have hle := aligned_add_le k addr hk ha hal
  have hdm := Nat.div_add_mod addr (2 ^ k)
  have hs : start_addr (2 ^ k) addr = addr := by
    rw [start_addr_eq k addr hk ha, Nat.mul_comm]; omega
  have hmod : (addr + 0 + 2 ^ k + (2 ^ 64 - 1)) % 2 ^ 64 = addr + 2 ^ k - 1 := by omega
  have hdiv : (addr + 2 ^ k - 1) / 2 ^ k = addr / 2 ^ k := by
    apply Nat.div_eq_of_lt_le
    · rw [Nat.mul_comm]; omega
    · rw [Nat.add_mul, Nat.one_mul, Nat.mul_comm]; omega
  have he : end_addr (2 ^ k) addr 0 = addr := by
    rw [end_addr_eq k addr 0 hk, hmod, hdiv, Nat.mul_comm]; omega
  unfold iterations
  rw [hs, he, if_neg (Nat.lt_irrefl _)]

theorem iterations_one_unaligned (k addr : Nat) (hk : k < 64) (ha : addr + 2 ^ k ≤ 2 ^ 64)
    (hal : addr % 2 ^ k ≠ 0) : iterations (2 ^ k) addr 0 = 1 := by
  have hpos : 0 < 2 ^ k := Nat.two_pow_pos k
  have hdm := Nat.div_add_mod addr (2 ^ k)
  have hml := Nat.mod_lt addr hpos
  have hs : start_addr (2 ^ k) addr = 2 ^ k * (addr / 2 ^ k) := by
    rw [start_addr_eq k addr hk (by omega), Nat.mul_comm]
  have hmod : (addr + 0 + 2 ^ k + (2 ^ 64 - 1)) % 2 ^ 64 = addr + 2 ^ k - 1 := by omega
  have hdiv : (addr + 2 ^ k - 1) / 2 ^ k = addr / 2 ^ k + 1 := by
    apply Nat.div_eq_of_lt_le
    · rw [Nat.add_mul, Nat.one_mul, Nat.mul_comm]; omega
    · rw [Nat.add_mul, Nat.add_mul, Nat.one_mul, Nat.mul_comm]; omega
  have he : end_addr (2 ^ k) addr 0 = 2 ^ k * (addr / 2 ^ k) + 2 ^ k := by
    rw [end_addr_eq k addr 0 hk, hmod, hdiv, Nat.add_mul, Nat.one_mul, Nat.mul_comm]
  unfold iterations
  rw [hs, he, if_pos (by omega), Nat.add_sub_cancel_left, Nat.div_self hpos]

/-- C7 (counterexample): on the one-set two-way engine with 8-byte lines, after the store
`access(0, 8, true)` the unaligned zero-length call `clean_invalidate(1, 0, true, true)` runs
one iteration of the range loop: it clears VALID and DIRTY of the line of block 0 and counts a
writeback. -/
theorem clean_invalidate_zero_length_unaligned :
    iterations 8 1 0 = 1 ∧
    (access ORIG.vt ORIG.cold_1_2_8 0 8 true).bind (fun r =>
      (clean_invalidate ORIG.vt r.1 1 0 true true).map (fun r2 =>
        (r.1.store.tags, r.1.writebacks, r2.1.store.tags, r2.1.writebacks)))
      = some ([0, VALID ||| DIRTY], 0, [0, 0], 1) := by
  decide

/-- C7 (amended): for a line size `2 ^ k` and a 64-bit `addr`, the zero-length call
`clean_invalidate(addr, 0, clean, inval)` runs no iteration and leaves the engine as it was when
`addr` is a multiple of the line size; when `addr` is not a multiple of the line size (and
`addr + linesz` does not pass `2 ^ 64`) it runs exactly one iteration, at the block of `addr`.
The call is forwarded to the miss handler in both cases. -/
theorem clean_invalidate_zero_length {τ : Type} (vt : vtable τ) (c : cache_sim_t τ)
    (k addr : Nat) (clean inval : Bool) (hk : k < 64) (hl : c.linesz = 2 ^ k)
    (ha : addr + 2 ^ k ≤ 2 ^ 64) :
    (addr % 2 ^ k = 0 →
      iterations (2 ^ k) addr 0 = 0 ∧
      clean_invalidate vt c addr 0 clean inval
        = some (c, if c.miss_handler then [call.clean_invalidate addr 0 clean inval] else []))
    ∧ (addr % 2 ^ k ≠ 0 →
      iterations (2 ^ k) addr 0 = 1 ∧
      clean_invalidate vt c addr 0 clean inval
        = some (clean_invalidate_body vt clean inval c (start_addr (2 ^ k) addr),
                if c.miss_handler then [call.clean_invalidate addr 0 clean inval] else [])) := by
  have hpos : 0 < 2 ^ k := Nat.two_pow_pos k
  have ha2 : addr < 2 ^ 64 := by omega
  have h := clean_invalidate_eq vt c k addr 0 clean inval hk hl ha2
  rw [foldl_body_miss_handler] at h
  constructor
  · intro hal
    have hi := iterations_zero_aligned k addr hk ha2 hal
    rw [hi] at h
    exact ⟨hi, h⟩
  · intro hal
    have hi := iterations_one_unaligned k addr hk ha hal
    rw [hi] at h
    refine ⟨hi, ?_⟩
    rw [h, range_addrs_succ]
    simp [range_addrs]

theorem clean_invalidate_zero_length_witness :
    (16 % 2 ^ 3 = 0 →
      iterations (2 ^ 3) 16 0 = 0 ∧
      clean_invalidate SELF.vt SELF.cold_1_2_8 16 0 true true
        = some (SELF.cold_1_2_8, if SELF.cold_1_2_8.miss_handler
                  then [call.clean_invalidate 16 0 true true] else []))
    ∧ (16 % 2 ^ 3 ≠ 0 →
      iterations (2 ^ 3) 16 0 = 1 ∧
      clean_invalidate SELF.vt SELF.cold_1_2_8 16 0 true true
        = some (clean_invalidate_body SELF.vt true true SELF.cold_1_2_8 (start_addr (2 ^ 3) 16),
                if SELF.cold_1_2_8.miss_handler
                  then [call.clean_invalidate 16 0 true true] else [])) :=
  clean_invalidate_zero_length SELF.vt SELF.cold_1_2_8 3 16 true true (by decide) (by decide)
    (by decide)

/-! ## Victim choice of the timer policy (C2) -/

theorem set_index_lt {τ : Type} (c : cache_sim_t τ) (addr : Nat) (hg : geom_ok c) :
    set_index c addr < c.sets := by
  obtain ⟨⟨⟨j, _, hj⟩, _⟩, _⟩ := hg
  unfold set_index
  rw [hj, dec64_two_pow, Nat.and_pow_two_sub_one_eq_mod]
  exact Nat.mod_lt _ (Nat.two_pow_pos j)

theorem drop_cons_inv (L : List Nat) (i x : Nat) (rest : List Nat) (h : L.drop i = x :: rest) :
    L.getD i 0 = x ∧ i < L.length ∧ L.drop (i + 1) = rest := by
  have hi : i < L.length := by
    by_contra hc
    rw [List.drop_of_length_le (by omega)] at h
    cases h
  have := List.drop_eq_getElem_cons hi
  rw [h] at this
  injection this with h1 h2
  refine ⟨?_, hi, h2.symm⟩
  rw [List.getD_eq_getElem _ _ hi]
  exact h1.symm

/-- The loop of `std::min_element` keeps the position of the first smallest element seen. -/
theorem min_element_go_spec (L : List Nat) :
    ∀ (l : List Nat) (i smallest least : Nat), L.drop i = l → smallest < i → i ≤ L.length →
      L.getD smallest 0 = least → (∀ j, j < i → least ≤ L.getD j 0) →
      (∀ j, j < smallest → least < L.getD j 0) →
      min_element.go l i smallest least < L.length ∧
      (∀ j, j < L.length → L.getD (min_element.go l i smallest least) 0 ≤ L.getD j 0) ∧
      (∀ j, j < min_element.go l i smallest least →
        L.getD (min_element.go l i smallest least) 0 < L.getD j 0) := by
  intro l
  induction l with
  | nil =>
    intro i smallest least hd hs hi hl hall hlow
    have hlen : L.length ≤ i := by
      by_contra hc
      have := List.drop_eq_getElem_cons (not_le.mp hc)
      rw [hd] at this
      cases this
    have hi2 : i = L.length := by omega
    simp only [min_element.go]
    refine ⟨by omega, ?_, ?_⟩
    · intro j hj; rw [hl]; exact hall j (by omega)
    · intro j hj; rw [hl]; exact hlow j hj
  | cons x rest ih =>
    intro i smallest least hd hs hi hl hall hlow
    obtain ⟨hx, hilt, hrest⟩ := drop_cons_inv L i x rest hd
    simp only [min_element.go]
    by_cases hc : x < least
    · rw [if_pos hc]
      apply ih (i + 1) i x hrest (by omega) (by omega) hx
      · intro j hj
        by_cases hji : j = i
        · rw [hji, hx]
        · have := hall j (by omega); omega
      · intro j hj
        have := hall j hj; omega
    · rw [if_neg hc]
      apply ih (i + 1) smallest least hrest (by omega) (by omega) hl
      · intro j hj
        by_cases hji : j = i
        · rw [hji, hx]; omega
        · exact hall j (by omega)
      · exact hlow

/-- The result of `std::min_element` on a non-empty range: the first position holding the
smallest value. -/
theorem min_element_spec (L : List Nat) (hne : 0 < L.length) :
    min_element L < L.length ∧
    (∀ j, j < L.length → L.getD (min_element L) 0 ≤ L.getD j 0) ∧
    (∀ j, j < min_element L → L.getD (min_element L) 0 < L.getD j 0) := by
  cases L with
  | nil => simp at hne
  | cons x rest =>
    simp only [min_element]
    apply min_element_go_spec (x :: rest) rest 1 0 x rfl (by omega) (by simp) rfl
    · intro j hj
      have : j = 0 := by omega
      rw [this]; rfl
    · intro j hj; omega

theorem set_timers_getD (t : List Nat) (b w j : Nat) (hj : j < w) :
    ((t.drop b).take w).getD j 0 = t.getD (b + j) 0 := by
  simp [List.getD_eq_getElem?_getD, List.getElem?_take, hj, List.getElem?_drop]

theorem set_timers_length (t : List Nat) (b w : Nat) (h : b + w ≤ t.length) :
    ((t.drop b).take w).length = w := by
  simp; omega

/-- Every set lies inside the arrays: `idx*ways + ways <= sets*ways`. -/
theorem set_base_le {τ : Type} (c : cache_sim_t τ) (addr : Nat) (hg : geom_ok c) :
    set_index c addr * c.ways + c.ways ≤ c.sets * c.ways := by
  have h := set_index_lt c addr hg
  calc set_index c addr * c.ways + c.ways = (set_index c addr + 1) * c.ways := by ring
    _ ≤ c.sets * c.ways := Nat.mul_le_mul_right _ h

/-- The way chosen by `std::min_element` is one of the `ways` ways of the set. -/
theorem victim_way_lt (c : cache_sim_t self_store) (addr : Nat) (hg : geom_ok c)
    (hlen : c.store.timer.length = c.sets * c.ways) : SELF.victim_way c addr < c.ways := by
  have hw : 0 < c.ways := hg.1.2.1
  have hb := set_base_le c addr hg
  have hl := set_timers_length c.store.timer (set_index c addr * c.ways) c.ways (by omega)
  have h1 := (min_element_spec
    ((c.store.timer.drop (set_index c addr * c.ways)).take c.ways) (by omega)).1
  rw [hl] at h1
  exact h1

/-- C2 (counterexample): on the one-set two-way engine with 8-byte lines, after loads of the
blocks at 0 and 8 the lookup of a load at 16 leaves the timers `[2, 1]`; `victimize` replaces
way 1, whose timer 1 is the smaller one, not way 0 with the maximum timer. -/
theorem victimize_not_max_timer :
    (access SELF.vt SELF.cold_1_2_8 0 8 false).bind (fun r1 =>
      (access SELF.vt r1.1 8 8 false).map (fun r2 =>
        (((SELF.check_tag r2.1 16).1.timer,
          SELF.victim_way { r2.1 with store := (SELF.check_tag r2.1 16).1 } 16),
         (SELF.victimize { r2.1 with store := (SELF.check_tag r2.1 16).1 } 16).1.tags)))
      = some (([2, 1], 1), [VALID, VALID ||| 2]) := by
  decide

/-- C2 (amended): in a valid configuration with a timer array of `sets*ways` entries, the way
that `victimize` of `SELF_cachesim.cc` replaces lies in the set of `addr`, its timer is the
minimum over the ways of that set, and among the ways with that minimum it is the one with the
lowest way index. -/
theorem victimize_min_timer (c : cache_sim_t self_store) (addr : Nat) (hg : geom_ok c)
    (hlen : c.store.timer.length = c.sets * c.ways) :
    SELF.victim_way c addr < c.ways ∧
    (SELF.victimize c addr).1.tags
      = c.store.tags.set (set_index c addr * c.ways + SELF.victim_way c addr)
          ((addr >>> c.idx_shift) ||| VALID) ∧
    (∀ j, j < c.ways →
      c.store.timer.getD (set_index c addr * c.ways + SELF.victim_way c addr) 0
        ≤ c.store.timer.getD (set_index c addr * c.ways + j) 0) ∧
    (∀ j, j < SELF.victim_way c addr →
      c.store.timer.getD (set_index c addr * c.ways + SELF.victim_way c addr) 0
        < c.store.timer.getD (set_index c addr * c.ways + j) 0) := by
  have hw : 0 < c.ways := hg.1.2.1
  have hb := set_base_le c addr hg
  have hl := set_timers_length c.store.timer (set_index c addr * c.ways) c.ways (by omega)
  obtain ⟨h1, h2, h3⟩ := min_element_spec
    ((c.store.timer.drop (set_index c addr * c.ways)).take c.ways) (by omega)
  have hv : SELF.victim_way c addr
      = min_element ((c.store.timer.drop (set_index c addr * c.ways)).take c.ways) := rfl
  rw [← hv] at h1 h2 h3
  rw [hl] at h1 h2
  refine ⟨h1, rfl, ?_, ?_⟩
  · intro j hj
    have := h2 j hj
    rwa [set_timers_getD _ _ _ _ h1, set_timers_getD _ _ _ _ hj] at this
  · intro j hj
    have := h3 j hj
    rwa [set_timers_getD _ _ _ _ h1, set_timers_getD _ _ _ _ (by omega)] at this

theorem victimize_min_timer_witness :
    SELF.victim_way SELF.cold_1_2_8 16 < SELF.cold_1_2_8.ways ∧
    (SELF.victimize SELF.cold_1_2_8 16).1.tags
      = SELF.cold_1_2_8.store.tags.set
          (set_index SELF.cold_1_2_8 16 * SELF.cold_1_2_8.ways + SELF.victim_way SELF.cold_1_2_8 16)
          ((16 >>> SELF.cold_1_2_8.idx_shift) ||| VALID) ∧
    (∀ j, j < SELF.cold_1_2_8.ways →
      SELF.cold_1_2_8.store.timer.getD
          (set_index SELF.cold_1_2_8 16 * SELF.cold_1_2_8.ways + SELF.victim_way SELF.cold_1_2_8 16) 0
        ≤ SELF.cold_1_2_8.store.timer.getD (set_index SELF.cold_1_2_8 16 * SELF.cold_1_2_8.ways + j) 0) ∧
    (∀ j, j < SELF.victim_way SELF.cold_1_2_8 16 →
      SELF.cold_1_2_8.store.timer.getD
          (set_index SELF.cold_1_2_8 16 * SELF.cold_1_2_8.ways + SELF.victim_way SELF.cold_1_2_8 16) 0
        < SELF.cold_1_2_8.store.timer.getD (set_index SELF.cold_1_2_8 16 * SELF.cold_1_2_8.ways + j) 0) :=
  victimize_min_timer SELF.cold_1_2_8 16 (by decide) (by decide)

/-! ## Configuration validation (C12) -/

theorem two_pow_and_pred (k : Nat) : 2 ^ k &&& (2 ^ k - 1) = 0 := by
  apply Nat.eq_of_testBit_eq
  intro i
  rw [Nat.testBit_and, Nat.testBit_two_pow, Nat.testBit_two_pow_sub_one, Nat.zero_testBit]
  by_cases h : k = i <;> simp [h]

theorem testBit_of_between (k m : Nat) (h1 : 2 ^ k ≤ m) (h2 : m < 2 ^ (k + 1)) :
    m.testBit k = true := by
  rw [Nat.testBit_to_div_mod]
  have : m / 2 ^ k = 1 := by
    apply Nat.div_eq_of_lt_le
    · omega
    · rw [pow_succ] at h2; omega
  simp [this]

/-- The test `n == 0 || (n & (n-1))` of `init` rejects exactly the numbers that are not powers
of two. -/
theorem pow2_test (n : Nat) : (n = 0 ∨ n &&& dec64 n ≠ 0) ↔ ¬ ∃ k, n = 2 ^ k := by
  constructor
  · rintro (h | h) ⟨k, hk⟩
    · have := Nat.two_pow_pos k; omega
    · rw [hk, dec64_two_pow, two_pow_and_pred] at h
      exact h rfl
  · intro h
    by_cases h0 : n = 0
    · exact Or.inl h0
    · right
      have hlo := Nat.pow_log_le_self 2 h0
      have hhi := Nat.lt_pow_succ_log_self (by norm_num : 1 < 2) n
      have hne : n ≠ 2 ^ Nat.log 2 n := fun he => h ⟨_, he⟩
      have hd : dec64 n = n - 1 := by unfold dec64; rw [if_neg h0]
      rw [hd]
      intro hz
      have hb1 := testBit_of_between (Nat.log 2 n) n hlo hhi
      have hb2 := testBit_of_between (Nat.log 2 n) (n - 1) (by omega) (by omega)
      have := congrArg (fun x => x.testBit (Nat.log 2 n)) hz
      simp only [Nat.testBit_and, hb1, hb2, Nat.zero_testBit] at this
      exact absurd this (by decide)

/-- C12: `init` refuses to construct (ends in `help()`) exactly when `sets` is 0, `sets` is not
a power of two, `linesz` is below 8 or `linesz` is not a power of two; on every other input it
constructs the engine with `sets`, `ways`, `linesz` and the store as given, the seven counters
at zero and no miss handler.  `ways` is not examined. -/
theorem init_validation {τ : Type} (store : τ) (sets ways linesz : Nat) :
    (init store sets ways linesz = none ↔
      (sets = 0 ∨ (¬ ∃ j, sets = 2 ^ j) ∨ linesz < 8 ∨ ¬ ∃ k, linesz = 2 ^ k)) ∧
    (¬ (sets = 0 ∨ (¬ ∃ j, sets = 2 ^ j) ∨ linesz < 8 ∨ ¬ ∃ k, linesz = 2 ^ k) →
      init store sets ways linesz = some
        { sets := sets, ways := ways, linesz := linesz,
          idx_shift := idx_shift_loop 64 linesz 0, store := store,
          read_accesses := 0, read_misses := 0, bytes_read := 0,
          write_accesses := 0, write_misses := 0, bytes_written := 0,
          writebacks := 0, miss_handler := false }) := by
  have hs := pow2_test sets
  have hl := pow2_test linesz
  unfold init
  by_cases h1 : sets = 0 ∨ sets &&& dec64 sets ≠ 0
  · rw [if_pos h1]
    have h1b := hs.mp h1
    constructor
    · constructor
      · intro _
        rcases h1 with h | _
        · exact Or.inl h
        · exact Or.inr (Or.inl h1b)
      · intro _; rfl
    · intro hn
      exact absurd (Or.inr (Or.inl h1b)) hn
  · rw [if_neg h1]
    have h1b : ¬ ¬ ∃ j, sets = 2 ^ j := fun h => h1 (hs.mpr h)
    have h1c : sets ≠ 0 := fun h => h1 (Or.inl h)
    by_cases h2 : linesz < 8 ∨ linesz &&& dec64 linesz ≠ 0
    · rw [if_pos h2]
      have h2b : linesz < 8 ∨ ¬ ∃ k, linesz = 2 ^ k := by
        rcases h2 with h | h
        · exact Or.inl h
        · exact Or.inr (hl.mp (Or.inr h))
      constructor
      · constructor
        · intro _; exact Or.inr (Or.inr h2b)
        · intro _; rfl
      · intro hn
        exact absurd (Or.inr (Or.inr h2b)) hn
    · rw [if_neg h2]
      have h2b : ¬ linesz < 8 := fun h => h2 (Or.inl h)
      have h2c : ¬ ¬ ∃ k, linesz = 2 ^ k := by
        intro h
        rcases hl.mpr h with h0 | h0
        · omega
        · exact h2 (Or.inr h0)
      constructor
      · constructor
        · intro h; cases h
        · rintro (h | h | h | h)
          · exact absurd h h1c
          · exact absurd h h1b
          · exact absurd h h2b
          · exact absurd h h2c
      · intro _; rfl

/-! ## Tag words -/

theorem testBit_VALID (i : Nat) : VALID.testBit i = decide (63 = i) := by
  unfold VALID
  exact Nat.testBit_two_pow

theorem testBit_DIRTY (i : Nat) : DIRTY.testBit i = decide (62 = i) := by
  unfold DIRTY
  exact Nat.testBit_two_pow

/-- The block address of a 64-bit address leaves the two top bits of the tag word free. -/
theorem block_lt (addr s : Nat) (ha : addr < 2 ^ 64) (hs : 2 ≤ s) : addr >>> s < 2 ^ 62 := by
  rw [Nat.shiftRight_eq_div_pow, Nat.div_lt_iff_lt_mul (Nat.two_pow_pos s)]
  calc addr < 2 ^ 64 := ha
    _ = 2 ^ 62 * 2 ^ 2 := by norm_num
    _ ≤ 2 ^ 62 * 2 ^ s := Nat.mul_le_mul_left _ (Nat.pow_le_pow_right (by norm_num) hs)

theorem and_VALID_ne_zero (w : Nat) : w &&& VALID ≠ 0 ↔ w.testBit 63 = true := by
  constructor
  · intro h
    by_contra hb
    apply h
    apply Nat.eq_of_testBit_eq
    intro i
    rw [Nat.testBit_and, testBit_VALID, Nat.zero_testBit]
    by_cases hi : 63 = i
    · subst hi; simp at hb; simp [hb]
    · simp [hi]
  · intro hb hz
    have := congrArg (fun x => x.testBit 63) hz
    simp [Nat.testBit_and, testBit_VALID, hb] at this

/-- The comparison `tag == (w & ~DIRTY)` of `check_tag`, with `tag = a | VALID`, holds exactly
when `w` has VALID set and its bits other than VALID and DIRTY are `a`. -/
theorem tag_match_iff (w a : Nat) (hw : w < 2 ^ 64) (ha : a < 2 ^ 62) :
    (a ||| VALID = w &&& not64 DIRTY) ↔
      (w &&& VALID ≠ 0 ∧ w &&& not64 (VALID ||| DIRTY) = a) := by
  rw [and_VALID_ne_zero]
  constructor
  · intro h
    have hb : ∀ i, (a.testBit i || decide (63 = i))
        = (w.testBit i && (decide (i < 64) ^^ decide (62 = i))) := by
      intro i
      have := congrArg (fun x => x.testBit i) h
      simpa [Nat.testBit_or, Nat.testBit_and, testBit_not64, testBit_VALID, testBit_DIRTY]
        using this
    constructor
    · have := hb 63
      simpa using this.symm
    · apply Nat.eq_of_testBit_eq
      intro i
      rw [Nat.testBit_and, testBit_not64, Nat.testBit_or, testBit_VALID, testBit_DIRTY]
      have h1 := hb i
      by_cases h63 : 63 = i
      · subst h63
        have := testBit_ge_of_lt ha (by norm_num : 62 ≤ 63)
        simp [this]
      · by_cases h62 : 62 = i
        · subst h62
          have := testBit_ge_of_lt ha (le_refl 62)
          simp [this]
        · by_cases hlt : i < 64
          · simp [h63, h62, hlt] at h1 ⊢
            exact h1.symm
          · have := testBit_ge_of_lt ha (by omega : 62 ≤ i)
            simp [hlt, this, h63, h62]
  · rintro ⟨hv, h⟩
    have hb : ∀ i, (w.testBit i && (decide (i < 64) ^^ (decide (63 = i) || decide (62 = i))))
        = a.testBit i := by
      intro i
      have := congrArg (fun x => x.testBit i) h
      simpa [Nat.testBit_or, Nat.testBit_and, testBit_not64, testBit_VALID, testBit_DIRTY]
        using this
    apply Nat.eq_of_testBit_eq
    intro i
    rw [Nat.testBit_and, testBit_not64, Nat.testBit_or, testBit_VALID, testBit_DIRTY]
    have h1 := hb i
    by_cases h63 : 63 = i
    · subst h63
      simp [hv]
    · by_cases h62 : 62 = i
      · subst h62
        have := testBit_ge_of_lt ha (le_refl 62)
        simp [this]
      · by_cases hlt : i < 64
        · simp [h63, h62, hlt] at h1 ⊢
          exact h1.symm
        · have := testBit_ge_of_lt hw (by omega : 64 ≤ i)
          have h2 := testBit_ge_of_lt ha (by omega : 62 ≤ i)
          simp [hlt, this, h2, h63]

/-! ## Set-associative lookup (C14) -/

theorem geom_shift {τ : Type} (c : cache_sim_t τ) (hg : geom_ok c) :
    3 ≤ c.idx_shift ∧ c.idx_shift < 64 := by
  obtain ⟨⟨_, _, ⟨k, hk, hk3, hl⟩, _⟩, hs⟩ := hg
  have : k = c.idx_shift := Nat.pow_right_injective (le_refl 2) (hl.symm.trans hs)
  omega

theorem getD_lt (tags : List Nat) (q : Nat) (h : words_ok tags) : tags.getD q 0 < 2 ^ 64 := by
  by_cases hq : q < tags.length
  · rw [List.getD_eq_getElem _ _ hq]
    exact h _ (List.getElem_mem hq)
  · rw [List.getD_eq_default _ _ (by omega)]
    norm_num

/-- The search loop returns the first way, from `i` on, whose masked word equals `tag`. -/
theorem find_way_some (tags : List Nat) (base tag : Nat) :
    ∀ (n i p : Nat), find_way tags base tag n i = some p ↔
      ∃ j, i ≤ j ∧ j < i + n ∧ p = base + j ∧
        tag = (tags.getD (base + j) 0 &&& not64 DIRTY) ∧
        ∀ j', i ≤ j' → j' < j → tag ≠ (tags.getD (base + j') 0 &&& not64 DIRTY) := by
  intro n
  induction n with
  | zero =>
    intro i p
    simp only [find_way]
    constructor
    · intro h; cases h
    · rintro ⟨j, h1, h2, _⟩; omega
  | succ n ih =>
    intro i p
    simp only [find_way]
    by_cases hm : tag = (tags.getD (base + i) 0 &&& not64 DIRTY)
    · rw [if_pos hm]
      constructor
      · intro h
        injection h with h
        exact ⟨i, le_refl _, by omega, h.symm, hm, fun j' h1 h2 => by omega⟩
      · rintro ⟨j, h1, _, hp, _, hfirst⟩
        by_cases hji : j = i
        · rw [hp, hji]
        · exact absurd hm (hfirst i (le_refl _) (by omega))
    · rw [if_neg hm, ih (i + 1) p]
      constructor
      · rintro ⟨j, h1, h2, hp, hj, hfirst⟩
        refine ⟨j, by omega, by omega, hp, hj, ?_⟩
        intro j' h1' h2'
        by_cases hji : j' = i
        · rw [hji]; exact hm
        · exact hfirst j' (by omega) h2'
      · rintro ⟨j, h1, h2, hp, hj, hfirst⟩
        have hji : j ≠ i := fun h => hm (h ▸ hj)
        exact ⟨j, by omega, by omega, hp, hj, fun j' h1' h2' => hfirst j' (by omega) h2'⟩

theorem find_way_none (tags : List Nat) (base tag : Nat) :
    ∀ (n i : Nat), find_way tags base tag n i = none ↔
      ∀ j, i ≤ j → j < i + n → tag ≠ (tags.getD (base + j) 0 &&& not64 DIRTY) := by
  intro n
  induction n with
  | zero =>
    intro i
    simp only [find_way, true_iff]
    intro j h1 h2; omega
  | succ n ih =>
    intro i
    simp only [find_way]
    by_cases hm : tag = (tags.getD (base + i) 0 &&& not64 DIRTY)
    · rw [if_pos hm]
      constructor
      · intro h; cases h
      · intro h; exact absurd hm (h i (le_refl _) (by omega))
    · rw [if_neg hm, ih (i + 1)]
      constructor
      · intro h j h1 h2
        by_cases hji : j = i
        · rw [hji]; exact hm
        · exact h j (by omega) (by omega)
      · intro h j h1 h2
        exact h j (by omega) (by omega)

/-- The comparison of `check_tag` at one way, in terms of `holds`. -/
theorem match_iff_holds {τ : Type} (c : cache_sim_t τ) (tags : List Nat) (addr q : Nat)
    (hg : geom_ok c) (hw : words_ok tags) (ha : addr < 2 ^ 64) :
    ((addr >>> c.idx_shift) ||| VALID = (tags.getD q 0 &&& not64 DIRTY)) ↔
      holds c.idx_shift (tags.getD q 0) addr := by
  unfold holds
  exact tag_match_iff _ _ (getD_lt tags q hw)
    (block_lt addr c.idx_shift ha (by have := geom_shift c hg; omega))

/-- What the way search finds: the lowest way of the set of `addr` whose word holds the block of
`addr`, if there is one. -/
theorem lookup_some {τ : Type} (c : cache_sim_t τ) (tags : List Nat) (addr p : Nat)
    (hg : geom_ok c) (hw : words_ok tags) (ha : addr < 2 ^ 64) :
    lookup c tags addr = some p ↔
      ∃ i, i < c.ways ∧ p = set_index c addr * c.ways + i ∧
        holds c.idx_shift (tags.getD (set_index c addr * c.ways + i) 0) addr ∧
        ∀ j, j < i → ¬ holds c.idx_shift (tags.getD (set_index c addr * c.ways + j) 0) addr := by
  unfold lookup
  rw [find_way_some]
  constructor
  · rintro ⟨j, _, h2, hp, hj, hfirst⟩
    refine ⟨j, by omega, hp, (match_iff_holds c tags addr _ hg hw ha).mp hj, ?_⟩
    intro j' hj' hh
    exact hfirst j' (Nat.zero_le _) hj' ((match_iff_holds c tags addr _ hg hw ha).mpr hh)
  · rintro ⟨i, hi, hp, hh, hfirst⟩
    refine ⟨i, Nat.zero_le _, by omega, hp, (match_iff_holds c tags addr _ hg hw ha).mpr hh, ?_⟩
    intro j' _ hj' hm
    exact hfirst j' hj' ((match_iff_holds c tags addr _ hg hw ha).mp hm)

theorem lookup_none {τ : Type} (c : cache_sim_t τ) (tags : List Nat) (addr : Nat)
    (hg : geom_ok c) (hw : words_ok tags) (ha : addr < 2 ^ 64) :
    lookup c tags addr = none ↔
      ∀ i, i < c.ways →
        ¬ holds c.idx_shift (tags.getD (set_index c addr * c.ways + i) 0) addr := by
  unfold lookup
  rw [find_way_none]
  constructor
  · intro h i hi hh
    exact h i (Nat.zero_le _) (by omega) ((match_iff_holds c tags addr _ hg hw ha).mpr hh)
  · intro h j _ hj hm
    exact h j (by omega) ((match_iff_holds c tags addr _ hg hw ha).mp hm)

theorem orig_check_tag_eq (c : cache_sim_t orig_store) (addr : Nat) :
    ORIG.check_tag c addr = (c.store, lookup c c.store.tags addr) := rfl

theorem self_check_tag_snd (c : cache_sim_t self_store) (addr : Nat) :
    (SELF.check_tag c addr).2 = lookup c c.store.tags addr := by
  unfold SELF.check_tag lookup set_index
  simp only []
  split <;> simp_all

theorem lookup_is_lookup_of {τ : Type} (c : cache_sim_t τ) (tags : List Nat) (addr : Nat)
    (hg : geom_ok c) (hw : words_ok tags) (ha : addr < 2 ^ 64) :
    is_lookup_of c tags addr (lookup c tags addr) := by
  constructor
  · constructor
    · rintro ⟨p, hp⟩
      obtain ⟨i, hi, _, hh, _⟩ := (lookup_some c tags addr p hg hw ha).mp hp
      exact ⟨i, hi, hh⟩
    · rintro ⟨i, hi, hh⟩
      cases hl : lookup c tags addr with
      | some p => exact ⟨p, rfl⟩
      | none => exact absurd hh ((lookup_none c tags addr hg hw ha).mp hl i hi)
  · intro p hp
    obtain ⟨i, hi, hpi, hh, hfirst⟩ := (lookup_some c tags addr p hg hw ha).mp hp
    exact ⟨i, hi, hpi, hpi ▸ hh, hfirst⟩

/-- C14: in a valid configuration, for a 64-bit `addr`, `check_tag(addr)` of `ORIG_cachesim.cc`
and of `SELF_cachesim.cc` returns a line exactly when some way `i < ways` of the set
`(addr >> idx_shift) & (sets-1)` holds a word with VALID set whose other bits, DIRTY ignored,
are `addr >> idx_shift`; the line returned is the lowest such way of that set, at an index
`idx*ways + i` with `i < ways`, so never in another set. -/
theorem check_tag_is_lookup (c : cache_sim_t orig_store) (d : cache_sim_t self_store)
    (addr : Nat) (hc : ORIG.wf c) (hd : SELF.wf d) (ha : addr < 2 ^ 64) :
    is_lookup_of c c.store.tags addr (ORIG.check_tag c addr).2 ∧
    is_lookup_of d d.store.tags addr (SELF.check_tag d addr).2 ∧
    (∀ p, (ORIG.check_tag c addr).2 = some p →
      set_index c addr * c.ways ≤ p ∧ p < (set_index c addr + 1) * c.ways) ∧
    (∀ p, (SELF.check_tag d addr).2 = some p →
      set_index d addr * d.ways ≤ p ∧ p < (set_index d addr + 1) * d.ways) := by
  have h1 := lookup_is_lookup_of c c.store.tags addr hc.1 hc.2.2 ha
  have h2 := lookup_is_lookup_of d d.store.tags addr hd.1 hd.2.2.2 ha
  rw [self_check_tag_snd, orig_check_tag_eq]
  refine ⟨h1, h2, ?_, ?_⟩
  · intro p hp
    obtain ⟨i, hi, hpi, _⟩ := h1.2 p hp
    rw [hpi, Nat.add_mul, Nat.one_mul]
    omega
  · intro p hp
    obtain ⟨i, hi, hpi, _⟩ := h2.2 p hp
    rw [hpi, Nat.add_mul, Nat.one_mul]
    omega

/-! ## `victimize`: snapshot and frame (C15) -/

theorem getD_set_eq (l : List Nat) (p v : Nat) (hp : p < l.length) :
    (l.set p v).getD p 0 = v := by
  simp [List.getD_eq_getElem?_getD, List.getElem?_set, hp]

theorem getD_set_ne (l : List Nat) (p q v : Nat) (hq : q ≠ p) :
    (l.set p v).getD q 0 = l.getD q 0 := by
  simp [List.getD_eq_getElem?_getD, List.getElem?_set, Ne.symm hq]

theorem getD_replicate_zero (n q : Nat) : (List.replicate n (0 : Nat)).getD q 0 = 0 := by
  simp only [List.getD_eq_getElem?_getD, List.getElem?_replicate]
  split <;> rfl

theorem new_tag_valid (a : Nat) : (a ||| VALID) &&& VALID ≠ 0 := by
  rw [and_VALID_ne_zero, Nat.testBit_or, testBit_VALID]
  simp

theorem new_tag_clean (a : Nat) (ha : a < 2 ^ 62) : (a ||| VALID) &&& DIRTY = 0 := by
  apply Nat.eq_of_testBit_eq
  intro i
  rw [Nat.testBit_and, Nat.testBit_or, testBit_VALID, testBit_DIRTY, Nat.zero_testBit]
  by_cases h : 62 = i
  · subst h
    simp [testBit_ge_of_lt ha (le_refl 62)]
  · simp [h]

/-- Writing the new tag word at an index of the set of `addr` is an `installs` step. -/
theorem set_installs {τ : Type} (c : cache_sim_t τ) (addr : Nat) (tags : List Nat) (way : Nat)
    (hg : geom_ok c) (hlen : tags.length = c.sets * c.ways) (ha : addr < 2 ^ 64)
    (hway : way < c.ways) :
    installs c addr tags
      (tags.set (set_index c addr * c.ways + way) ((addr >>> c.idx_shift) ||| VALID))
      (set_index c addr * c.ways + way) (tags.getD (set_index c addr * c.ways + way) 0) := by
  have hb := set_base_le c addr hg
  have hp : set_index c addr * c.ways + way < tags.length := by omega
  have hblk := block_lt addr c.idx_shift ha (by have := geom_shift c hg; omega)
  refine ⟨by omega, ?_, hp, rfl, getD_set_eq _ _ _ hp, ?_, ?_, List.length_set _ _ _, ?_⟩
  · rw [Nat.add_mul, Nat.one_mul]; omega
  · rw [getD_set_eq _ _ _ hp]; exact new_tag_valid _
  · rw [getD_set_eq _ _ _ hp]; exact new_tag_clean _ hblk
  · intro q hq
    exact getD_set_ne _ _ _ _ hq

/-- C15: in a valid configuration (so `ways >= 1`) with arrays of `sets*ways` entries, for a
64-bit `addr`, `victimize(addr)` of `ORIG_cachesim.cc` (way `lfsr.next() % ways`) and of
`SELF_cachesim.cc` (way chosen by `std::min_element`) returns the word stored before in the
way it chose inside the set of `addr` (0 on a freshly allocated array), leaves there
`(addr >> idx_shift) | VALID` with DIRTY clear, and changes no other entry of the tag array;
in `SELF_cachesim.cc` the timer of that way becomes 0 and no other timer changes. -/
theorem victimize_installs (c : cache_sim_t orig_store) (d : cache_sim_t self_store)
    (addr : Nat) (hc : ORIG.wf c) (hd : SELF.wf d) (ha : addr < 2 ^ 64) :
    installs c addr c.store.tags (ORIG.victimize c addr).1.tags
      (set_index c addr * c.ways + lfsr_next c.store.lfsr % c.ways) (ORIG.victimize c addr).2 ∧
    (c.store.tags = List.replicate (c.sets * c.ways) 0 → (ORIG.victimize c addr).2 = 0) ∧
    installs d addr d.store.tags (SELF.victimize d addr).1.tags
      (set_index d addr * d.ways + SELF.victim_way d addr) (SELF.victimize d addr).2 ∧
    (d.store.tags = List.replicate (d.sets * d.ways) 0 → (SELF.victimize d addr).2 = 0) ∧
    (SELF.victimize d addr).1.timer.getD (set_index d addr * d.ways + SELF.victim_way d addr) 0
      = 0 ∧
    (SELF.victimize d addr).1.timer.length = d.store.timer.length ∧
    (∀ q, q ≠ set_index d addr * d.ways + SELF.victim_way d addr →
      (SELF.victimize d addr).1.timer.getD q 0 = d.store.timer.getD q 0) := by
  have hcw : 0 < c.ways := hc.1.1.2.1
  have h1 := set_installs c addr c.store.tags (lfsr_next c.store.lfsr % c.ways) hc.1 hc.2.1 ha
    (Nat.mod_lt _ hcw)
  have hvw := victim_way_lt d addr hd.1 hd.2.2.1
  have h2 := set_installs d addr d.store.tags (SELF.victim_way d addr) hd.1 hd.2.1 ha hvw
  have hb := set_base_le d addr hd.1
  have hp : set_index d addr * d.ways + SELF.victim_way d addr < d.store.timer.length := by
    rw [hd.2.2.1]; omega
  refine ⟨h1, ?_, h2, ?_, getD_set_eq _ _ _ hp, List.length_set _ _ _, ?_⟩
  · intro hz
    show c.store.tags.getD _ 0 = 0
    rw [hz]
    exact getD_replicate_zero _ _
  · intro hz
    show d.store.tags.getD _ 0 = 0
    rw [hz]
    exact getD_replicate_zero _ _
  · intro q hq
    exact getD_set_ne _ _ _ _ hq

theorem victimize_installs_witness :
    installs ORIG.cold_1_2_8 16 ORIG.cold_1_2_8.store.tags
      (ORIG.victimize ORIG.cold_1_2_8 16).1.tags
      (set_index ORIG.cold_1_2_8 16 * ORIG.cold_1_2_8.ways
        + lfsr_next ORIG.cold_1_2_8.store.lfsr % ORIG.cold_1_2_8.ways)
      (ORIG.victimize ORIG.cold_1_2_8 16).2 ∧
    installs SELF.cold_1_2_8 16 SELF.cold_1_2_8.store.tags
      (SELF.victimize SELF.cold_1_2_8 16).1.tags
      (set_index SELF.cold_1_2_8 16 * SELF.cold_1_2_8.ways + SELF.victim_way SELF.cold_1_2_8 16)
      (SELF.victimize SELF.cold_1_2_8 16).2 :=
  ⟨(victimize_installs ORIG.cold_1_2_8 SELF.cold_1_2_8 16 (by decide) (by decide)
      (by decide)).1,
   (victimize_installs ORIG.cold_1_2_8 SELF.cold_1_2_8 16 (by decide) (by decide)
      (by decide)).2.2.1⟩

/-! ## Constructed engines are well formed -/

theorem idx_shift_loop_two_pow : ∀ (fuel k acc : Nat), k ≤ fuel →
    idx_shift_loop fuel (2 ^ k) acc = acc + k := by
  intro fuel
  induction fuel with
  | zero =>
    intro k acc hk
    have : k = 0 := by omega
    subst this
    rfl
  | succ fuel ih =>
    intro k acc hk
    cases k with
    | zero => simp [idx_shift_loop]
    | succ k =>
      have h1 : 2 ^ (k + 1) > 1 := Nat.one_lt_two_pow (by omega)
      have h2 : 2 ^ (k + 1) >>> 1 = 2 ^ k := by
        rw [Nat.shiftRight_eq_div_pow, pow_succ]
        simp
      rw [idx_shift_loop, if_pos h1, h2, ih k (acc + 1) (by omega)]
      omega

/-- What `init` accepts is a valid configuration as soon as there is at least one way and the
sizes are 64-bit values; the engine holds the `idx_shift` with `linesz = 2 ^ idx_shift`. -/
theorem init_geom_ok {τ : Type} (store : τ) (sets ways linesz : Nat) (c : cache_sim_t τ)
    (h : init store sets ways linesz = some c) (hw : 0 < ways) (hs : sets * ways < 2 ^ 64)
    (hl : linesz < 2 ^ 64) :
    geom_ok c ∧ c.store = store ∧ c.sets = sets ∧ c.ways = ways ∧ c.linesz = linesz := by
  unfold init at h
  split at h
  · cases h
  split at h
  · cases h
  rename_i h1 h2
  injection h with h
  subst h
  have hgood : ¬ (sets = 0 ∨ (¬ ∃ j, sets = 2 ^ j) ∨ linesz < 8 ∨ ¬ ∃ k, linesz = 2 ^ k) := by
    rintro (hb | hb | hb | hb)
    · exact h1 (Or.inl hb)
    · exact h1 ((pow2_test sets).mpr hb)
    · exact h2 (Or.inl hb)
    · rcases (pow2_test linesz).mpr hb with h0 | h0
      · exact h2 (Or.inl (by omega))
      · exact h2 (Or.inr h0)
  simp only [not_or, not_not] at hgood
  obtain ⟨_, ⟨j, hj⟩, h8, ⟨k, hk⟩⟩ := hgood
  have hk64 : k < 64 := by
    rw [hk] at hl
    exact (Nat.pow_lt_pow_iff_right (by norm_num)).mp hl
  have hk3 : 3 ≤ k := by
    by_contra hc
    have : 2 ^ k ≤ 2 ^ 2 := Nat.pow_le_pow_right (by norm_num) (by omega)
    omega
  have hj64 : j < 64 := by
    have : sets ≤ sets * ways := Nat.le_mul_of_pos_right _ hw
    have : 2 ^ j < 2 ^ 64 := by omega
    exact (Nat.pow_lt_pow_iff_right (by norm_num)).mp this
  refine ⟨⟨⟨⟨j, hj64, hj⟩, hw, ⟨k, hk64, hk3, hk⟩, hs⟩, ?_⟩, rfl, rfl, rfl, rfl⟩
  show linesz = 2 ^ idx_shift_loop 64 linesz 0
  rw [hk, idx_shift_loop_two_pow 64 k 0 (by omega), Nat.zero_add]

/-! ## `victimize` stays inside the arrays (C17) -/

/-- C17 (code at the failing input): `help()` says that sets, ways and blocksize are positive
integers, but `init` tests only `sets` and `linesz` and accepts `sets = 1, ways = 0,
linesz = 8`.  In the engine it builds, `ways`, the divisor of `lfsr.next() % ways` in
`victimize` of `ORIG_cachesim.cc`, is 0 (the C++ division by zero); the range of timers that
`victimize` of `SELF_cachesim.cc` gives to `std::min_element` is empty; and the arrays have
`sets*ways = 0` entries, so no index `idx*ways + way` is inside them. -/
theorem victimize_zero_ways :
    (ORIG.new 1 0 8).map (fun c => (c.ways, c.sets * c.ways, c.store.tags.length))
      = some (0, 0, 0) ∧
    (SELF.new 1 0 8).map (fun d =>
        (d.ways, ((d.store.timer.drop (set_index d 0 * d.ways)).take d.ways).length,
          d.sets * d.ways, d.store.tags.length, d.store.timer.length))
      = some (0, 0, 0, 0, 0) := by
  decide

/-- In every state of a valid configuration (`ways >= 1` and `sets*ways < 2 ^ 64`, which `init`
does not check) the divisor of `lfsr.next() % ways` is not zero, the range given to
`std::min_element` holds `ways` timers, and the index `idx*ways + way` at which `victimize`
reads and writes is below `sets*ways`, for `ORIG_cachesim.cc` and for `SELF_cachesim.cc`. -/
theorem victimize_in_range (c : cache_sim_t orig_store) (d : cache_sim_t self_store)
    (addr : Nat) (hc : geom_ok c) (hd : geom_ok d)
    (hlen : d.store.timer.length = d.sets * d.ways) :
    (c.ways ≠ 0 ∧
      (ORIG.victimize c addr).2
        = c.store.tags.getD (set_index c addr * c.ways + lfsr_next c.store.lfsr % c.ways) 0 ∧
      set_index c addr * c.ways + lfsr_next c.store.lfsr % c.ways < c.sets * c.ways) ∧
    (((d.store.timer.drop (set_index d addr * d.ways)).take d.ways).length = d.ways ∧
      d.ways ≠ 0 ∧
      (SELF.victimize d addr).2
        = d.store.tags.getD (set_index d addr * d.ways + SELF.victim_way d addr) 0 ∧
      set_index d addr * d.ways + SELF.victim_way d addr < d.sets * d.ways) := by
  have hcw : 0 < c.ways := hc.1.2.1
  have hdw : 0 < d.ways := hd.1.2.1
  have hbc := set_base_le c addr hc
  have hbd := set_base_le d addr hd
  have hm : lfsr_next c.store.lfsr % c.ways < c.ways := Nat.mod_lt _ hcw
  have hvw := victim_way_lt d addr hd hlen
  refine ⟨⟨by omega, rfl, by omega⟩, ?_, by omega, rfl, by omega⟩
  exact set_timers_length _ _ _ (by omega)

theorem victimize_in_range_witness :
    (ORIG.cold_1_2_8.ways ≠ 0 ∧
      (ORIG.victimize ORIG.cold_1_2_8 16).2
        = ORIG.cold_1_2_8.store.tags.getD (set_index ORIG.cold_1_2_8 16 * ORIG.cold_1_2_8.ways
            + lfsr_next ORIG.cold_1_2_8.store.lfsr % ORIG.cold_1_2_8.ways) 0 ∧
      set_index ORIG.cold_1_2_8 16 * ORIG.cold_1_2_8.ways
          + lfsr_next ORIG.cold_1_2_8.store.lfsr % ORIG.cold_1_2_8.ways
        < ORIG.cold_1_2_8.sets * ORIG.cold_1_2_8.ways) ∧
    (((SELF.cold_1_2_8.store.timer.drop (set_index SELF.cold_1_2_8 16 * SELF.cold_1_2_8.ways)).take
        SELF.cold_1_2_8.ways).length = SELF.cold_1_2_8.ways ∧
      SELF.cold_1_2_8.ways ≠ 0 ∧
      (SELF.victimize SELF.cold_1_2_8 16).2
        = SELF.cold_1_2_8.store.tags.getD (set_index SELF.cold_1_2_8 16 * SELF.cold_1_2_8.ways
            + SELF.victim_way SELF.cold_1_2_8 16) 0 ∧
      set_index SELF.cold_1_2_8 16 * SELF.cold_1_2_8.ways + SELF.victim_way SELF.cold_1_2_8 16
        < SELF.cold_1_2_8.sets * SELF.cold_1_2_8.ways) :=
  victimize_in_range ORIG.cold_1_2_8 SELF.cold_1_2_8 16 (by decide) (by decide) (by decide)

/-! ## `access` of `ORIG_cachesim.cc`, case by case -/

/-- A hit of `access` in `ORIG_cachesim.cc`: the counters of the class move, a store sets DIRTY
in the line found, and the miss handler is not called. -/
theorem orig_access_hit (c : cache_sim_t orig_store) (addr bytes p : Nat) (store : Bool)
    (h : lookup c c.store.tags addr = some p) :
    access ORIG.vt c addr bytes store = some
      ({ c with
          read_accesses := if store then c.read_accesses else inc64 c.read_accesses,
          bytes_read := if store then c.bytes_read else (c.bytes_read + bytes) % 2 ^ 64,
          write_accesses := if store then inc64 c.write_accesses else c.write_accesses,
          bytes_written := if store then (c.bytes_written + bytes) % 2 ^ 64
                           else c.bytes_written,
          store := if store
                   then { c.store with
                          tags := c.store.tags.set p (c.store.tags.getD p 0 ||| DIRTY) }
                   else c.store }, []) := by
  simp only [lookup, set_index] at h
  cases store
  · simp only [access, ORIG.vt, ORIG.check_tag, Bool.false_eq_true, if_false, h]
  · simp only [access, ORIG.vt, ORIG.check_tag, if_true, h]

theorem words_ok_set (tags : List Nat) (p v : Nat) (h : words_ok tags) (hv : v < 2 ^ 64) :
    words_ok (tags.set p v) := by
  intro w hw
  rcases List.mem_or_eq_of_mem_set hw with h1 | h1
  · exact h w h1
  · rw [h1]; exact hv

theorem new_tag_lt {τ : Type} (c : cache_sim_t τ) (addr : Nat) (hg : geom_ok c)
    (ha : addr < 2 ^ 64) : new_tag c addr < 2 ^ 64 := by
  have hblk := block_lt addr c.idx_shift ha (by have := geom_shift c hg; omega)
  unfold new_tag
  apply Nat.or_lt_two_pow
  · omega
  · unfold VALID; norm_num

theorem or_valid_mask (a : Nat) (ha : a < 2 ^ 62) :
    (a ||| VALID) &&& not64 (VALID ||| DIRTY) = a := by
  apply Nat.eq_of_testBit_eq
  intro i
  rw [Nat.testBit_and, testBit_not64, Nat.testBit_or, Nat.testBit_or, testBit_VALID,
    testBit_DIRTY]
  by_cases h63 : 63 = i
  · subst h63
    simp [testBit_ge_of_lt ha (by norm_num : 62 ≤ 63)]
  · by_cases h62 : 62 = i
    · subst h62
      simp [testBit_ge_of_lt ha (le_refl 62)]
    · by_cases hlt : i < 64
      · simp [h63, h62, hlt]
      · simp [hlt, h63, h62, testBit_ge_of_lt ha (by omega : 62 ≤ i)]

theorem holds_new_tag {τ : Type} (c : cache_sim_t τ) (addr : Nat) (hg : geom_ok c)
    (ha : addr < 2 ^ 64) : holds c.idx_shift (new_tag c addr) addr := by
  have hblk := block_lt addr c.idx_shift ha (by have := geom_shift c hg; omega)
  exact ⟨new_tag_valid _, or_valid_mask _ hblk⟩

/-- After a miss, the lookup of `addr` finds the way in which its tag word was just written. -/
theorem lookup_install {τ : Type} (c : cache_sim_t τ) (tags : List Nat) (addr way : Nat)
    (hg : geom_ok c) (hw : words_ok tags) (hlen : tags.length = c.sets * c.ways)
    (ha : addr < 2 ^ 64) (hway : way < c.ways) (hnone : lookup c tags addr = none) :
    lookup c (tags.set (set_index c addr * c.ways + way) (new_tag c addr)) addr
      = some (set_index c addr * c.ways + way) := by
  have hb := set_base_le c addr hg
  have hp : set_index c addr * c.ways + way < tags.length := by omega
  rw [lookup_some c _ addr _ hg (words_ok_set _ _ _ hw (new_tag_lt c addr hg ha)) ha]
  refine ⟨way, hway, rfl, ?_, ?_⟩
  · rw [getD_set_eq _ _ _ hp]
    exact holds_new_tag c addr hg ha
  · intro j hj
    rw [getD_set_ne _ _ _ _ (by omega)]
    exact (lookup_none c tags addr hg hw ha).mp hnone j (by omega)

/-- A miss of `access` in `ORIG_cachesim.cc`, in a well-formed state: the counters of the class
move, the victim way receives the tag word of `addr` (with DIRTY for a store, whose second
lookup finds that way), `writebacks` grows when the victim was valid and dirty, and the miss
handler receives `miss_calls`. -/
theorem orig_access_miss (c : cache_sim_t orig_store) (addr bytes : Nat) (store : Bool)
    (hwf : ORIG.wf c) (ha : addr < 2 ^ 64) (h : lookup c c.store.tags addr = none) :
    access ORIG.vt c addr bytes store = some
      ({ c with
          read_accesses := if store then c.read_accesses else inc64 c.read_accesses,
          bytes_read := if store then c.bytes_read else (c.bytes_read + bytes) % 2 ^ 64,
          write_accesses := if store then inc64 c.write_accesses else c.write_accesses,
          bytes_written := if store then (c.bytes_written + bytes) % 2 ^ 64
                           else c.bytes_written,
          read_misses := if store then c.read_misses else inc64 c.read_misses,
          write_misses := if store then inc64 c.write_misses else c.write_misses,
          writebacks := if valid_dirty (c.store.tags.getD (ORIG.victim_index c addr) 0)
                        then inc64 c.writebacks else c.writebacks,
          store := { tags := c.store.tags.set (ORIG.victim_index c addr)
                               (if store then new_tag c addr ||| DIRTY else new_tag c addr),
                     lfsr := lfsr_next c.store.lfsr } },
       miss_calls c (c.store.tags.getD (ORIG.victim_index c addr) 0) addr) := by
  have hway : lfsr_next c.store.lfsr % c.ways < c.ways := Nat.mod_lt _ hwf.1.1.2.1
  have hb := set_base_le c addr hwf.1
  have hp : ORIG.victim_index c addr < c.store.tags.length := by
    unfold ORIG.victim_index; rw [hwf.2.1]; omega
  have h2 := lookup_install c c.store.tags addr _ hwf.1 hwf.2.2 hwf.2.1 ha hway h
  have h3 := getD_set_eq c.store.tags (ORIG.victim_index c addr) (new_tag c addr) hp
  simp only [lookup, set_index, new_tag, ORIG.victim_index] at h h2 h3
  by_cases hwb : valid_dirty (c.store.tags.getD (ORIG.victim_index c addr) 0)
  · have hwb2 := hwb
    have hwb3 := hwb
    simp only [valid_dirty, ORIG.victim_index, set_index] at hwb2
    simp only [ORIG.victim_index, set_index] at hwb3
    cases store
    · simp only [access, ORIG.vt, ORIG.check_tag, ORIG.victimize, h, h2, h3, hwb2, hwb3, miss_calls,
        ORIG.victim_index, set_index, new_tag, decide_True, decide_False, Bool.true_and,
        Bool.false_and, true_and, false_and, if_true, if_false, Bool.false_eq_true,
        decide_eq_true_eq, List.set_set, eq_self_iff_true, Bool.and_eq_true]
    · simp only [access, ORIG.vt, ORIG.check_tag, ORIG.victimize, h, h2, h3, hwb2, hwb3, miss_calls,
        ORIG.victim_index, set_index, new_tag, decide_True, decide_False, Bool.true_and,
        Bool.false_and, true_and, false_and, if_true, if_false, Bool.false_eq_true,
        decide_eq_true_eq, List.set_set, eq_self_iff_true, Bool.and_eq_true]
  · have hwb2 := hwb
    have hwb3 := hwb
    simp only [valid_dirty, ORIG.victim_index, set_index] at hwb2
    simp only [ORIG.victim_index, set_index] at hwb3
    cases store
    · simp only [access, ORIG.vt, ORIG.check_tag, ORIG.victimize, h, h2, h3, hwb2, hwb3, miss_calls,
        ORIG.victim_index, set_index, new_tag, decide_True, decide_False, Bool.true_and,
        Bool.false_and, true_and, false_and, if_true, if_false, Bool.false_eq_true,
        decide_eq_true_eq, List.set_set, eq_self_iff_true, Bool.and_eq_true]
    · simp only [access, ORIG.vt, ORIG.check_tag, ORIG.victimize, h, h2, h3, hwb2, hwb3, miss_calls,
        ORIG.victim_index, set_index, new_tag, decide_True, decide_False, Bool.true_and,
        Bool.false_and, true_and, false_and, if_true, if_false, Bool.false_eq_true,
        decide_eq_true_eq, List.set_set, eq_self_iff_true, Bool.and_eq_true]

/-! ## `access` of `SELF_cachesim.cc`, case by case -/

/-- A hit of `access` in `SELF_cachesim.cc`: the counters of the class move, the timers are
swept and the timer of the line found is reset, a store sets DIRTY in that line, and the miss
handler is not called. -/
theorem self_access_hit (c : cache_sim_t self_store) (addr bytes p : Nat) (store : Bool)
    (h : lookup c c.store.tags addr = some p) :
    access SELF.vt c addr bytes store = some
      ({ c with
          read_accesses := if store then c.read_accesses else inc64 c.read_accesses,
          bytes_read := if store then c.bytes_read else (c.bytes_read + bytes) % 2 ^ 64,
          write_accesses := if store then inc64 c.write_accesses else c.write_accesses,
          bytes_written := if store then (c.bytes_written + bytes) % 2 ^ 64
                           else c.bytes_written,
          store := { tags := if store
                             then c.store.tags.set p (c.store.tags.getD p 0 ||| DIRTY)
                             else c.store.tags,
                     timer := (SELF.ticked c).set p 0 } }, []) := by
  simp only [lookup, set_index] at h
  cases store
  · simp only [access, SELF.vt, SELF.check_tag, SELF.ticked, Bool.false_eq_true, if_false, h]
  · simp only [access, SELF.vt, SELF.check_tag, SELF.ticked, if_true, h]

theorem tick_length (tags : List Nat) (n : Nat) (timer : List Nat) :
    (tick tags n timer).length = timer.length := by
  induction n with
  | zero => rfl
  | succ n ih =>
    simp only [tick]
    split
    · rw [List.length_set, ih]
    · exact ih

/-- The way `victimize` chooses after the sweep is one of the `ways` ways of the set. -/
theorem self_miss_way_lt (c : cache_sim_t self_store) (addr : Nat) (hwf : SELF.wf c) :
    min_element (((SELF.ticked c).drop (set_index c addr * c.ways)).take c.ways) < c.ways := by
  have hw : 0 < c.ways := hwf.1.1.2.1
  have hb := set_base_le c addr hwf.1
  have hlen : (SELF.ticked c).length = c.sets * c.ways := by
    unfold SELF.ticked; rw [tick_length]; exact hwf.2.2.1
  have hl := set_timers_length (SELF.ticked c) (set_index c addr * c.ways) c.ways (by omega)
  have h1 := (min_element_spec
    (((SELF.ticked c).drop (set_index c addr * c.ways)).take c.ways) (by omega)).1
  rw [hl] at h1
  exact h1

/-- A miss of `access` in `SELF_cachesim.cc`, in a well-formed state: the counters of the class
move, the timers are swept, the way with the smallest timer of the set receives the tag word of
`addr` and timer 0; a store looks the line up again, which sweeps the timers once more, finds
that way and sets DIRTY; `writebacks` grows when the victim was valid and dirty, and the miss
handler receives `miss_calls`. -/
theorem self_access_miss (c : cache_sim_t self_store) (addr bytes : Nat) (store : Bool)
    (hwf : SELF.wf c) (ha : addr < 2 ^ 64) (h : lookup c c.store.tags addr = none) :
    access SELF.vt c addr bytes store = some
      ({ c with
          read_accesses := if store then c.read_accesses else inc64 c.read_accesses,
          bytes_read := if store then c.bytes_read else (c.bytes_read + bytes) % 2 ^ 64,
          write_accesses := if store then inc64 c.write_accesses else c.write_accesses,
          bytes_written := if store then (c.bytes_written + bytes) % 2 ^ 64
                           else c.bytes_written,
          read_misses := if store then c.read_misses else inc64 c.read_misses,
          write_misses := if store then inc64 c.write_misses else c.write_misses,
          writebacks := if valid_dirty (c.store.tags.getD (SELF.miss_index c addr) 0)
                        then inc64 c.writebacks else c.writebacks,
          store := { tags := c.store.tags.set (SELF.miss_index c addr)
                               (if store then new_tag c addr ||| DIRTY else new_tag c addr),
                     timer := if store
                       then (tick (c.store.tags.set (SELF.miss_index c addr) (new_tag c addr))
                               (c.sets * c.ways)
                               ((SELF.ticked c).set (SELF.miss_index c addr) 0)).set
                             (SELF.miss_index c addr) 0
                       else (SELF.ticked c).set (SELF.miss_index c addr) 0 } },
       miss_calls c (c.store.tags.getD (SELF.miss_index c addr) 0) addr) := by
  have hway := self_miss_way_lt c addr hwf
  have hb := set_base_le c addr hwf.1
  have hp : SELF.miss_index c addr < c.store.tags.length := by
    unfold SELF.miss_index; rw [hwf.2.1]; omega
  have h2 := lookup_install c c.store.tags addr _ hwf.1 hwf.2.2.2 hwf.2.1 ha hway h
  have h3 := getD_set_eq c.store.tags (SELF.miss_index c addr) (new_tag c addr) hp
  simp only [lookup, set_index, new_tag, SELF.miss_index, SELF.ticked] at h h2 h3
  by_cases hwb : valid_dirty (c.store.tags.getD (SELF.miss_index c addr) 0)
  · have hwb2 := hwb
    have hwb3 := hwb
    simp only [valid_dirty, SELF.miss_index, SELF.ticked, set_index] at hwb2
    simp only [SELF.miss_index, SELF.ticked, set_index] at hwb3
    cases store
    · simp only [access, SELF.vt, SELF.check_tag, SELF.victimize, SELF.victim_way, h, h2, h3,
        hwb2, hwb3, miss_calls, SELF.miss_index, SELF.ticked, set_index, new_tag, decide_True,
        decide_False, Bool.true_and, Bool.false_and, true_and, false_and, if_true, if_false,
        Bool.false_eq_true, decide_eq_true_eq, List.set_set, eq_self_iff_true, Bool.and_eq_true]
    · simp only [access, SELF.vt, SELF.check_tag, SELF.victimize, SELF.victim_way, h, h2, h3,
        hwb2, hwb3, miss_calls, SELF.miss_index, SELF.ticked, set_index, new_tag, decide_True,
        decide_False, Bool.true_and, Bool.false_and, true_and, false_and, if_true, if_false,
        Bool.false_eq_true, decide_eq_true_eq, List.set_set, eq_self_iff_true, Bool.and_eq_true]
  · have hwb2 := hwb
    have hwb3 := hwb
    simp only [valid_dirty, SELF.miss_index, SELF.ticked, set_index] at hwb2
    simp only [SELF.miss_index, SELF.ticked, set_index] at hwb3
    cases store
    · simp only [access, SELF.vt, SELF.check_tag, SELF.victimize, SELF.victim_way, h, h2, h3,
        hwb2, hwb3, miss_calls, SELF.miss_index, SELF.ticked, set_index, new_tag, decide_True,
        decide_False, Bool.true_and, Bool.false_and, true_and, false_and, if_true, if_false,
        Bool.false_eq_true, decide_eq_true_eq, List.set_set, eq_self_iff_true, Bool.and_eq_true]
    · simp only [access, SELF.vt, SELF.check_tag, SELF.victimize, SELF.victim_way, h, h2, h3,
        hwb2, hwb3, miss_calls, SELF.miss_index, SELF.ticked, set_index, new_tag, decide_True,
        decide_False, Bool.true_and, Bool.false_and, true_and, false_and, if_true, if_false,
        Bool.false_eq_true, decide_eq_true_eq, List.set_set, eq_self_iff_true, Bool.and_eq_true]

/-! ## `access` of `fa_cache_sim_t`, case by case -/

theorem map_find_assign_self (m : List (Nat × Nat)) (k v : Nat) :
    map_find (map_assign m k v) k = some v := by
  induction m with
  | nil => simp [map_assign, map_find]
  | cons e m ih =>
    obtain ⟨k1, v1⟩ := e
    simp only [map_assign]
    by_cases h1 : k < k1
    · simp [h1, map_find]
    · by_cases h2 : k = k1
      · simp [h2, map_find]
      · simp [h1, h2, map_find, ih]

/-- After `victimize(addr)` the map has an entry for the block of `addr`, holding its tag word
with VALID. -/
theorem fa_find_installed (c : cache_sim_t fa_store) (addr : Nat) :
    map_find (FA.installed c addr) (addr >>> c.idx_shift)
      = some ((addr >>> c.idx_shift) ||| VALID) := by
  unfold FA.installed FA.victimize
  split <;> exact map_find_assign_self _ _ _

/-- A hit of `access` in `fa_cache_sim_t`. -/
theorem fa_access_hit (c : cache_sim_t fa_store) (addr bytes w : Nat) (store : Bool)
    (h : map_find c.store.tags (addr >>> c.idx_shift) = some w) :
    access FA.vt c addr bytes store = some
      ({ c with
          read_accesses := if store then c.read_accesses else inc64 c.read_accesses,
          bytes_read := if store then c.bytes_read else (c.bytes_read + bytes) % 2 ^ 64,
          write_accesses := if store then inc64 c.write_accesses else c.write_accesses,
          bytes_written := if store then (c.bytes_written + bytes) % 2 ^ 64
                           else c.bytes_written,
          store := if store
                   then { c.store with
                          tags := map_assign c.store.tags (addr >>> c.idx_shift) (w ||| DIRTY) }
                   else c.store }, []) := by
  cases store
  · simp only [access, FA.vt, FA.check_tag, Bool.false_eq_true, if_false, h]
  · simp only [access, FA.vt, FA.check_tag, if_true, h, Option.getD_some]

/-- A miss of `access` in `fa_cache_sim_t`: the second lookup of a store always finds the entry
that `victimize` has just assigned. -/
theorem fa_access_miss (c : cache_sim_t fa_store) (addr bytes : Nat) (store : Bool)
    (h : map_find c.store.tags (addr >>> c.idx_shift) = none) :
    access FA.vt c addr bytes store = some
      ({ c with
          read_accesses := if store then c.read_accesses else inc64 c.read_accesses,
          bytes_read := if store then c.bytes_read else (c.bytes_read + bytes) % 2 ^ 64,
          write_accesses := if store then inc64 c.write_accesses else c.write_accesses,
          bytes_written := if store then (c.bytes_written + bytes) % 2 ^ 64
                           else c.bytes_written,
          read_misses := if store then c.read_misses else inc64 c.read_misses,
          write_misses := if store then inc64 c.write_misses else c.write_misses,
          writebacks := if valid_dirty (FA.victimize c addr).2
                        then inc64 c.writebacks else c.writebacks,
          store := { tags := if store
                       then map_assign (FA.installed c addr) (addr >>> c.idx_shift)
                              (((addr >>> c.idx_shift) ||| VALID) ||| DIRTY)
                       else FA.installed c addr,
                     lfsr := (FA.victimize c addr).1.lfsr } },
       miss_calls c (FA.victimize c addr).2 addr) := by
  have h2 := fa_find_installed c addr
  by_cases hfull : c.store.tags.length = c.ways
  · have hv : FA.victimize c addr
        = ({ tags := map_assign (c.store.tags.eraseIdx (lfsr_next c.store.lfsr % c.ways))
                       (addr >>> c.idx_shift) ((addr >>> c.idx_shift) ||| VALID),
             lfsr := lfsr_next c.store.lfsr },
           (c.store.tags.getD (lfsr_next c.store.lfsr % c.ways) (0, 0)).2) := by
      simp only [FA.victimize, hfull, if_true]
    simp only [FA.installed, hv] at h2 ⊢
    by_cases hwb : valid_dirty (c.store.tags.getD (lfsr_next c.store.lfsr % c.ways) (0, 0)).2
    · have hwb2 := hwb
      simp only [valid_dirty] at hwb2
      cases store
      · simp only [access, FA.vt, FA.check_tag, FA.victimize, h, h2, hfull, hwb, hwb2,
          miss_calls, decide_True, decide_False, Bool.true_and, Bool.false_and, true_and,
          false_and, if_true, if_false, Bool.false_eq_true, decide_eq_true_eq,
          eq_self_iff_true, Bool.and_eq_true, Option.getD_some]
      · simp only [access, FA.vt, FA.check_tag, FA.victimize, h, h2, hfull, hwb, hwb2,
          miss_calls, decide_True, decide_False, Bool.true_and, Bool.false_and, true_and,
          false_and, if_true, if_false, Bool.false_eq_true, decide_eq_true_eq,
          eq_self_iff_true, Bool.and_eq_true, Option.getD_some]
    · have hwb2 := hwb
      simp only [valid_dirty] at hwb2
      cases store
      · simp only [access, FA.vt, FA.check_tag, FA.victimize, h, h2, hfull, hwb, hwb2,
          miss_calls, decide_True, decide_False, Bool.true_and, Bool.false_and, true_and,
          false_and, if_true, if_false, Bool.false_eq_true, decide_eq_true_eq,
          eq_self_iff_true, Bool.and_eq_true, Option.getD_some]
      · simp only [access, FA.vt, FA.check_tag, FA.victimize, h, h2, hfull, hwb, hwb2,
          miss_calls, decide_True, decide_False, Bool.true_and, Bool.false_and, true_and,
          false_and, if_true, if_false, Bool.false_eq_true, decide_eq_true_eq,
          eq_self_iff_true, Bool.and_eq_true, Option.getD_some]
  · have hv : FA.victimize c addr
        = ({ c.store with tags := map_assign c.store.tags (addr >>> c.idx_shift)
                                    ((addr >>> c.idx_shift) ||| VALID) }, 0) := by
      simp only [FA.victimize, hfull, if_false]
    simp only [FA.installed, hv] at h2 ⊢
    have hwb : ¬ valid_dirty 0 := by decide
    have hwb2 : ¬ (0 &&& (VALID ||| DIRTY) = VALID ||| DIRTY) := by decide
    cases store
    · simp only [access, FA.vt, FA.check_tag, FA.victimize, h, h2, hfull, hwb, hwb2,
        miss_calls, decide_True, decide_False, Bool.true_and, Bool.false_and, true_and,
        false_and, if_true, if_false, Bool.false_eq_true, decide_eq_true_eq,
        eq_self_iff_true, Bool.and_eq_true, Option.getD_some]
    · simp only [access, FA.vt, FA.check_tag, FA.victimize, h, h2, hfull, hwb, hwb2,
        miss_calls, decide_True, decide_False, Bool.true_and, Bool.false_and, true_and,
        false_and, if_true, if_false, Bool.false_eq_true, decide_eq_true_eq,
        eq_self_iff_true, Bool.and_eq_true, Option.getD_some]

/-! ## The re-lookup of a store miss (C18) -/

/-- C18: in a well-formed state of a valid configuration (`ways >= 1`), for a 64-bit `addr`,
when `check_tag(addr)` misses in `access(addr, bytes, true)`, the `check_tag(addr)` executed
after `victimize(addr)` returns the line that `victimize` has just written, so `access` sets
DIRTY there and returns: in `ORIG_cachesim.cc`, in `SELF_cachesim.cc` and in
`fa_cache_sim_t`.  The calls on the miss handler go to another engine and leave this one as it
is. -/
theorem store_miss_relookup (c : cache_sim_t orig_store) (d : cache_sim_t self_store)
    (f : cache_sim_t fa_store) (addr bytes : Nat) (hc : ORIG.wf c) (hd : SELF.wf d)
    (ha : addr < 2 ^ 64) :
    ((ORIG.check_tag c addr).2 = none →
      (ORIG.check_tag { c with store := (ORIG.victimize c addr).1 } addr).2
        = some (ORIG.victim_index c addr) ∧
      ∃ c1, access ORIG.vt c addr bytes true
        = some (c1, miss_calls c (c.store.tags.getD (ORIG.victim_index c addr) 0) addr) ∧
        c1.store.tags.getD (ORIG.victim_index c addr) 0 = (new_tag c addr ||| DIRTY)) ∧
    ((SELF.check_tag d addr).2 = none →
      (SELF.check_tag { d with store :=
          (SELF.victimize { d with store := (SELF.check_tag d addr).1 } addr).1 } addr).2
        = some (SELF.miss_index d addr) ∧
      ∃ d1, access SELF.vt d addr bytes true
        = some (d1, miss_calls d (d.store.tags.getD (SELF.miss_index d addr) 0) addr) ∧
        d1.store.tags.getD (SELF.miss_index d addr) 0 = (new_tag d addr ||| DIRTY)) ∧
    ((FA.check_tag f addr).2 = none →
      (FA.check_tag { f with store := (FA.victimize f addr).1 } addr).2
        = some (addr >>> f.idx_shift) ∧
      ∃ f1, access FA.vt f addr bytes true
        = some (f1, miss_calls f (FA.victimize f addr).2 addr) ∧
        map_find f1.store.tags (addr >>> f.idx_shift)
          = some (((addr >>> f.idx_shift) ||| VALID) ||| DIRTY)) := by
  refine ⟨?_, ?_, ?_⟩
  · intro h
    rw [orig_check_tag_eq] at h
    have hway : lfsr_next c.store.lfsr % c.ways < c.ways := Nat.mod_lt _ hc.1.1.2.1
    have hb := set_base_le c addr hc.1
    have hp : ORIG.victim_index c addr < c.store.tags.length := by
      unfold ORIG.victim_index; rw [hc.2.1]; omega
    have h2 := lookup_install c c.store.tags addr _ hc.1 hc.2.2 hc.2.1 ha hway h
    refine ⟨?_, _, orig_access_miss c addr bytes true hc ha h, ?_⟩
    · simp only [lookup, set_index, new_tag] at h2
      simp only [ORIG.check_tag, ORIG.victimize, ORIG.victim_index, set_index, h2]
    · simp only [if_true]
      exact getD_set_eq _ _ _ hp
  · intro h
    rw [self_check_tag_snd] at h
    have hway := self_miss_way_lt d addr hd
    have hb := set_base_le d addr hd.1
    have hp : SELF.miss_index d addr < d.store.tags.length := by
      unfold SELF.miss_index; rw [hd.2.1]; omega
    have h2 := lookup_install d d.store.tags addr _ hd.1 hd.2.2.2 hd.2.1 ha hway h
    refine ⟨?_, _, self_access_miss d addr bytes true hd ha h, ?_⟩
    · simp only [lookup, set_index, new_tag, SELF.ticked] at h h2
      simp only [SELF.check_tag, SELF.victimize, SELF.victim_way, SELF.miss_index, SELF.ticked,
        set_index, h, h2]
    · simp only [if_true]
      exact getD_set_eq _ _ _ hp
  · intro h
    have hm : map_find f.store.tags (addr >>> f.idx_shift) = none := by
      simp only [FA.check_tag] at h
      cases hx : map_find f.store.tags (addr >>> f.idx_shift) with
      | none => rfl
      | some w => rw [hx] at h; cases h
    have h2 := fa_find_installed f addr
    refine ⟨?_, _, fa_access_miss f addr bytes true hm, ?_⟩
    · simp only [FA.installed] at h2
      simp only [FA.check_tag, h2]
    · simp only [if_true]
      exact map_find_assign_self _ _ _

theorem store_miss_relookup_witness :
    ((ORIG.check_tag { ORIG.cold_1_2_8 with
          store := (ORIG.victimize ORIG.cold_1_2_8 16).1 } 16).2
        = some (ORIG.victim_index ORIG.cold_1_2_8 16) ∧
      ∃ c1, access ORIG.vt ORIG.cold_1_2_8 16 8 true
        = some (c1, miss_calls ORIG.cold_1_2_8
            (ORIG.cold_1_2_8.store.tags.getD (ORIG.victim_index ORIG.cold_1_2_8 16) 0) 16) ∧
        c1.store.tags.getD (ORIG.victim_index ORIG.cold_1_2_8 16) 0
          = (new_tag ORIG.cold_1_2_8 16 ||| DIRTY)) :=
  (store_miss_relookup ORIG.cold_1_2_8 SELF.cold_1_2_8 FA.cold_8_64 16 8 (by decide)
    (by decide) (by decide)).1 (by decide)

/-! ## Miss forwarding (C11) -/

/-- The calls of a miss, spelled out: nothing without a miss handler; with one, the writeback
`access((victim & ~(VALID|DIRTY)) << idx_shift, linesz, true)` first when the victim was valid
and dirty, then the fill `access(addr & ~(linesz-1), linesz, false)`. -/
theorem miss_calls_eq {τ : Type} (c : cache_sim_t τ) (victim addr : Nat) :
    miss_calls c victim addr =
      if c.miss_handler = true then
        if valid_dirty victim then
          [call.access (((victim &&& not64 (VALID ||| DIRTY)) <<< c.idx_shift) % 2 ^ 64)
             c.linesz true,
           call.access (addr &&& not64 (dec64 c.linesz)) c.linesz false]
        else [call.access (addr &&& not64 (dec64 c.linesz)) c.linesz false]
      else [] := by
  unfold miss_calls
  by_cases h1 : c.miss_handler = true <;> by_cases h2 : valid_dirty victim <;> simp [h1, h2]

/-- C11: in a well-formed state of a valid configuration, for a 64-bit `addr`: when
`check_tag(addr)` hits, `access` makes no call on the miss handler and leaves `writebacks`
as it is; when it misses, `writebacks` grows by 1 (modulo `2 ^ 64`) exactly when the word
returned by `victimize` has VALID and DIRTY set, whether or not a miss handler is attached, and
the calls on the miss handler are `miss_calls`: none without a handler, otherwise
`access((victim & ~(VALID|DIRTY)) << idx_shift, linesz, true)` exactly when the victim was
valid and dirty, followed by the one `access(addr & ~(linesz-1), linesz, false)`.  Stated for
the engine of `ORIG_cachesim.cc` and for that of `SELF_cachesim.cc`. -/
theorem miss_forwarding (c : cache_sim_t orig_store) (d : cache_sim_t self_store)
    (addr bytes : Nat) (store : Bool) (hc : ORIG.wf c) (hd : SELF.wf d) (ha : addr < 2 ^ 64) :
    (∀ p, (ORIG.check_tag c addr).2 = some p →
      ∃ c1, access ORIG.vt c addr bytes store = some (c1, []) ∧ c1.writebacks = c.writebacks) ∧
    ((ORIG.check_tag c addr).2 = none →
      ∃ c1, access ORIG.vt c addr bytes store
          = some (c1, miss_calls c (ORIG.victimize c addr).2 addr) ∧
        c1.writebacks = (if valid_dirty (ORIG.victimize c addr).2 then inc64 c.writebacks
                         else c.writebacks)) ∧
    (∀ p, (SELF.check_tag d addr).2 = some p →
      ∃ d1, access SELF.vt d addr bytes store = some (d1, []) ∧ d1.writebacks = d.writebacks) ∧
    ((SELF.check_tag d addr).2 = none →
      ∃ d1, access SELF.vt d addr bytes store
          = some (d1, miss_calls d
              (SELF.victimize { d with store := (SELF.check_tag d addr).1 } addr).2 addr) ∧
        d1.writebacks
          = (if valid_dirty (SELF.victimize { d with store := (SELF.check_tag d addr).1 } addr).2
             then inc64 d.writebacks else d.writebacks)) ∧
    (∀ victim, miss_calls c victim addr =
      if c.miss_handler = true then
        if valid_dirty victim then
          [call.access (((victim &&& not64 (VALID ||| DIRTY)) <<< c.idx_shift) % 2 ^ 64)
             c.linesz true,
           call.access (addr &&& not64 (dec64 c.linesz)) c.linesz false]
        else [call.access (addr &&& not64 (dec64 c.linesz)) c.linesz false]
      else []) := by
  refine ⟨?_, ?_, ?_, ?_, fun v => miss_calls_eq c v addr⟩
  · intro p hp
    rw [orig_check_tag_eq] at hp
    exact ⟨_, orig_access_hit c addr bytes p store hp, rfl⟩
  · intro h
    rw [orig_check_tag_eq] at h
    exact ⟨_, orig_access_miss c addr bytes store hc ha h, rfl⟩
  · intro p hp
    rw [self_check_tag_snd] at hp
    exact ⟨_, self_access_hit d addr bytes p store hp, rfl⟩
  · intro h
    rw [self_check_tag_snd] at h
    have hv : (SELF.victimize { d with store := (SELF.check_tag d addr).1 } addr).2
        = d.store.tags.getD (SELF.miss_index d addr) 0 := by
      have h' := h
      simp only [lookup, set_index] at h'
      simp only [SELF.check_tag, SELF.victimize, SELF.victim_way, SELF.miss_index, SELF.ticked,
        set_index, h']
    rw [hv]
    exact ⟨_, self_access_miss d addr bytes store hd ha h, rfl⟩

theorem miss_forwarding_witness :
    ∃ c1, access ORIG.vt (set_miss_handler ORIG.cold_1_2_8) 16 8 true
          = some (c1, miss_calls (set_miss_handler ORIG.cold_1_2_8)
              (ORIG.victimize (set_miss_handler ORIG.cold_1_2_8) 16).2 16) ∧
        c1.writebacks = (if valid_dirty (ORIG.victimize (set_miss_handler ORIG.cold_1_2_8) 16).2
                         then inc64 (set_miss_handler ORIG.cold_1_2_8).writebacks
                         else (set_miss_handler ORIG.cold_1_2_8).writebacks) :=
  (miss_forwarding (set_miss_handler ORIG.cold_1_2_8) SELF.cold_1_2_8 16 8 true (by decide)
    (by decide) (by decide)).2.1 (by decide)

/-! ## `idx_shift` is the logarithm of the line size (C24) -/

/-- C24: for a line size `2 ^ k` with `3 <= k < 64` (what `init` accepts among 64-bit values),
the loop `for (x = linesz; x > 1; x >>= 1) idx_shift++` of `init` exits with `idx_shift = k`
whatever fuel of at least `k` it is given (64 in `init`), so `2 ^ idx_shift = linesz` and
`idx_shift >= 3`; then `addr >> idx_shift` is `addr / linesz`, and for `sets = 2 ^ j` the set
index `(addr >> idx_shift) & (sets-1)` is `(addr / linesz) % sets`. -/
theorem idx_shift_is_log2 (k j addr : Nat) (hk3 : 3 ≤ k) (hk : k < 64) :
    (∀ fuel, k ≤ fuel → idx_shift_loop fuel (2 ^ k) 0 = k) ∧
    2 ^ idx_shift_loop 64 (2 ^ k) 0 = 2 ^ k ∧
    3 ≤ idx_shift_loop 64 (2 ^ k) 0 ∧
    addr >>> idx_shift_loop 64 (2 ^ k) 0 = addr / 2 ^ k ∧
    (addr >>> idx_shift_loop 64 (2 ^ k) 0) &&& dec64 (2 ^ j) = (addr / 2 ^ k) % 2 ^ j ∧
    (∀ (τ : Type) (store : τ) (ways : Nat) (c : cache_sim_t τ),
      init store (2 ^ j) ways (2 ^ k) = some c →
        c.idx_shift = k ∧ set_index c addr = (addr / c.linesz) % c.sets) := by
  have h64 : idx_shift_loop 64 (2 ^ k) 0 = k := by
    rw [idx_shift_loop_two_pow 64 k 0 (by omega), Nat.zero_add]
  have hset : (addr >>> k) &&& dec64 (2 ^ j) = (addr / 2 ^ k) % 2 ^ j := by
    rw [dec64_two_pow, Nat.and_pow_two_sub_one_eq_mod, Nat.shiftRight_eq_div_pow]
  refine ⟨?_, by rw [h64], by rw [h64]; exact hk3, ?_, ?_, ?_⟩
  · intro fuel hf
    rw [idx_shift_loop_two_pow fuel k 0 hf, Nat.zero_add]
  · rw [h64, Nat.shiftRight_eq_div_pow]
  · rw [h64]; exact hset
  · intro τ store ways c hc
    unfold init at hc
    split at hc
    · cases hc
    split at hc
    · cases hc
    injection hc with hc
    subst hc
    simp only [set_index]
    rw [h64]
    exact ⟨rfl, hset⟩

theorem idx_shift_is_log2_witness :
    (∀ fuel, 6 ≤ fuel → idx_shift_loop fuel (2 ^ 6) 0 = 6) ∧
    2 ^ idx_shift_loop 64 (2 ^ 6) 0 = 2 ^ 6 ∧
    3 ≤ idx_shift_loop 64 (2 ^ 6) 0 ∧
    4096 >>> idx_shift_loop 64 (2 ^ 6) 0 = 4096 / 2 ^ 6 ∧
    (4096 >>> idx_shift_loop 64 (2 ^ 6) 0) &&& dec64 (2 ^ 10) = (4096 / 2 ^ 6) % 2 ^ 10 ∧
    (∀ (τ : Type) (store : τ) (ways : Nat) (c : cache_sim_t τ),
      init store (2 ^ 10) ways (2 ^ 6) = some c →
        c.idx_shift = 6 ∧ set_index c 4096 = (4096 / c.linesz) % c.sets) :=
  idx_shift_is_log2 6 10 4096 (by decide) (by decide)

/-! ## The packed tag word (C21) -/

theorem and_DIRTY_ne_zero (w : Nat) : w &&& DIRTY ≠ 0 ↔ w.testBit 62 = true := by
  constructor
  · intro h
    by_contra hb
    apply h
    apply Nat.eq_of_testBit_eq
    intro i
    rw [Nat.testBit_and, testBit_DIRTY, Nat.zero_testBit]
    by_cases hi : 62 = i
    · subst hi; simp at hb; simp [hb]
    · simp [hi]
  · intro hb hz
    have := congrArg (fun x => x.testBit 62) hz
    simp [Nat.testBit_and, testBit_DIRTY, hb] at this

theorem or_dirty_mask (a : Nat) (ha : a < 2 ^ 62) :
    ((a ||| VALID) ||| DIRTY) &&& not64 (VALID ||| DIRTY) = a := by
  apply Nat.eq_of_testBit_eq
  intro i
  rw [Nat.testBit_and, testBit_not64, Nat.testBit_or, Nat.testBit_or, Nat.testBit_or,
    testBit_VALID, testBit_DIRTY]
  by_cases h63 : 63 = i
  · subst h63
    simp [testBit_ge_of_lt ha (by norm_num : 62 ≤ 63)]
  · by_cases h62 : 62 = i
    · subst h62
      simp [testBit_ge_of_lt ha (le_refl 62)]
    · by_cases hlt : i < 64
      · simp [h63, h62, hlt]
      · simp [hlt, h63, h62, testBit_ge_of_lt ha (by omega : 62 ≤ i)]

/-- The block address shifted back is the address with the offset bits cleared. -/
theorem block_shift_back (k addr : Nat) (ha : addr < 2 ^ 64) :
    ((addr >>> k) <<< k) % 2 ^ 64 = addr &&& not64 (dec64 (2 ^ k)) := by
  rw [and_not64_mask addr k ha, Nat.shiftRight_eq_div_pow, Nat.shiftLeft_eq]
  exact Nat.mod_eq_of_lt (lt_of_le_of_lt (Nat.div_mul_le_self _ _) ha)

/-- C21: for a line size `2 ^ k` with `3 <= k < 64`, the `idx_shift` that `init` derives, and a
64-bit `addr`, the block address `addr >> idx_shift` is below `2 ^ 62` (bits 62 and 63 clear).
Hence for the stored word `w = (addr >> idx_shift) | VALID`, with or without DIRTY or-ed in:
VALID reads as set, DIRTY reads as clear or set respectively, the bits other than VALID and
DIRTY are the block address, and the writeback address `(w & ~(VALID|DIRTY)) << idx_shift`
computed by `access` is `addr & ~(linesz-1)`. -/
theorem packed_tag_lossless (k addr : Nat) (hk3 : 3 ≤ k) (hk : k < 64) (ha : addr < 2 ^ 64) :
    addr >>> idx_shift_loop 64 (2 ^ k) 0 < 2 ^ 62 ∧
    (∀ w, (w = ((addr >>> idx_shift_loop 64 (2 ^ k) 0) ||| VALID) ∨
           w = (((addr >>> idx_shift_loop 64 (2 ^ k) 0) ||| VALID) ||| DIRTY)) →
      w &&& VALID ≠ 0 ∧
      (w &&& DIRTY ≠ 0 ↔ w = (((addr >>> idx_shift_loop 64 (2 ^ k) 0) ||| VALID) ||| DIRTY)) ∧
      w &&& not64 (VALID ||| DIRTY) = addr >>> idx_shift_loop 64 (2 ^ k) 0 ∧
      ((w &&& not64 (VALID ||| DIRTY)) <<< idx_shift_loop 64 (2 ^ k) 0) % 2 ^ 64
        = addr &&& not64 (dec64 (2 ^ k))) := by
  have h64 : idx_shift_loop 64 (2 ^ k) 0 = k := by
    rw [idx_shift_loop_two_pow 64 k 0 (by omega), Nat.zero_add]
  rw [h64]
  have hblk := block_lt addr k ha (by omega)
  have hb62 := testBit_ge_of_lt hblk (le_refl 62)
  refine ⟨hblk, ?_⟩
  rintro w (hw | hw)
  · subst hw
    have hclean := new_tag_clean (addr >>> k) hblk
    refine ⟨new_tag_valid _, ?_, or_valid_mask _ hblk, ?_⟩
    · constructor
      · intro h; exact absurd hclean h
      · intro h
        have := congrArg (fun x => x.testBit 62) h
        simp [Nat.testBit_or, testBit_VALID, testBit_DIRTY, hb62] at this
    · rw [or_valid_mask _ hblk]
      exact block_shift_back k addr ha
  · subst hw
    refine ⟨?_, ?_, or_dirty_mask _ hblk, ?_⟩
    · rw [and_VALID_ne_zero]
      simp [Nat.testBit_or, testBit_VALID]
    · constructor
      · intro _; rfl
      · intro _
        rw [and_DIRTY_ne_zero]
        simp [Nat.testBit_or, testBit_DIRTY]
    · rw [or_dirty_mask _ hblk]
      exact block_shift_back k addr ha

theorem packed_tag_lossless_witness :
    0x12345 >>> idx_shift_loop 64 (2 ^ 6) 0 < 2 ^ 62 ∧
    (∀ w, (w = ((0x12345 >>> idx_shift_loop 64 (2 ^ 6) 0) ||| VALID) ∨
           w = (((0x12345 >>> idx_shift_loop 64 (2 ^ 6) 0) ||| VALID) ||| DIRTY)) →
      w &&& VALID ≠ 0 ∧
      (w &&& DIRTY ≠ 0 ↔ w = (((0x12345 >>> idx_shift_loop 64 (2 ^ 6) 0) ||| VALID) ||| DIRTY)) ∧
      w &&& not64 (VALID ||| DIRTY) = 0x12345 >>> idx_shift_loop 64 (2 ^ 6) 0 ∧
      ((w &&& not64 (VALID ||| DIRTY)) <<< idx_shift_loop 64 (2 ^ 6) 0) % 2 ^ 64
        = 0x12345 &&& not64 (dec64 (2 ^ 6))) :=
  packed_tag_lossless 6 0x12345 (by decide) (by decide) (by decide)

/-! ## Counter accounting (C13) -/

/-- What one `access` that returns does to the counters and which calls it makes, for any
store: the access and byte counters of the class move; on a hit nothing else moves and no call
is made; on a miss the miss counter of the class moves, `writebacks` moves when the victim was
valid and dirty, and the calls are `miss_calls`. -/
theorem access_shape {τ : Type} (vt : vtable τ) (c c1 : cache_sim_t τ) (addr bytes : Nat)
    (store : Bool) (out : List call) (h : access vt c addr bytes store = some (c1, out)) :
    c1.sets = c.sets ∧ c1.ways = c.ways ∧ c1.linesz = c.linesz ∧ c1.idx_shift = c.idx_shift ∧
    c1.miss_handler = c.miss_handler ∧
    c1.read_accesses = (if store then c.read_accesses else inc64 c.read_accesses) ∧
    c1.bytes_read = (if store then c.bytes_read else (c.bytes_read + bytes) % 2 ^ 64) ∧
    c1.write_accesses = (if store then inc64 c.write_accesses else c.write_accesses) ∧
    c1.bytes_written
      = (if store then (c.bytes_written + bytes) % 2 ^ 64 else c.bytes_written) ∧
    ((¬ first_lookup_misses vt c addr bytes store ∧ out = [] ∧
        c1.read_misses = c.read_misses ∧ c1.write_misses = c.write_misses ∧
        c1.writebacks = c.writebacks) ∨
     (first_lookup_misses vt c addr bytes store ∧ ∃ victim, out = miss_calls c victim addr ∧
        c1.read_misses = (if store then c.read_misses else inc64 c.read_misses) ∧
        c1.write_misses = (if store then inc64 c.write_misses else c.write_misses) ∧
        c1.writebacks = (if valid_dirty victim then inc64 c.writebacks else c.writebacks))) := by
  cases store
  · simp only [access, Bool.false_eq_true, if_false] at h
    simp only [first_lookup_misses, count_access, Bool.false_eq_true, if_false]
    generalize hr : vt.check_tag _ addr = r at h ⊢
    obtain ⟨st, q⟩ := r
    cases q with
    | some p =>
      simp only [Option.some.injEq, Prod.mk.injEq] at h
      obtain ⟨rfl, rfl⟩ := h
      simp
    | none =>
      simp only at h
      generalize hv : vt.victimize _ addr = v at h
      obtain ⟨st2, victim⟩ := v
      simp only [Option.some.injEq, Prod.mk.injEq] at h
      obtain ⟨rfl, rfl⟩ := h
      refine ⟨?_, ?_, ?_, ?_, ?_, ?_, ?_, ?_, ?_, Or.inr ⟨?_, victim, ?_, ?_, ?_, ?_⟩⟩ <;>
        by_cases hwb : victim &&& (VALID ||| DIRTY) = VALID ||| DIRTY <;>
        by_cases hm : c.miss_handler = true <;>
        simp [hwb, hm, miss_calls, valid_dirty]
  · simp only [access, if_true] at h
    simp only [first_lookup_misses, count_access, if_true]
    generalize hr : vt.check_tag _ addr = r at h ⊢
    obtain ⟨st, q⟩ := r
    cases q with
    | some p =>
      simp only [Option.some.injEq, Prod.mk.injEq] at h
      obtain ⟨rfl, rfl⟩ := h
      simp
    | none =>
      simp only at h
      generalize hv : vt.victimize _ addr = v at h
      obtain ⟨st2, victim⟩ := v
      simp only at h
      generalize hr2 : vt.check_tag _ addr = r2 at h
      obtain ⟨st3, q2⟩ := r2
      cases q2 with
      | none => simp at h
      | some p2 =>
        simp only [Option.some.injEq, Prod.mk.injEq] at h
        obtain ⟨rfl, rfl⟩ := h
        refine ⟨?_, ?_, ?_, ?_, ?_, ?_, ?_, ?_, ?_, Or.inr ⟨?_, victim, ?_, ?_, ?_, ?_⟩⟩ <;>
            by_cases hwb : victim &&& (VALID ||| DIRTY) = VALID ||| DIRTY <;>
            by_cases hm : c.miss_handler = true <;>
            simp [hwb, hm, miss_calls, valid_dirty]

/-- A load always returns: `access(addr, bytes, false)` dereferences no pointer after the
first lookup. -/
theorem access_load_total {τ : Type} (vt : vtable τ) (c : cache_sim_t τ) (addr bytes : Nat) :
    ∃ c1 out, access vt c addr bytes false = some (c1, out) := by
  simp only [access, Bool.false_eq_true, if_false]
  generalize vt.check_tag _ addr = r
  obtain ⟨st, q⟩ := r
  cases q with
  | some p => exact ⟨_, _, rfl⟩
  | none => exact ⟨_, _, rfl⟩

theorem words_ok_replicate (n : Nat) : words_ok (List.replicate n 0) := by
  intro w hw
  rw [List.eq_of_mem_replicate hw]
  norm_num

/-- A lookup in a freshly allocated (all-zero) tag array misses. -/
theorem lookup_cold {τ : Type} (c : cache_sim_t τ) (n addr : Nat) :
    lookup c (List.replicate n 0) addr = none := by
  unfold lookup
  rw [find_way_none]
  intro j _ _ h
  rw [getD_replicate_zero, Nat.zero_and] at h
  exact new_tag_valid (addr >>> c.idx_shift) (by rw [h, Nat.zero_and])

/-- The engine `ORIG.new` builds for at least one way and 64-bit sizes is well formed and
cold. -/
theorem orig_new_wf (sets ways linesz : Nat) (c : cache_sim_t orig_store)
    (h : ORIG.new sets ways linesz = some c) (hw : 0 < ways) (hs : sets * ways < 2 ^ 64)
    (hl : linesz < 2 ^ 64) :
    ORIG.wf c ∧ c.store.tags = List.replicate (c.sets * c.ways) 0 := by
  obtain ⟨hg, hst, e1, e2, _⟩ := init_geom_ok _ sets ways linesz c h hw hs hl
  refine ⟨⟨hg, ?_, ?_⟩, ?_⟩
  · rw [hst, e1, e2]; exact List.length_replicate _ _
  · rw [hst]; exact words_ok_replicate _
  · rw [hst, e1, e2]

/-- The engine `SELF.new` builds for at least one way and 64-bit sizes is well formed and
cold. -/
theorem self_new_wf (sets ways linesz : Nat) (c : cache_sim_t self_store)
    (h : SELF.new sets ways linesz = some c) (hw : 0 < ways) (hs : sets * ways < 2 ^ 64)
    (hl : linesz < 2 ^ 64) :
    SELF.wf c ∧ c.store.tags = List.replicate (c.sets * c.ways) 0 := by
  obtain ⟨hg, hst, e1, e2, _⟩ := init_geom_ok _ sets ways linesz c h hw hs hl
  refine ⟨⟨hg, ?_, ?_, ?_⟩, ?_⟩
  · rw [hst, e1, e2]; exact List.length_replicate _ _
  · rw [hst, e1, e2]; exact List.length_replicate _ _
  · rw [hst]; exact words_ok_replicate _
  · rw [hst, e1, e2]

/-- Two loads of the same address on a cold engine of `ORIG_cachesim.cc`: a miss, then a hit. -/
theorem orig_cold_load_twice (c0 : cache_sim_t orig_store) (addr bytes : Nat)
    (hwf : ORIG.wf c0) (hcold : c0.store.tags = List.replicate (c0.sets * c0.ways) 0)
    (ha : addr < 2 ^ 64) :
    ∃ c1 c2 out1, access ORIG.vt c0 addr bytes false = some (c1, out1) ∧
      access ORIG.vt c1 addr bytes false = some (c2, []) ∧
      c1.read_accesses = inc64 c0.read_accesses ∧ c1.read_misses = inc64 c0.read_misses ∧
      c1.bytes_read = (c0.bytes_read + bytes) % 2 ^ 64 ∧
      c2.read_accesses = inc64 (inc64 c0.read_accesses) ∧
      c2.read_misses = inc64 c0.read_misses ∧
      c2.bytes_read = ((c0.bytes_read + bytes) % 2 ^ 64 + bytes) % 2 ^ 64 := by
  have hnone : lookup c0 c0.store.tags addr = none := by rw [hcold]; exact lookup_cold _ _ _
  have hway : lfsr_next c0.store.lfsr % c0.ways < c0.ways := Nat.mod_lt _ hwf.1.1.2.1
  have h1 := orig_access_miss c0 addr bytes false hwf ha hnone
  have h2 := lookup_install c0 c0.store.tags addr _ hwf.1 hwf.2.2 hwf.2.1 ha hway hnone
  refine ⟨_, _, _, h1, orig_access_hit _ addr bytes (ORIG.victim_index c0 addr) false ?_,
    rfl, rfl, rfl, rfl, rfl, rfl⟩
  simp only [lookup, set_index, new_tag, ORIG.victim_index, Bool.false_eq_true, if_false]
    at h2 ⊢
  exact h2

/-- Two loads of the same address on a cold engine of `SELF_cachesim.cc`: a miss, then a hit. -/
theorem self_cold_load_twice (c0 : cache_sim_t self_store) (addr bytes : Nat)
    (hwf : SELF.wf c0) (hcold : c0.store.tags = List.replicate (c0.sets * c0.ways) 0)
    (ha : addr < 2 ^ 64) :
    ∃ c1 c2 out1, access SELF.vt c0 addr bytes false = some (c1, out1) ∧
      access SELF.vt c1 addr bytes false = some (c2, []) ∧
      c1.read_accesses = inc64 c0.read_accesses ∧ c1.read_misses = inc64 c0.read_misses ∧
      c1.bytes_read = (c0.bytes_read + bytes) % 2 ^ 64 ∧
      c2.read_accesses = inc64 (inc64 c0.read_accesses) ∧
      c2.read_misses = inc64 c0.read_misses ∧
      c2.bytes_read = ((c0.bytes_read + bytes) % 2 ^ 64 + bytes) % 2 ^ 64 := by
  have hnone : lookup c0 c0.store.tags addr = none := by rw [hcold]; exact lookup_cold _ _ _
  have hway := self_miss_way_lt c0 addr hwf
  have h1 := self_access_miss c0 addr bytes false hwf ha hnone
  have h2 := lookup_install c0 c0.store.tags addr _ hwf.1 hwf.2.2.2 hwf.2.1 ha hway hnone
  refine ⟨_, _, _, h1, self_access_hit _ addr bytes (SELF.miss_index c0 addr) false ?_,
    rfl, rfl, rfl, rfl, rfl, rfl⟩
  simp only [lookup, set_index, new_tag, SELF.miss_index, Bool.false_eq_true, if_false]
    at h2 ⊢
  exact h2

/-- C13: one call `access(addr, bytes, store)`, on any store, moves the access counter of its
class by 1 and the byte counter of its class by `bytes` (both modulo `2 ^ 64`), moves the miss
counter of its class by 1 exactly when the lookup that opens it misses, and leaves the three
counters of the other class as they are.  A load always returns, and so does a store in a
well-formed state of `ORIG_cachesim.cc` or `SELF_cachesim.cc`.  On the cold engine with
`sets=1024, ways=4, linesz=64`, `access(0x1000, 4, false)` gives `read_accesses=1,
read_misses=1, bytes_read=4` and a second identical call `read_accesses=2, read_misses=1,
bytes_read=8`, in both files. -/
theorem access_counters {τ : Type} (vt : vtable τ) (c : cache_sim_t τ)
    (addr bytes : Nat) (store : Bool) :
    (∀ c1 out, access vt c addr bytes store = some (c1, out) →
      (store = false →
        c1.read_accesses = inc64 c.read_accesses ∧
        c1.bytes_read = (c.bytes_read + bytes) % 2 ^ 64 ∧
        (first_lookup_misses vt c addr bytes store → c1.read_misses = inc64 c.read_misses) ∧
        (¬ first_lookup_misses vt c addr bytes store → c1.read_misses = c.read_misses) ∧
        c1.write_accesses = c.write_accesses ∧ c1.bytes_written = c.bytes_written ∧
        c1.write_misses = c.write_misses) ∧
      (store = true →
        c1.write_accesses = inc64 c.write_accesses ∧
        c1.bytes_written = (c.bytes_written + bytes) % 2 ^ 64 ∧
        (first_lookup_misses vt c addr bytes store → c1.write_misses = inc64 c.write_misses) ∧
        (¬ first_lookup_misses vt c addr bytes store → c1.write_misses = c.write_misses) ∧
        c1.read_accesses = c.read_accesses ∧ c1.bytes_read = c.bytes_read ∧
        c1.read_misses = c.read_misses)) ∧
    (∃ c1 out, access vt c addr bytes false = some (c1, out)) ∧
    (∀ c0 : cache_sim_t orig_store, ORIG.wf c0 → addr < 2 ^ 64 →
      ∃ c1 out, access ORIG.vt c0 addr bytes store = some (c1, out)) ∧
    (∀ d0 : cache_sim_t self_store, SELF.wf d0 → addr < 2 ^ 64 →
      ∃ d1 out, access SELF.vt d0 addr bytes store = some (d1, out)) ∧
    (∃ c0 c1 c2 out1, ORIG.new 1024 4 64 = some c0 ∧
      access ORIG.vt c0 0x1000 4 false = some (c1, out1) ∧
      access ORIG.vt c1 0x1000 4 false = some (c2, []) ∧
      (c1.read_accesses, c1.read_misses, c1.bytes_read) = (1, 1, 4) ∧
      (c2.read_accesses, c2.read_misses, c2.bytes_read) = (2, 1, 8)) ∧
    (∃ d0 d1 d2 out1, SELF.new 1024 4 64 = some d0 ∧
      access SELF.vt d0 0x1000 4 false = some (d1, out1) ∧
      access SELF.vt d1 0x1000 4 false = some (d2, []) ∧
      (d1.read_accesses, d1.read_misses, d1.bytes_read) = (1, 1, 4) ∧
      (d2.read_accesses, d2.read_misses, d2.bytes_read) = (2, 1, 8)) := by
  refine ⟨?_, access_load_total vt c addr bytes, ?_, ?_, ?_, ?_⟩
  · intro c1 out h
    obtain ⟨_, _, _, _, _, h1, h2, h3, h4, h5⟩ := access_shape vt c c1 addr bytes store out h
    constructor
    · intro hs
      subst hs
      simp only [Bool.false_eq_true, if_false] at h1 h2 h3 h4 h5
      rcases h5 with ⟨hn, _, e1, e2, _⟩ | ⟨hm, v, _, e1, e2, _⟩
      · exact ⟨h1, h2, fun hm => absurd hm hn, fun _ => e1, h3, h4, e2⟩
      · exact ⟨h1, h2, fun _ => e1, fun hn => absurd hm hn, h3, h4, e2⟩
    · intro hs
      subst hs
      simp only [if_true] at h1 h2 h3 h4 h5
      rcases h5 with ⟨hn, _, e1, e2, _⟩ | ⟨hm, v, _, e1, e2, _⟩
      · exact ⟨h3, h4, fun hm => absurd hm hn, fun _ => e2, h1, h2, e1⟩
      · exact ⟨h3, h4, fun _ => e2, fun hn => absurd hm hn, h1, h2, e1⟩
  · intro c0 hc ha
    cases hl : lookup c0 c0.store.tags addr with
    | some p => exact ⟨_, _, orig_access_hit c0 addr bytes p store hl⟩
    | none => exact ⟨_, _, orig_access_miss c0 addr bytes store hc ha hl⟩
  · intro d0 hd ha
    cases hl : lookup d0 d0.store.tags addr with
    | some p => exact ⟨_, _, self_access_hit d0 addr bytes p store hl⟩
    | none => exact ⟨_, _, self_access_miss d0 addr bytes store hd ha hl⟩
  · have h0 : ∃ c0, ORIG.new 1024 4 64 = some c0 ∧ c0.read_accesses = 0 ∧ c0.read_misses = 0 ∧
        c0.bytes_read = 0 := ⟨_, rfl, rfl, rfl, rfl⟩
    obtain ⟨c0, h0, z1, z2, z3⟩ := h0
    obtain ⟨hwf, hcold⟩ := orig_new_wf 1024 4 64 c0 h0 (by norm_num) (by norm_num) (by norm_num)
    obtain ⟨c1, c2, out1, a1, a2, e1, e2, e3, e4, e5, e6⟩ :=
      orig_cold_load_twice c0 0x1000 4 hwf hcold (by norm_num)
    refine ⟨c0, c1, c2, out1, h0, a1, a2, ?_, ?_⟩
    · rw [e1, e2, e3, z1, z2, z3]; rfl
    · rw [e4, e5, e6, z1, z2, z3]; rfl
  · have h0 : ∃ d0, SELF.new 1024 4 64 = some d0 ∧ d0.read_accesses = 0 ∧ d0.read_misses = 0 ∧
        d0.bytes_read = 0 := ⟨_, rfl, rfl, rfl, rfl⟩
    obtain ⟨d0, h0, z1, z2, z3⟩ := h0
    obtain ⟨hwf, hcold⟩ := self_new_wf 1024 4 64 d0 h0 (by norm_num) (by norm_num) (by norm_num)
    obtain ⟨d1, d2, out1, a1, a2, e1, e2, e3, e4, e5, e6⟩ :=
      self_cold_load_twice d0 0x1000 4 hwf hcold (by norm_num)
    refine ⟨d0, d1, d2, out1, h0, a1, a2, ?_, ?_⟩
    · rw [e1, e2, e3, z1, z2, z3]; rfl
    · rw [e4, e5, e6, z1, z2, z3]; rfl

/-! ## The recency sweep (C20) -/

/-- The sweep `for (i = 0; i < n; i++) if (tags[i] & VALID) timer[i]++;` entry by entry. -/
theorem tick_getD (tags : List Nat) (n : Nat) (timer : List Nat) (i : Nat) :
    (tick tags n timer).getD i 0
      = if i < n ∧ i < timer.length ∧ tags.getD i 0 &&& VALID ≠ 0
        then inc64 (timer.getD i 0) else timer.getD i 0 := by
  induction n with
  | zero => simp [tick]
  | succ n ih =>
    simp only [tick]
    by_cases hv : tags.getD n 0 &&& VALID ≠ 0
    · rw [if_pos hv]
      by_cases hin : i = n
      · subst hin
        by_cases hlen : i < timer.length
        · rw [getD_set_eq _ _ _ (by rw [tick_length]; exact hlen), ih]
          have h1 : ¬ (i < i ∧ i < timer.length ∧ tags.getD i 0 &&& VALID ≠ 0) := by omega
          rw [if_neg h1, if_pos ⟨by omega, hlen, hv⟩]
        · have h2 : (tick tags i timer).length ≤ i := by rw [tick_length]; omega
          rw [List.set_eq_of_length_le h2, ih]
          have h1 : ¬ (i < i ∧ i < timer.length ∧ tags.getD i 0 &&& VALID ≠ 0) := by omega
          have h3 : ¬ (i < i + 1 ∧ i < timer.length ∧ tags.getD i 0 &&& VALID ≠ 0) := by
            omega
          rw [if_neg h1, if_neg h3]
      · rw [getD_set_ne _ _ _ _ hin, ih]
        by_cases hc : i < n ∧ i < timer.length ∧ tags.getD i 0 &&& VALID ≠ 0
        · rw [if_pos hc, if_pos ⟨by omega, hc.2⟩]
        · rw [if_neg hc, if_neg]
          intro hc2
          exact hc ⟨by omega, hc2.2⟩
    · rw [if_neg hv, ih]
      by_cases hc : i < n ∧ i < timer.length ∧ tags.getD i 0 &&& VALID ≠ 0
      · rw [if_pos hc, if_pos ⟨by omega, hc.2⟩]
      · rw [if_neg hc, if_neg]
        intro hc2
        by_cases hin : i = n
        · subst hin; exact hv hc2.2.2
        · exact hc ⟨by omega, hc2.2⟩

/-- C20: in a well-formed state of `SELF_cachesim.cc`, for a 64-bit `addr`, one call
`check_tag(addr)` leaves the tag array as it is; every line of the whole cache other than the
one it returns gets its timer increased by 1 (modulo `2 ^ 64`; exactly `+1` below the top value)
when it has VALID set and keeps its timer when VALID is clear; the line returned, if any, ends
with timer 0; on a miss no timer is reset.  A store that misses makes `access` run the sweep
twice: every line other than the one installed has its timer increased twice when valid and
kept otherwise, and the installed line ends with timer 0. -/
theorem check_tag_sweep (d : cache_sim_t self_store) (addr bytes : Nat) (hd : SELF.wf d)
    (ha : addr < 2 ^ 64) :
    (SELF.check_tag d addr).1.tags = d.store.tags ∧
    (∀ i, i < d.sets * d.ways → (SELF.check_tag d addr).2 ≠ some i →
      (SELF.check_tag d addr).1.timer.getD i 0
        = if d.store.tags.getD i 0 &&& VALID ≠ 0 then inc64 (d.store.timer.getD i 0)
          else d.store.timer.getD i 0) ∧
    (∀ p, (SELF.check_tag d addr).2 = some p →
      p < d.sets * d.ways ∧ (SELF.check_tag d addr).1.timer.getD p 0 = 0) ∧
    (∀ t, t + 1 < 2 ^ 64 → inc64 t = t + 1) ∧
    ((SELF.check_tag d addr).2 = none →
      ∃ d1, access SELF.vt d addr bytes true
          = some (d1, miss_calls d (d.store.tags.getD (SELF.miss_index d addr) 0) addr) ∧
        d1.store.timer.getD (SELF.miss_index d addr) 0 = 0 ∧
        ∀ i, i < d.sets * d.ways → i ≠ SELF.miss_index d addr →
          d1.store.timer.getD i 0
            = if d.store.tags.getD i 0 &&& VALID ≠ 0
              then inc64 (inc64 (d.store.timer.getD i 0)) else d.store.timer.getD i 0) := by
  have hlen := hd.2.2.1
  have htick : ∀ i, i < d.sets * d.ways →
      (SELF.ticked d).getD i 0
        = if d.store.tags.getD i 0 &&& VALID ≠ 0 then inc64 (d.store.timer.getD i 0)
          else d.store.timer.getD i 0 := by
    intro i hi
    unfold SELF.ticked
    rw [tick_getD]
    by_cases hv : d.store.tags.getD i 0 &&& VALID ≠ 0
    · rw [if_pos ⟨hi, by omega, hv⟩, if_pos hv]
    · rw [if_neg hv, if_neg (fun h => hv h.2.2)]
  have hsnd := self_check_tag_snd d addr
  have hfst : ∀ q, lookup d d.store.tags addr = q →
      (SELF.check_tag d addr).1
        = { tags := d.store.tags,
            timer := match q with
              | some p => (SELF.ticked d).set p 0
              | none => SELF.ticked d } := by
    intro q hq
    simp only [lookup, set_index] at hq
    simp only [SELF.check_tag, SELF.ticked, hq]
    cases q <;> rfl
  refine ⟨?_, ?_, ?_, ?_, ?_⟩
  · rw [hfst _ rfl]
  · intro i hi hne
    rw [hsnd] at hne
    rw [hfst _ rfl]
    cases hq : lookup d d.store.tags addr with
    | none => exact htick i hi
    | some p =>
      rw [hq] at hne
      have hip : i ≠ p := fun h => hne (by rw [h])
      simp only []
      rw [getD_set_ne _ _ _ _ hip]
      exact htick i hi
  · intro p hp
    rw [hsnd] at hp
    obtain ⟨i, hi, hpi, _⟩ := (lookup_some d d.store.tags addr p hd.1 hd.2.2.2 ha).mp hp
    have hb := set_base_le d addr hd.1
    have hpl : p < d.sets * d.ways := by omega
    refine ⟨hpl, ?_⟩
    rw [hfst _ hp]
    simp only []
    exact getD_set_eq _ _ _ (by unfold SELF.ticked; rw [tick_length]; omega)
  · intro t ht
    unfold inc64
    exact Nat.mod_eq_of_lt ht
  · intro h
    rw [hsnd] at h
    have hway := self_miss_way_lt d addr hd
    have hb := set_base_le d addr hd.1
    have hpl : SELF.miss_index d addr < d.sets * d.ways := by
      unfold SELF.miss_index; omega
    have htl : (SELF.ticked d).length = d.sets * d.ways := by
      unfold SELF.ticked; rw [tick_length]; exact hlen
    refine ⟨_, self_access_miss d addr bytes true hd ha h, ?_, ?_⟩
    · simp only [if_true]
      exact getD_set_eq _ _ _ (by rw [tick_length, List.length_set, htl]; exact hpl)
    · intro i hi hne
      simp only [if_true]
      rw [getD_set_ne _ _ _ _ hne, tick_getD, getD_set_ne _ _ _ _ hne,
        getD_set_ne _ _ _ _ hne, htick i hi, List.length_set, htl]
      by_cases hv : d.store.tags.getD i 0 &&& VALID ≠ 0
      · rw [if_pos ⟨hi, hi, hv⟩, if_pos hv, if_pos hv]
      · rw [if_neg hv, if_neg (fun h => hv h.2.2), if_neg hv]

/-! ## One iteration of the range loop, store by store -/

theorem set_getD_self (l : List Nat) (p : Nat) (hp : p < l.length) :
    l.set p (l.getD p 0) = l := by
  apply List.ext_getElem
  · exact List.length_set _ _ _
  · intro i h1 h2
    rw [List.getElem_set]
    split
    · rename_i hpi
      subst hpi
      exact List.getD_eq_getElem _ _ hp
    · rfl

theorem orig_body_miss (c : cache_sim_t orig_store) (a : Nat) (clean inval : Bool)
    (h : lookup c c.store.tags a = none) :
    clean_invalidate_body ORIG.vt clean inval c a = c := by
  simp only [lookup, set_index] at h
  simp only [clean_invalidate_body, ORIG.vt, ORIG.check_tag, h]

theorem orig_body_hit (c : cache_sim_t orig_store) (a p : Nat) (clean inval : Bool)
    (hp : p < c.store.tags.length) (h : lookup c c.store.tags a = some p) :
    clean_invalidate_body ORIG.vt clean inval c a
      = { c with
          writebacks := if clean = true ∧ c.store.tags.getD p 0 &&& DIRTY ≠ 0
                        then inc64 c.writebacks else c.writebacks,
          store := { c.store with
                     tags := c.store.tags.set p
                       (clean_word clean inval (c.store.tags.getD p 0)) } } := by
  simp only [lookup, set_index] at h
  have hs := getD_set_eq c.store.tags p (c.store.tags.getD p 0 &&& not64 DIRTY) hp
  have hself := set_getD_self c.store.tags p hp
  by_cases hd : c.store.tags.getD p 0 &&& DIRTY = 0
  · cases clean <;> cases inval <;>
    simp only [clean_invalidate_body, ORIG.vt, ORIG.check_tag, h, hd, hs, hself, clean_word, Bool.false_and,
      Bool.true_and, Bool.false_eq_true, decide_True, decide_False, if_true, if_false, ne_eq,
      not_true_eq_false, not_false_eq_true, and_true, true_and, false_and, and_false,
      decide_not, Bool.not_eq_true', decide_eq_true_eq, decide_eq_false_iff_not, List.set_set,
      Bool.not_true, Bool.not_false, Bool.and_true, Bool.and_false, eq_self_iff_true]
  · cases clean <;> cases inval <;>
    simp only [clean_invalidate_body, ORIG.vt, ORIG.check_tag, h, hd, hs, hself, clean_word, Bool.false_and,
      Bool.true_and, Bool.false_eq_true, decide_True, decide_False, if_true, if_false, ne_eq,
      not_true_eq_false, not_false_eq_true, and_true, true_and, false_and, and_false,
      decide_not, Bool.not_eq_true', decide_eq_true_eq, decide_eq_false_iff_not, List.set_set,
      Bool.not_true, Bool.not_false, Bool.and_true, Bool.and_false, eq_self_iff_true]

theorem self_body_miss (c : cache_sim_t self_store) (a : Nat) (clean inval : Bool)
    (h : lookup c c.store.tags a = none) :
    clean_invalidate_body SELF.vt clean inval c a
      = { c with store := { tags := c.store.tags, timer := SELF.ticked c } } := by
  simp only [lookup, set_index] at h
  simp only [clean_invalidate_body, SELF.vt, SELF.check_tag, SELF.ticked, h]

theorem self_body_hit (c : cache_sim_t self_store) (a p : Nat) (clean inval : Bool)
    (hp : p < c.store.tags.length) (h : lookup c c.store.tags a = some p) :
    clean_invalidate_body SELF.vt clean inval c a
      = { c with
          writebacks := if clean = true ∧ c.store.tags.getD p 0 &&& DIRTY ≠ 0
                        then inc64 c.writebacks else c.writebacks,
          store := { tags := c.store.tags.set p
                       (clean_word clean inval (c.store.tags.getD p 0)),
                     timer := (SELF.ticked c).set p 0 } } := by
  simp only [lookup, set_index] at h
  have hs := getD_set_eq c.store.tags p (c.store.tags.getD p 0 &&& not64 DIRTY) hp
  have hself := set_getD_self c.store.tags p hp
  by_cases hd : c.store.tags.getD p 0 &&& DIRTY = 0
  · cases clean <;> cases inval <;>
    simp only [clean_invalidate_body, SELF.vt, SELF.check_tag, SELF.ticked, h, hd, hs, hself,
      clean_word, Bool.false_and,
      Bool.true_and, Bool.false_eq_true, decide_True, decide_False, if_true, if_false, ne_eq,
      not_true_eq_false, not_false_eq_true, and_true, true_and, false_and, and_false,
      decide_not, Bool.not_eq_true', decide_eq_true_eq, decide_eq_false_iff_not, List.set_set,
      Bool.not_true, Bool.not_false, Bool.and_true, Bool.and_false, eq_self_iff_true]
  · cases clean <;> cases inval <;>
    simp only [clean_invalidate_body, SELF.vt, SELF.check_tag, SELF.ticked, h, hd, hs, hself,
      clean_word, Bool.false_and,
      Bool.true_and, Bool.false_eq_true, decide_True, decide_False, if_true, if_false, ne_eq,
      not_true_eq_false, not_false_eq_true, and_true, true_and, false_and, and_false,
      decide_not, Bool.not_eq_true', decide_eq_true_eq, decide_eq_false_iff_not, List.set_set,
      Bool.not_true, Bool.not_false, Bool.and_true, Bool.and_false, eq_self_iff_true]

/-! ## Invariants of reachable states -/

/-- Every address the range loop visits is a 64-bit value. -/
theorem range_addrs_lt (k addr bytes x : Nat) (hk : k < 64) (ha : addr < 2 ^ 64)
    (hx : x ∈ range_addrs (2 ^ k) (start_addr (2 ^ k) addr) (iterations (2 ^ k) addr bytes)) :
    x < 2 ^ 64 := by
  obtain ⟨i, hi, rfl⟩ := (mem_range_addrs _ _ _ _).mp hx
  have hlt : start_addr (2 ^ k) addr < end_addr (2 ^ k) addr bytes := by
    by_contra h
    unfold iterations at hi
    rw [if_neg h] at hi
    omega
  have hm := iterations_mul k addr bytes hk ha hlt
  have he := end_addr_lt k addr bytes hk
  have hpos : 0 < 2 ^ k := Nat.two_pow_pos k
  have h1 : (i + 1) * 2 ^ k ≤ iterations (2 ^ k) addr bytes * 2 ^ k :=
    Nat.mul_le_mul_right _ hi
  have h2 : (i + 1) * 2 ^ k = i * 2 ^ k + 2 ^ k := by ring
  omega

theorem foldl_invariant {τ : Type} (vt : vtable τ) (P : cache_sim_t τ → Prop)
    (clean inval : Bool)
    (hb : ∀ c a, P c → a < 2 ^ 64 → P (clean_invalidate_body vt clean inval c a))
    (l : List Nat) (hl : ∀ x ∈ l, x < 2 ^ 64) (c : cache_sim_t τ) (hc : P c) :
    P (l.foldl (clean_invalidate_body vt clean inval) c) := by
  induction l generalizing c with
  | nil => exact hc
  | cons a l ih =>
    rw [List.foldl_cons]
    apply ih
    · intro x hx; exact hl x (List.mem_cons_of_mem _ hx)
    · exact hb c a hc (hl a (List.mem_cons_self _ _))

/-- A property that holds initially and is kept by `set_miss_handler`, by every `access` that
returns and by every iteration of the range loop of `clean_invalidate` holds in every reachable
state. -/
theorem reachable_invariant {τ : Type} (vt : vtable τ) (P : cache_sim_t τ → Prop)
    (c0 : cache_sim_t τ) (h0 : P c0)
    (hgeom : ∀ c, P c → ∃ k, k < 64 ∧ c.linesz = 2 ^ k)
    (hh : ∀ c, P c → P (set_miss_handler c))
    (ha : ∀ c addr bytes store c1 out, P c → addr < 2 ^ 64 →
      access vt c addr bytes store = some (c1, out) → P c1)
    (hb : ∀ clean inval c a, P c → a < 2 ^ 64 → P (clean_invalidate_body vt clean inval c a)) :
    ∀ c, reachable vt c0 c → P c := by
  intro c hr
  induction hr with
  | start => exact h0
  | handler _ ih => exact hh _ ih
  | step x _ hfit hd ih =>
    cases x with
    | access addr bytes store =>
      exact ha _ addr bytes store _ _ ih hfit.1 hd
    | clean_invalidate addr bytes clean inval =>
      obtain ⟨k, hk, hl⟩ := hgeom _ ih
      simp only [dispatch] at hd
      rw [clean_invalidate_eq vt _ k addr bytes clean inval hk hl hfit.1] at hd
      injection hd with hd
      injection hd with hd1 _
      rw [← hd1]
      exact foldl_invariant vt P clean inval (hb clean inval) _
        (fun x hx => range_addrs_lt k addr bytes x hk hfit.1 hx) _ ih

/-! ## The invariant of `SELF_cachesim.cc` -/

theorem or_DIRTY_lt (w : Nat) (hw : w < 2 ^ 64) : w ||| DIRTY < 2 ^ 64 :=
  Nat.or_lt_two_pow hw (by unfold DIRTY; norm_num)

theorem clean_word_le (clean inval : Bool) (w : Nat) : clean_word clean inval w ≤ w := by
  unfold clean_word
  split
  · split
    · exact le_trans Nat.and_le_left Nat.and_le_left
    · exact Nat.and_le_left
  · split
    · exact Nat.and_le_left
    · exact le_refl _

theorem or_DIRTY_valid (w : Nat) : (w ||| DIRTY) &&& VALID = 0 ↔ w &&& VALID = 0 := by
  have h1 := and_VALID_ne_zero (w ||| DIRTY)
  have h2 := and_VALID_ne_zero w
  have h3 : (w ||| DIRTY).testBit 63 = w.testBit 63 := by
    rw [Nat.testBit_or, testBit_DIRTY]; simp
  rw [h3] at h1
  constructor
  · intro h; by_contra hc; exact (h1.mpr (h2.mp hc)) h
  · intro h; by_contra hc; exact (h2.mpr (h1.mp hc)) h

/-- The line a lookup returns lies inside the arrays and has VALID set. -/
theorem lookup_valid {τ : Type} (c : cache_sim_t τ) (tags : List Nat) (addr p : Nat)
    (hg : geom_ok c) (hw : words_ok tags) (ha : addr < 2 ^ 64)
    (h : lookup c tags addr = some p) :
    p < c.sets * c.ways ∧ tags.getD p 0 &&& VALID ≠ 0 ∧ holds c.idx_shift (tags.getD p 0) addr := by
  obtain ⟨i, hi, hpi, hh, _⟩ := (lookup_some c tags addr p hg hw ha).mp h
  have hb := set_base_le c addr hg
  rw [← hpi] at hh
  exact ⟨by omega, hh.1, hh⟩

theorem ticked_idle (c : cache_sim_t self_store) (hi : SELF.idle_zero c) (i : Nat)
    (hlt : i < c.sets * c.ways) (hv : c.store.tags.getD i 0 &&& VALID = 0) :
    (SELF.ticked c).getD i 0 = 0 := by
  unfold SELF.ticked
  rw [tick_getD, if_neg (fun h => h.2.2 hv)]
  exact hi i hlt hv

theorem ticked_length (c : cache_sim_t self_store) :
    (SELF.ticked c).length = c.store.timer.length := by
  unfold SELF.ticked
  exact tick_length _ _ _

theorem self_inv_access (c c1 : cache_sim_t self_store) (addr bytes : Nat) (store : Bool)
    (out : List call) (hinv : SELF.inv c) (ha : addr < 2 ^ 64)
    (h : access SELF.vt c addr bytes store = some (c1, out)) : SELF.inv c1 := by
  obtain ⟨hwf, hidle⟩ := hinv
  obtain ⟨hg, hlt, hlm, hwo⟩ := hwf
  cases hl : lookup c c.store.tags addr with
  | some p =>
    rw [self_access_hit c addr bytes p store hl] at h
    injection h with h
    injection h with h1 _
    subst h1
    obtain ⟨hp, hpv, _⟩ := lookup_valid c c.store.tags addr p hg hwo ha hl
    have hpl : p < (SELF.ticked c).length := by rw [ticked_length, hlm]; exact hp
    refine ⟨⟨hg, ?_, ?_, ?_⟩, ?_⟩
    · show (if store = true then _ else _ : List Nat).length = _
      split
      · rw [List.length_set]; exact hlt
      · exact hlt
    · show ((SELF.ticked c).set p 0).length = _
      rw [List.length_set, ticked_length]; exact hlm
    · show words_ok (if store = true then _ else _ : List Nat)
      split
      · exact words_ok_set _ _ _ hwo (or_DIRTY_lt _ (getD_lt _ _ hwo))
      · exact hwo
    · intro i hi hv
      show ((SELF.ticked c).set p 0).getD i 0 = 0
      by_cases hip : i = p
      · rw [hip]; exact getD_set_eq _ _ _ hpl
      · rw [getD_set_ne _ _ _ _ hip]
        apply ticked_idle c hidle i hi
        have hv2 : (if store = true
            then c.store.tags.set p (c.store.tags.getD p 0 ||| DIRTY)
            else c.store.tags).getD i 0 &&& VALID = 0 := hv
        split at hv2
        · rwa [getD_set_ne _ _ _ _ hip] at hv2
        · exact hv2
  | none =>
    rw [self_access_miss c addr bytes store ⟨hg, hlt, hlm, hwo⟩ ha hl] at h
    injection h with h
    injection h with h1 _
    subst h1
    have hway := self_miss_way_lt c addr ⟨hg, hlt, hlm, hwo⟩
    have hb := set_base_le c addr hg
    have hp : SELF.miss_index c addr < c.sets * c.ways := by unfold SELF.miss_index; omega
    have hpl : SELF.miss_index c addr < (SELF.ticked c).length := by
      rw [ticked_length, hlm]; exact hp
    have hnl := new_tag_lt c addr hg ha
    refine ⟨⟨hg, ?_, ?_, ?_⟩, ?_⟩
    · show (c.store.tags.set _ _).length = _
      rw [List.length_set]; exact hlt
    · show (if store = true then _ else _ : List Nat).length = _
      split
      · rw [List.length_set, tick_length, List.length_set, ticked_length]; exact hlm
      · rw [List.length_set, ticked_length]; exact hlm
    · show words_ok (c.store.tags.set _ _)
      apply words_ok_set _ _ _ hwo
      split
      · exact or_DIRTY_lt _ hnl
      · exact hnl
    · intro i hi hv
      have hv2 : (c.store.tags.set (SELF.miss_index c addr)
          (if store = true then new_tag c addr ||| DIRTY else new_tag c addr)).getD i 0
            &&& VALID = 0 := hv
      have hip : i ≠ SELF.miss_index c addr := by
        intro hip
        rw [hip, getD_set_eq _ _ _ (by rw [hlt]; exact hp)] at hv2
        split at hv2
        · exact new_tag_valid _ ((or_DIRTY_valid _).mp hv2)
        · exact new_tag_valid _ hv2
      rw [getD_set_ne _ _ _ _ hip] at hv2
      show (if store = true then _ else _ : List Nat).getD i 0 = 0
      split
      · rw [getD_set_ne _ _ _ _ hip, tick_getD, getD_set_ne _ _ _ _ hip,
          if_neg (fun h => h.2.2 hv2), getD_set_ne _ _ _ _ hip]
        exact ticked_idle c hidle i hi hv2
      · rw [getD_set_ne _ _ _ _ hip]
        exact ticked_idle c hidle i hi hv2

theorem self_inv_body (clean inval : Bool) (c : cache_sim_t self_store) (a : Nat)
    (hinv : SELF.inv c) (ha : a < 2 ^ 64) :
    SELF.inv (clean_invalidate_body SELF.vt clean inval c a) := by
  obtain ⟨hwf, hidle⟩ := hinv
  obtain ⟨hg, hlt, hlm, hwo⟩ := hwf
  cases hl : lookup c c.store.tags a with
  | none =>
    rw [self_body_miss c a clean inval hl]
    refine ⟨⟨hg, hlt, ?_, hwo⟩, ?_⟩
    · show (SELF.ticked c).length = _
      rw [ticked_length]; exact hlm
    · intro i hi hv
      exact ticked_idle c hidle i hi hv
  | some p =>
    obtain ⟨hp, _, _⟩ := lookup_valid c c.store.tags a p hg hwo ha hl
    rw [self_body_hit c a p clean inval (by rw [hlt]; exact hp) hl]
    have hpl : p < (SELF.ticked c).length := by rw [ticked_length, hlm]; exact hp
    refine ⟨⟨hg, ?_, ?_, ?_⟩, ?_⟩
    · show (c.store.tags.set _ _).length = _
      rw [List.length_set]; exact hlt
    · show ((SELF.ticked c).set p 0).length = _
      rw [List.length_set, ticked_length]; exact hlm
    · show words_ok (c.store.tags.set _ _)
      exact words_ok_set _ _ _ hwo
        (lt_of_le_of_lt (clean_word_le _ _ _) (getD_lt _ _ hwo))
    · intro i hi hv
      show ((SELF.ticked c).set p 0).getD i 0 = 0
      by_cases hip : i = p
      · rw [hip]; exact getD_set_eq _ _ _ hpl
      · rw [getD_set_ne _ _ _ _ hip]
        apply ticked_idle c hidle i hi
        have hv2 : (c.store.tags.set p (clean_word clean inval (c.store.tags.getD p 0))).getD
            i 0 &&& VALID = 0 := hv
        rwa [getD_set_ne _ _ _ _ hip] at hv2

/-- Every state of `SELF_cachesim.cc` reachable from a state with the invariant has it. -/
theorem self_inv_reachable (d0 d : cache_sim_t self_store) (h0 : SELF.inv d0)
    (hr : reachable SELF.vt d0 d) : SELF.inv d := by
  apply reachable_invariant SELF.vt SELF.inv d0 h0 _ _ _ _ d hr
  · intro c hc
    obtain ⟨⟨_, _, ⟨k, hk, _, hl⟩, _⟩, _⟩ := hc.1.1
    exact ⟨k, hk, hl⟩
  · intro c hc
    exact hc
  · intro c addr bytes store c1 out hc ha h
    exact self_inv_access c c1 addr bytes store out hc ha h
  · intro clean inval c a hc ha
    exact self_inv_body clean inval c a hc ha

theorem self_inv_new (sets ways linesz : Nat) (d0 : cache_sim_t self_store)
    (hnew : SELF.new sets ways linesz = some d0) (hw : 0 < ways) (hs : sets * ways < 2 ^ 64)
    (hl : linesz < 2 ^ 64) : SELF.inv d0 := by
  obtain ⟨hwf, _⟩ := self_new_wf sets ways linesz d0 hnew hw hs hl
  obtain ⟨_, hst, _⟩ := init_geom_ok _ sets ways linesz d0 hnew hw hs hl
  refine ⟨hwf, ?_⟩
  intro i _ _
  rw [hst]
  exact getD_replicate_zero _ _

theorem valid_dirty_valid (w : Nat) (h : valid_dirty w) : w &&& VALID ≠ 0 := by
  rw [and_VALID_ne_zero]
  have := congrArg (fun x => x.testBit 63) h
  simpa [Nat.testBit_and, Nat.testBit_or, testBit_VALID, testBit_DIRTY] using this

/-! ## Free ways are filled first (C22) -/

/-- The way replaced after a miss, when the set has a way with VALID clear and no timer is at
its top value: the lowest way of the set with VALID clear. -/
theorem miss_way_free (d : cache_sim_t self_store) (addr j : Nat) (hinv : SELF.inv d)
    (hov : ∀ i, i < d.sets * d.ways → d.store.timer.getD i 0 + 1 < 2 ^ 64)
    (hj : j < d.ways)
    (hfree : d.store.tags.getD (set_index d addr * d.ways + j) 0 &&& VALID = 0) :
    ∃ r, r ≤ j ∧ SELF.miss_index d addr = set_index d addr * d.ways + r ∧
      d.store.tags.getD (set_index d addr * d.ways + r) 0 &&& VALID = 0 ∧
      ∀ j', j' < r → d.store.tags.getD (set_index d addr * d.ways + j') 0 &&& VALID ≠ 0 := by
  obtain ⟨hwf, hidle⟩ := hinv
  have hb := set_base_le d addr hwf.1
  have hw : 0 < d.ways := hwf.1.1.2.1
  have htl : (SELF.ticked d).length = d.sets * d.ways := by
    rw [ticked_length]; exact hwf.2.2.1
  have hl := set_timers_length (SELF.ticked d) (set_index d addr * d.ways) d.ways (by omega)
  obtain ⟨h1, h2, h3⟩ := min_element_spec
    (((SELF.ticked d).drop (set_index d addr * d.ways)).take d.ways) (by omega)
  rw [hl] at h1 h2
  have hval : ∀ i, i < d.ways →
      d.store.tags.getD (set_index d addr * d.ways + i) 0 &&& VALID ≠ 0 →
      1 ≤ (((SELF.ticked d).drop (set_index d addr * d.ways)).take d.ways).getD i 0 := by
    intro i hi hv
    rw [set_timers_getD _ _ _ _ hi]
    unfold SELF.ticked
    rw [tick_getD, if_pos ⟨by omega, by rw [hwf.2.2.1]; omega, hv⟩]
    have := hov (set_index d addr * d.ways + i) (by omega)
    unfold inc64
    rw [Nat.mod_eq_of_lt this]
    omega
  have hinval : ∀ i, i < d.ways →
      d.store.tags.getD (set_index d addr * d.ways + i) 0 &&& VALID = 0 →
      (((SELF.ticked d).drop (set_index d addr * d.ways)).take d.ways).getD i 0 = 0 := by
    intro i hi hv
    rw [set_timers_getD _ _ _ _ hi]
    exact ticked_idle d hidle _ (by omega) hv
  have hj0 := hinval j hj hfree
  have hr0 := h2 j hj
  rw [hj0] at hr0
  refine ⟨_, ?_, rfl, ?_, ?_⟩
  · by_contra hc
    have := h3 j (by omega)
    omega
  · by_contra hc
    have := hval _ h1 hc
    omega
  · intro j' hj' hc
    have := h3 j' hj'
    have := hinval j' (by omega) hc
    omega

/-- C22: in every state of the engine of `SELF_cachesim.cc` reachable from construction (with
at least one way and 64-bit sizes) by `access` and `clean_invalidate` calls, every line with
VALID clear has timer 0.  Hence, when no timer is at its top value, `check_tag(addr)` misses
and the set of `addr` has a way with VALID clear, the way `access` replaces is the
lowest-indexed way of that set with VALID clear, the victim it gets has VALID clear, and
`writebacks` is left as it is. -/
theorem free_ways_first (sets ways linesz : Nat) (d0 d : cache_sim_t self_store)
    (addr bytes j : Nat) (store : Bool)
    (hnew : SELF.new sets ways linesz = some d0) (hw : 0 < ways) (hs : sets * ways < 2 ^ 64)
    (hl : linesz < 2 ^ 64) (hr : reachable SELF.vt d0 d) (ha : addr < 2 ^ 64) :
    SELF.idle_zero d ∧
    ((SELF.check_tag d addr).2 = none →
      (∀ i, i < d.sets * d.ways → d.store.timer.getD i 0 + 1 < 2 ^ 64) →
      j < d.ways → d.store.tags.getD (set_index d addr * d.ways + j) 0 &&& VALID = 0 →
      ∃ r, r ≤ j ∧ SELF.miss_index d addr = set_index d addr * d.ways + r ∧
        d.store.tags.getD (set_index d addr * d.ways + r) 0 &&& VALID = 0 ∧
        (∀ j', j' < r → d.store.tags.getD (set_index d addr * d.ways + j') 0 &&& VALID ≠ 0) ∧
        ∃ d1, access SELF.vt d addr bytes store
            = some (d1, miss_calls d (d.store.tags.getD (set_index d addr * d.ways + r) 0)
                addr) ∧
          d1.writebacks = d.writebacks ∧
          d1.store.tags.getD (set_index d addr * d.ways + r) 0
            = (if store then new_tag d addr ||| DIRTY else new_tag d addr)) := by
  have hinv := self_inv_reachable d0 d (self_inv_new sets ways linesz d0 hnew hw hs hl) hr
  refine ⟨hinv.2, ?_⟩
  intro hmiss hov hj hfree
  rw [self_check_tag_snd] at hmiss
  obtain ⟨r, hrj, hidx, hrv, hlow⟩ := miss_way_free d addr j hinv hov hj hfree
  have hb := set_base_le d addr hinv.1.1
  have hacc := self_access_miss d addr bytes store hinv.1 ha hmiss
  rw [hidx] at hacc
  refine ⟨r, hrj, hidx, hrv, hlow, _, hacc, ?_, ?_⟩
  · show (if valid_dirty _ then _ else _) = _
    rw [if_neg (fun h => valid_dirty_valid _ h hrv)]
  · exact getD_set_eq _ _ _ (by rw [hinv.1.2.1]; omega)

/-! ## Counters of a two-level chain (C23) -/

theorem mul_inc64 (l x : Nat) : ((l * x) % 2 ^ 64 + l) % 2 ^ 64 = (l * inc64 x) % 2 ^ 64 := by
  unfold inc64
  rw [Nat.mul_mod l ((x + 1) % 2 ^ 64), Nat.mod_mod, ← Nat.mul_mod, Nat.mul_add, Nat.mul_one,
    Nat.add_mod (l * x) l, Nat.add_mod ((l * x) % 2 ^ 64) l, Nat.mod_mod]

/-- One read access of `line` bytes on the second level. -/
theorem chain_fill {τ2 : Type} (vt2 : vtable τ2) (l2 l2a : cache_sim_t τ2) (a line : Nat)
    (out : List call) (h : access vt2 l2 a line false = some (l2a, out)) :
    l2a.read_accesses = inc64 l2.read_accesses ∧
    l2a.bytes_read = (l2.bytes_read + line) % 2 ^ 64 ∧
    l2a.write_accesses = l2.write_accesses ∧ l2a.bytes_written = l2.bytes_written := by
  obtain ⟨_, _, _, _, _, h1, h2, h3, h4, _⟩ := access_shape vt2 l2 l2a a line false out h
  simp only [Bool.false_eq_true, if_false] at h1 h2 h3 h4
  exact ⟨h1, h2, h3, h4⟩

/-- One write access of `line` bytes on the second level. -/
theorem chain_writeback {τ2 : Type} (vt2 : vtable τ2) (l2 l2a : cache_sim_t τ2) (a line : Nat)
    (out : List call) (h : access vt2 l2 a line true = some (l2a, out)) :
    l2a.write_accesses = inc64 l2.write_accesses ∧
    l2a.bytes_written = (l2.bytes_written + line) % 2 ^ 64 ∧
    l2a.read_accesses = l2.read_accesses ∧ l2a.bytes_read = l2.bytes_read := by
  obtain ⟨_, _, _, _, _, h1, h2, h3, h4, _⟩ := access_shape vt2 l2 l2a a line true out h
  simp only [if_true] at h1 h2 h3 h4
  exact ⟨h3, h4, h1, h2⟩

theorem replay_nil {τ : Type} (vt : vtable τ) (c c1 : cache_sim_t τ) (out : List call)
    (h : replay vt c [] = some (c1, out)) : c1 = c := by
  simp only [replay, Option.some.injEq, Prod.mk.injEq] at h
  exact h.1.symm

theorem replay_cons {τ : Type} (vt : vtable τ) (c c2 : cache_sim_t τ) (x : call)
    (rest out : List call) (h : replay vt c (x :: rest) = some (c2, out)) :
    ∃ c1 out1 out2, dispatch vt c x = some (c1, out1) ∧ replay vt c1 rest = some (c2, out2) := by
  simp only [replay] at h
  cases hd : dispatch vt c x with
  | none => rw [hd] at h; cases h
  | some r =>
    obtain ⟨c1, out1⟩ := r
    rw [hd] at h
    simp only at h
    cases hr : replay vt c1 rest with
    | none => rw [hr] at h; cases h
    | some r2 =>
      obtain ⟨c2a, out2⟩ := r2
      rw [hr] at h
      simp only [Option.some.injEq, Prod.mk.injEq] at h
      exact ⟨c1, out1, out2, rfl, by rw [hr, h.1]⟩

/-- One `access` on the first level of a chain keeps the counter relation. -/
theorem chain_counters_step {τ1 τ2 : Type} (vt1 : vtable τ1) (vt2 : vtable τ2)
    (l1 l1a : cache_sim_t τ1) (l2 l2a : cache_sim_t τ2) (addr bytes : Nat) (store : Bool)
    (out : List call) (hm : l1.miss_handler = true) (hc : chain_counters l1 l2)
    (h : chain2 vt1 vt2 l1 l2 (call.access addr bytes store) = some (l1a, l2a, out)) :
    l1a.miss_handler = true ∧ chain_counters l1a l2a := by
  simp only [chain2, dispatch] at h
  cases ha : access vt1 l1 addr bytes store with
  | none => rw [ha] at h; cases h
  | some r =>
    obtain ⟨l1b, out1⟩ := r
    rw [ha] at h
    simp only at h
    cases hr : replay vt2 l2 out1 with
    | none => rw [hr] at h; cases h
    | some r2 =>
      obtain ⟨l2b, out2⟩ := r2
      rw [hr] at h
      simp only [Option.some.injEq, Prod.mk.injEq] at h
      obtain ⟨e1, e2, _⟩ := h
      subst e1 e2
      obtain ⟨_, _, hl, _, hmh, _, _, _, _, hcase⟩ :=
        access_shape vt1 l1 l1b addr bytes store out1 ha
      obtain ⟨c1, c2, c3, c4⟩ := hc
      refine ⟨by rw [hmh]; exact hm, ?_⟩
      rcases hcase with ⟨_, ho, m1, m2, m3⟩ | ⟨_, victim, ho, m1, m2, m3⟩
      · subst ho
        have := replay_nil vt2 l2 l2b out2 hr
        subst this
        exact ⟨by rw [m1, m2]; exact c1, by rw [m3]; exact c2, by rw [hl]; exact c3,
          by rw [hl]; exact c4⟩
      · rw [miss_calls_eq, if_pos hm] at ho
        by_cases hv : valid_dirty victim
        · rw [if_pos hv] at ho m3
          subst ho
          obtain ⟨la, o1, o2, d1, hr1⟩ := replay_cons vt2 l2 l2b _ _ _ hr
          obtain ⟨lb, o3, o4, d2, hr2⟩ := replay_cons vt2 la l2b _ _ _ hr1
          have := replay_nil vt2 lb l2b o4 hr2
          subst this
          simp only [dispatch] at d1 d2
          obtain ⟨w1, w2, w3, w4⟩ := chain_writeback vt2 l2 la _ _ _ d1
          obtain ⟨f1, f2, f3, f4⟩ := chain_fill vt2 la l2b _ _ _ d2
          refine ⟨?_, ?_, ?_, ?_⟩
          · rw [f1, w3, c1]
            cases store <;> simp only [Bool.false_eq_true, if_false, if_true] at m1 m2 <;>
              rw [m1, m2] <;> unfold inc64 <;> omega
          · rw [f3, w1, m3, c2]
            unfold inc64; omega
          · rw [f2, w4, f1, w3, hl, c3]
            exact mul_inc64 _ _
          · rw [f4, w2, f3, w1, hl, c4]
            exact mul_inc64 _ _
        · rw [if_neg hv] at ho m3
          subst ho
          obtain ⟨lb, o3, o4, d2, hr2⟩ := replay_cons vt2 l2 l2b _ _ _ hr
          have := replay_nil vt2 lb l2b o4 hr2
          subst this
          simp only [dispatch] at d2
          obtain ⟨f1, f2, f3, f4⟩ := chain_fill vt2 l2 l2b _ _ _ d2
          refine ⟨?_, ?_, ?_, ?_⟩
          · rw [f1, c1]
            cases store <;> simp only [Bool.false_eq_true, if_false, if_true] at m1 m2 <;>
              rw [m1, m2] <;> unfold inc64 <;> omega
          · rw [f3, m3]; exact c2
          · rw [f2, f1, hl, c3]
            exact mul_inc64 _ _
          · rw [f4, f3, hl]; exact c4

theorem chain_counters_run {τ1 τ2 : Type} (vt1 : vtable τ1) (vt2 : vtable τ2)
    (xs : List call) (hx : ∀ x ∈ xs, x.is_access) :
    ∀ (l1 : cache_sim_t τ1) (l2 : cache_sim_t τ2) (r : cache_sim_t τ1 × cache_sim_t τ2),
      l1.miss_handler = true → chain_counters l1 l2 →
      chain_run vt1 vt2 l1 l2 xs = some r → chain_counters r.1 r.2 := by
  induction xs with
  | nil =>
    intro l1 l2 r _ hc h
    simp only [chain_run, Option.some.injEq] at h
    rw [← h]; exact hc
  | cons x xs ih =>
    intro l1 l2 r hm hc h
    simp only [chain_run] at h
    cases hs : chain2 vt1 vt2 l1 l2 x with
    | none => rw [hs] at h; cases h
    | some s =>
      obtain ⟨l1a, l2a, out⟩ := s
      rw [hs] at h
      simp only [Option.some_bind] at h
      have hxa := hx x (List.mem_cons_self _ _)
      cases x with
      | clean_invalidate a b c d => exact absurd hxa (by simp [call.is_access])
      | access addr bytes store =>
        obtain ⟨hm2, hc2⟩ := chain_counters_step vt1 vt2 l1 l1a l2 l2a addr bytes store out
          hm hc hs
        exact ih (fun y hy => hx y (List.mem_cons_of_mem _ hy)) l1a l2a r hm2 hc2 h

/-! ## Repeated load (C5) -/

theorem orig_load_twice (c : cache_sim_t orig_store) (addr bytes : Nat) (hwf : ORIG.wf c)
    (ha : addr < 2 ^ 64) :
    ∃ c1 c2 out1, access ORIG.vt c addr bytes false = some (c1, out1) ∧
      access ORIG.vt c1 addr bytes false = some (c2, []) ∧
      c2.read_accesses = inc64 (inc64 c.read_accesses) ∧
      c2.read_misses = (if (ORIG.check_tag c addr).2 = none then inc64 c.read_misses
                        else c.read_misses) := by
  rw [orig_check_tag_eq]
  cases hl : lookup c c.store.tags addr with
  | some p =>
    refine ⟨_, _, _, orig_access_hit c addr bytes p false hl,
      orig_access_hit _ addr bytes p false ?_, rfl, ?_⟩
    · simp only [lookup, set_index, Bool.false_eq_true, if_false] at hl ⊢
      exact hl
    · simp
  | none =>
    have hway : lfsr_next c.store.lfsr % c.ways < c.ways := Nat.mod_lt _ hwf.1.1.2.1
    have h2 := lookup_install c c.store.tags addr _ hwf.1 hwf.2.2 hwf.2.1 ha hway hl
    refine ⟨_, _, _, orig_access_miss c addr bytes false hwf ha hl,
      orig_access_hit _ addr bytes (ORIG.victim_index c addr) false ?_, rfl, ?_⟩
    · simp only [lookup, set_index, new_tag, ORIG.victim_index, Bool.false_eq_true, if_false]
        at h2 ⊢
      exact h2
    · simp

theorem self_load_twice (c : cache_sim_t self_store) (addr bytes : Nat) (hwf : SELF.wf c)
    (ha : addr < 2 ^ 64) :
    ∃ c1 c2 out1, access SELF.vt c addr bytes false = some (c1, out1) ∧
      access SELF.vt c1 addr bytes false = some (c2, []) ∧
      c2.read_accesses = inc64 (inc64 c.read_accesses) ∧
      c2.read_misses = (if (SELF.check_tag c addr).2 = none then inc64 c.read_misses
                        else c.read_misses) := by
  rw [self_check_tag_snd]
  cases hl : lookup c c.store.tags addr with
  | some p =>
    refine ⟨_, _, _, self_access_hit c addr bytes p false hl,
      self_access_hit _ addr bytes p false ?_, rfl, ?_⟩
    · simp only [lookup, set_index, Bool.false_eq_true, if_false] at hl ⊢
      exact hl
    · simp
  | none =>
    have hway := self_miss_way_lt c addr hwf
    have h2 := lookup_install c c.store.tags addr _ hwf.1 hwf.2.2.2 hwf.2.1 ha hway hl
    refine ⟨_, _, _, self_access_miss c addr bytes false hwf ha hl,
      self_access_hit _ addr bytes (SELF.miss_index c addr) false ?_, rfl, ?_⟩
    · simp only [lookup, set_index, new_tag, SELF.miss_index, Bool.false_eq_true, if_false]
        at h2 ⊢
      exact h2
    · simp

/-- On the set-associative engines (`ORIG_cachesim.cc` and `SELF_cachesim.cc`), in every
well-formed state, for a 64-bit `addr` and any `bytes`: two calls `access(addr, bytes, false)`
in a row both return, the second one is a hit that makes no call on the miss handler,
`read_accesses` has grown by 2 and `read_misses` by 0 when some way of the set of `addr` held
its block before the first call and by 1 when none did (counters modulo `2 ^ 64`). -/
theorem set_assoc_load_twice (c : cache_sim_t orig_store) (d : cache_sim_t self_store)
    (addr bytes : Nat) (hc : ORIG.wf c) (hd : SELF.wf d) (ha : addr < 2 ^ 64) :
    (∃ c1 c2 out1, access ORIG.vt c addr bytes false = some (c1, out1) ∧
      access ORIG.vt c1 addr bytes false = some (c2, []) ∧
      c2.read_accesses = inc64 (inc64 c.read_accesses) ∧
      ((∃ i, i < c.ways ∧
          holds c.idx_shift (c.store.tags.getD (set_index c addr * c.ways + i) 0) addr) →
        c2.read_misses = c.read_misses) ∧
      ((¬ ∃ i, i < c.ways ∧
          holds c.idx_shift (c.store.tags.getD (set_index c addr * c.ways + i) 0) addr) →
        c2.read_misses = inc64 c.read_misses)) ∧
    (∃ d1 d2 out1, access SELF.vt d addr bytes false = some (d1, out1) ∧
      access SELF.vt d1 addr bytes false = some (d2, []) ∧
      d2.read_accesses = inc64 (inc64 d.read_accesses) ∧
      ((∃ i, i < d.ways ∧
          holds d.idx_shift (d.store.tags.getD (set_index d addr * d.ways + i) 0) addr) →
        d2.read_misses = d.read_misses) ∧
      ((¬ ∃ i, i < d.ways ∧
          holds d.idx_shift (d.store.tags.getD (set_index d addr * d.ways + i) 0) addr) →
        d2.read_misses = inc64 d.read_misses)) := by
  obtain ⟨c1, c2, o1, a1, a2, a3, a4⟩ := orig_load_twice c addr bytes hc ha
  obtain ⟨d1, d2, p1, b1, b2, b3, b4⟩ := self_load_twice d addr bytes hd ha
  have hlc := (lookup_is_lookup_of c c.store.tags addr hc.1 hc.2.2 ha).1
  have hld := (lookup_is_lookup_of d d.store.tags addr hd.1 hd.2.2.2 ha).1
  rw [orig_check_tag_eq] at a4
  rw [self_check_tag_snd] at b4
  refine ⟨⟨c1, c2, o1, a1, a2, a3, ?_, ?_⟩, ⟨d1, d2, p1, b1, b2, b3, ?_, ?_⟩⟩
  · intro hres
    obtain ⟨p, hp⟩ := hlc.mpr hres
    rw [a4, if_neg (by rw [hp]; exact Option.some_ne_none p)]
  · intro hres
    rw [a4, if_pos]
    cases hl : lookup c c.store.tags addr with
    | none => rfl
    | some p => exact absurd (hlc.mp ⟨p, hl⟩) hres
  · intro hres
    obtain ⟨p, hp⟩ := hld.mpr hres
    rw [b4, if_neg (by rw [hp]; exact Option.some_ne_none p)]
  · intro hres
    rw [b4, if_pos]
    cases hl : lookup d d.store.tags addr with
    | none => rfl
    | some p => exact absurd (hld.mp ⟨p, hl⟩) hres

/-- C5 (code at the failing input): on the fully-associative store with 8 lines of 64 bytes,
after `access(0, 8, false)` and `clean_invalidate(0, 8, false, true)` the entry of block 0 has
VALID clear, so block 0 is not resident; the two loads `access(0, 8, false)` that follow take
`read_accesses` from 1 to 3 and leave `read_misses` at 1: the first of them is counted as a
hit.  The same calls on the set-associative engine (1 set, 2 ways, 8-byte lines) take
`read_misses` from 1 to 2. -/
theorem fa_load_twice_invalidated :
    (access FA.vt FA.cold_8_64 0 8 false).bind (fun r1 =>
      (clean_invalidate FA.vt r1.1 0 8 false true).bind (fun r2 =>
        (access FA.vt r2.1 0 8 false).bind (fun r3 =>
          (access FA.vt r3.1 0 8 false).map (fun r4 =>
            (FA.vt.peek r2.1.store 0 &&& VALID,
             (r2.1.read_accesses, r2.1.read_misses),
             (r4.1.read_accesses, r4.1.read_misses))))))
      = some (0, (1, 1), (3, 1)) ∧
    (access ORIG.vt ORIG.cold_1_2_8 0 8 false).bind (fun r1 =>
      (clean_invalidate ORIG.vt r1.1 0 8 false true).bind (fun r2 =>
        (access ORIG.vt r2.1 0 8 false).bind (fun r3 =>
          (access ORIG.vt r3.1 0 8 false).map (fun r4 =>
            (ORIG.vt.peek r2.1.store 1 &&& VALID,
             (r2.1.read_accesses, r2.1.read_misses),
             (r4.1.read_accesses, r4.1.read_misses))))))
      = some (0, (1, 1), (3, 2)) := by
  decide

/-! ## Invalidated lines of the fully-associative store (C4, C6) -/

/-- C4 (code at the failing input): on the fully-associative store with 8 lines of 64 bytes,
after `access(0, 8, false)` (a miss) and `clean_invalidate(0, 8, false, true)`, `check_tag(0)`
still returns the entry of block 0 although its VALID bit is clear, and the next
`access(0, 8, false)` is counted as a hit: `read_misses` stays 1.  The same calls on the
set-associative engine (1 set, 2 ways, 8-byte lines) end with `read_misses = 2`. -/
theorem fa_invalid_line_hits :
    (access FA.vt FA.cold_8_64 0 8 false).bind (fun r1 =>
      (clean_invalidate FA.vt r1.1 0 8 false true).bind (fun r2 =>
        (access FA.vt r2.1 0 8 false).map (fun r3 =>
          ((r1.1.read_misses, (FA.check_tag r2.1 0).2),
           (FA.vt.peek r2.1.store 0 &&& VALID, r3.1.read_misses)))))
      = some ((1, some 0), (0, 1)) ∧
    (access ORIG.vt ORIG.cold_1_2_8 0 8 false).bind (fun r1 =>
      (clean_invalidate ORIG.vt r1.1 0 8 false true).bind (fun r2 =>
        (access ORIG.vt r2.1 0 8 false).map (fun r3 =>
          ((r1.1.read_misses, (ORIG.check_tag r2.1 0).2), r3.1.read_misses))))
      = some ((1, none), 2) := by
  decide

/-- C6 (code at the failing input): on the fully-associative store with 8 lines of 64 bytes,
after `access(0, 8, false)` and `clean_invalidate(0, 8, false, true)`, the store
`access(0, 8, true)` hits the invalidated entry (no miss is counted) and leaves it with DIRTY
set and VALID clear; the load that follows hits it. -/
theorem fa_store_to_invalid_line :
    (access FA.vt FA.cold_8_64 0 8 false).bind (fun r1 =>
      (clean_invalidate FA.vt r1.1 0 8 false true).bind (fun r2 =>
        (access FA.vt r2.1 0 8 true).bind (fun r3 =>
          (access FA.vt r3.1 0 8 false).map (fun r4 =>
            ((r3.1.write_misses, (FA.check_tag r3.1 0).2),
             (FA.vt.peek r3.1.store 0 &&& VALID, FA.vt.peek r3.1.store 0 &&& DIRTY),
             r4.1.read_misses)))))
      = some ((0, some 0), (0, DIRTY), 1) := by
  decide

/-! ## No block is resident twice in a set (C19) -/

theorem index_inj (w s t i j : Nat) (hi : i < w) (hj : j < w) (h : s * w + i = t * w + j) :
    s = t ∧ i = j := by
  have hw : 0 < w := by omega
  have h1 : (s * w + i) / w = s := by
    rw [Nat.add_comm, Nat.add_mul_div_right _ _ hw, Nat.div_eq_of_lt hi, Nat.zero_add]
  have h2 : (t * w + j) / w = t := by
    rw [Nat.add_comm, Nat.add_mul_div_right _ _ hw, Nat.div_eq_of_lt hj, Nat.zero_add]
  have hst : s = t := by rw [← h1, h, h2]
  subst hst
  exact ⟨rfl, by omega⟩

theorem masked_or_DIRTY (w : Nat) :
    (w ||| DIRTY) &&& not64 (VALID ||| DIRTY) = w &&& not64 (VALID ||| DIRTY) := by
  apply Nat.eq_of_testBit_eq
  intro i
  simp only [Nat.testBit_and, testBit_not64, Nat.testBit_or, testBit_VALID, testBit_DIRTY]
  by_cases h62 : 62 = i
  · subst h62; simp
  · simp [h62]

theorem masked_and_not_DIRTY (w : Nat) :
    (w &&& not64 DIRTY) &&& not64 (VALID ||| DIRTY) = w &&& not64 (VALID ||| DIRTY) := by
  apply Nat.eq_of_testBit_eq
  intro i
  simp only [Nat.testBit_and, testBit_not64, Nat.testBit_or, testBit_VALID, testBit_DIRTY]
  by_cases h62 : 62 = i
  · subst h62; simp
  · by_cases hlt : i < 64
    · simp [h62, hlt]
    · have h63 : ¬ 63 = i := by omega
      simp [h62, h63, hlt]

theorem masked_and_not_VALID (w : Nat) :
    (w &&& not64 VALID) &&& not64 (VALID ||| DIRTY) = w &&& not64 (VALID ||| DIRTY) := by
  apply Nat.eq_of_testBit_eq
  intro i
  simp only [Nat.testBit_and, testBit_not64, Nat.testBit_or, testBit_VALID, testBit_DIRTY]
  by_cases h63 : 63 = i
  · subst h63; simp
  · by_cases hlt : i < 64
    · simp [h63, hlt]
    · have h62 : ¬ 62 = i := by omega
      simp [h62, h63, hlt]

theorem valid_and_not_DIRTY (w : Nat) : (w &&& not64 DIRTY) &&& VALID = w &&& VALID := by
  apply Nat.eq_of_testBit_eq
  intro i
  simp only [Nat.testBit_and, testBit_not64, testBit_VALID, testBit_DIRTY]
  by_cases h63 : 63 = i
  · subst h63; simp
  · simp [h63]

theorem valid_and_not_VALID (w : Nat) : (w &&& not64 VALID) &&& VALID = 0 := by
  apply Nat.eq_of_testBit_eq
  intro i
  simp only [Nat.testBit_and, testBit_not64, testBit_VALID, Nat.zero_testBit]
  by_cases h63 : 63 = i
  · subst h63; simp
  · simp [h63]

theorem masked_clean_word (clean inval : Bool) (w : Nat) :
    clean_word clean inval w &&& not64 (VALID ||| DIRTY) = w &&& not64 (VALID ||| DIRTY) := by
  unfold clean_word
  split
  · split
    · rw [masked_and_not_VALID, masked_and_not_DIRTY]
    · rw [masked_and_not_VALID]
  · split
    · rw [masked_and_not_DIRTY]
    · rfl

theorem valid_clean_word (clean inval : Bool) (w : Nat)
    (h : clean_word clean inval w &&& VALID ≠ 0) : w &&& VALID ≠ 0 := by
  unfold clean_word at h
  split at h
  · exact absurd (valid_and_not_VALID _) h
  · split at h
    · rwa [valid_and_not_DIRTY] at h
    · exact h

/-- Rewriting one tag word by a word that is valid only if the old one was, with the same tag
bits, keeps the sets free of duplicates. -/
theorem no_dup_set_same {τ : Type} (c : cache_sim_t τ) (tags : List Nat) (p v : Nat)
    (hnd : no_dup c tags) (hv : v &&& VALID ≠ 0 → tags.getD p 0 &&& VALID ≠ 0)
    (hm : v &&& not64 (VALID ||| DIRTY) = tags.getD p 0 &&& not64 (VALID ||| DIRTY)) :
    no_dup c (tags.set p v) := by
  have key : ∀ q, ((tags.set p v).getD q 0 &&& VALID ≠ 0 → tags.getD q 0 &&& VALID ≠ 0) ∧
      (tags.set p v).getD q 0 &&& not64 (VALID ||| DIRTY)
        = tags.getD q 0 &&& not64 (VALID ||| DIRTY) := by
    intro q
    by_cases hq : q = p
    · subst hq
      by_cases hl : q < tags.length
      · rw [getD_set_eq _ _ _ hl]; exact ⟨hv, hm⟩
      · rw [List.set_eq_of_length_le (by omega)]; exact ⟨id, rfl⟩
    · rw [getD_set_ne _ _ _ _ hq]; exact ⟨id, rfl⟩
  intro s i j hs hi hj hij h1 h2
  rw [(key _).2, (key _).2]
  exact hnd s i j hs hi hj hij ((key _).1 h1) ((key _).1 h2)

/-- Installing the tag word of `addr` after a miss keeps the sets free of duplicates. -/
theorem no_dup_install {τ : Type} (c : cache_sim_t τ) (tags : List Nat) (addr way v : Nat)
    (hg : geom_ok c) (hw : words_ok tags) (ha : addr < 2 ^ 64) (hway : way < c.ways)
    (hnone : lookup c tags addr = none) (hnd : no_dup c tags)
    (hm : v &&& not64 (VALID ||| DIRTY) = addr >>> c.idx_shift) :
    no_dup c (tags.set (set_index c addr * c.ways + way) v) := by
  have hno := (lookup_none c tags addr hg hw ha).mp hnone
  intro s i j hs hi hj hij h1 h2
  by_cases e1 : s * c.ways + i = set_index c addr * c.ways + way
  · obtain ⟨es, ei⟩ := index_inj c.ways _ _ _ _ hi hway e1
    have e2 : s * c.ways + j ≠ set_index c addr * c.ways + way := by
      intro e2
      have := (index_inj c.ways _ _ _ _ hj hway e2).2
      omega
    rw [getD_set_ne _ _ _ _ e2] at h2 ⊢
    by_cases hl : set_index c addr * c.ways + way < tags.length
    · rw [e1, getD_set_eq _ _ _ hl, hm]
      intro heq
      rw [es] at h2 heq
      exact hno j hj ⟨h2, heq.symm⟩
    · rw [List.set_eq_of_length_le (by omega)] at h1 ⊢
      exact hnd s i j hs hi hj hij h1 h2
  · rw [getD_set_ne _ _ _ _ e1] at h1 ⊢
    by_cases e2 : s * c.ways + j = set_index c addr * c.ways + way
    · obtain ⟨es, ej⟩ := index_inj c.ways _ _ _ _ hj hway e2
      by_cases hl : set_index c addr * c.ways + way < tags.length
      · rw [e2, getD_set_eq _ _ _ hl, hm]
        intro heq
        rw [es] at h1 heq
        exact hno i hi ⟨h1, heq⟩
      · rw [List.set_eq_of_length_le (by omega)] at h2 ⊢
        exact hnd s i j hs hi hj hij h1 h2
    · rw [getD_set_ne _ _ _ _ e2] at h2 ⊢
      exact hnd s i j hs hi hj hij h1 h2

theorem no_dup_cold {τ : Type} (c : cache_sim_t τ) (n : Nat) :
    no_dup c (List.replicate n 0) := by
  intro s i j _ _ _ _ h1 _
  rw [getD_replicate_zero, Nat.zero_and] at h1
  exact absurd rfl h1

theorem orig_inv_access (c c1 : cache_sim_t orig_store) (addr bytes : Nat) (store : Bool)
    (out : List call) (hinv : ORIG.inv c) (ha : addr < 2 ^ 64)
    (h : access ORIG.vt c addr bytes store = some (c1, out)) : ORIG.inv c1 := by
  obtain ⟨⟨hg, hlt, hwo⟩, hnd⟩ := hinv
  cases hl : lookup c c.store.tags addr with
  | some p =>
    rw [orig_access_hit c addr bytes p store hl] at h
    injection h with h
    injection h with h1 _
    subst h1
    cases store
    · exact ⟨⟨hg, hlt, hwo⟩, hnd⟩
    · refine ⟨⟨hg, ?_, ?_⟩, ?_⟩
      · show (c.store.tags.set _ _).length = _
        rw [List.length_set]; exact hlt
      · show words_ok (c.store.tags.set _ _)
        exact words_ok_set _ _ _ hwo (or_DIRTY_lt _ (getD_lt _ _ hwo))
      · show no_dup c (c.store.tags.set _ _)
        exact no_dup_set_same c _ p _ hnd (fun hv => fun hz => hv ((or_DIRTY_valid _).mpr hz))
          (masked_or_DIRTY _)
  | none =>
    rw [orig_access_miss c addr bytes store ⟨hg, hlt, hwo⟩ ha hl] at h
    injection h with h
    injection h with h1 _
    subst h1
    have hway : lfsr_next c.store.lfsr % c.ways < c.ways := Nat.mod_lt _ hg.1.2.1
    have hnl := new_tag_lt c addr hg ha
    have hblk := block_lt addr c.idx_shift ha (by have := geom_shift c hg; omega)
    refine ⟨⟨hg, ?_, ?_⟩, ?_⟩
    · show (c.store.tags.set _ _).length = _
      rw [List.length_set]; exact hlt
    · show words_ok (c.store.tags.set _ _)
      apply words_ok_set _ _ _ hwo
      split
      · exact or_DIRTY_lt _ hnl
      · exact hnl
    · show no_dup c (c.store.tags.set _ _)
      apply no_dup_install c _ addr _ _ hg hwo ha hway hl hnd
      split
      · exact or_dirty_mask _ hblk
      · exact or_valid_mask _ hblk

theorem orig_inv_body (clean inval : Bool) (c : cache_sim_t orig_store) (a : Nat)
    (hinv : ORIG.inv c) (ha : a < 2 ^ 64) :
    ORIG.inv (clean_invalidate_body ORIG.vt clean inval c a) := by
  obtain ⟨⟨hg, hlt, hwo⟩, hnd⟩ := hinv
  cases hl : lookup c c.store.tags a with
  | none =>
    rw [orig_body_miss c a clean inval hl]
    exact ⟨⟨hg, hlt, hwo⟩, hnd⟩
  | some p =>
    obtain ⟨hp, _, _⟩ := lookup_valid c c.store.tags a p hg hwo ha hl
    rw [orig_body_hit c a p clean inval (by rw [hlt]; exact hp) hl]
    refine ⟨⟨hg, ?_, ?_⟩, ?_⟩
    · show (c.store.tags.set _ _).length = _
      rw [List.length_set]; exact hlt
    · show words_ok (c.store.tags.set _ _)
      exact words_ok_set _ _ _ hwo
        (lt_of_le_of_lt (clean_word_le _ _ _) (getD_lt _ _ hwo))
    · show no_dup c (c.store.tags.set _ _)
      exact no_dup_set_same c _ p _ hnd (valid_clean_word clean inval _)
        (masked_clean_word clean inval _)

/-- Every state of `ORIG_cachesim.cc` reachable from a state with the invariant has it. -/
theorem orig_inv_reachable (c0 c : cache_sim_t orig_store) (h0 : ORIG.inv c0)
    (hr : reachable ORIG.vt c0 c) : ORIG.inv c := by
  apply reachable_invariant ORIG.vt ORIG.inv c0 h0 _ _ _ _ c hr
  · intro c hc
    obtain ⟨⟨_, _, ⟨k, hk, _, hl⟩, _⟩, _⟩ := hc.1.1
    exact ⟨k, hk, hl⟩
  · intro c hc
    exact hc
  · intro c addr bytes store c1 out hc ha h
    exact orig_inv_access c c1 addr bytes store out hc ha h
  · intro clean inval c a hc ha
    exact orig_inv_body clean inval c a hc ha

theorem orig_inv_new (sets ways linesz : Nat) (c0 : cache_sim_t orig_store)
    (hnew : ORIG.new sets ways linesz = some c0) (hw : 0 < ways) (hs : sets * ways < 2 ^ 64)
    (hl : linesz < 2 ^ 64) : ORIG.inv c0 := by
  obtain ⟨hwf, hcold⟩ := orig_new_wf sets ways linesz c0 hnew hw hs hl
  refine ⟨hwf, ?_⟩
  rw [hcold]
  exact no_dup_cold _ _

/-- C19: in every state of the engine of `ORIG_cachesim.cc` reachable from the freshly
constructed one (at least one way, 64-bit sizes) by `access` and `clean_invalidate` calls with
64-bit arguments, no two distinct ways `i`, `j` of one set both have VALID set and equal tag
bits (the bits other than VALID and DIRTY). -/
theorem no_duplicate_block (sets ways linesz : Nat) (c0 c : cache_sim_t orig_store)
    (hnew : ORIG.new sets ways linesz = some c0) (hw : 0 < ways) (hs : sets * ways < 2 ^ 64)
    (hl : linesz < 2 ^ 64) (hr : reachable ORIG.vt c0 c) :
    ∀ s i j, s < c.sets → i < c.ways → j < c.ways → i ≠ j →
      c.store.tags.getD (s * c.ways + i) 0 &&& VALID ≠ 0 →
      c.store.tags.getD (s * c.ways + j) 0 &&& VALID ≠ 0 →
      c.store.tags.getD (s * c.ways + i) 0 &&& not64 (VALID ||| DIRTY)
        ≠ c.store.tags.getD (s * c.ways + j) 0 &&& not64 (VALID ||| DIRTY) := by
  have hinv := orig_inv_reachable c0 c (orig_inv_new sets ways linesz c0 hnew hw hs hl) hr
  exact hinv.2

/-! ## Writeback on eviction (C3) -/

theorem orig_new_1_3_8 : ORIG.new 1 3 8 = some ORIG.cold_1_3_8 := by decide

theorem orig_dirty_1_2_8 :
    access ORIG.vt ORIG.cold_1_2_8 0 8 true = some (ORIG.dirty_1_2_8, []) := by decide

/-- C3 (counterexample): with the timer policy (1 set, 2 ways, 8-byte lines), after the store
`access(0, 8, true)` the loads of the two further blocks 8 and 16 leave the dirty line of
block 0 resident and `writebacks` at 0; with the LFSR policy (1 set, 3 ways, 8-byte lines),
after a load of 24 and the store `access(0, 8, true)`, the loads of the three further blocks
8, 16 and 32 leave the dirty line of block 0 resident and `writebacks` at 0. -/
theorem eviction_not_forced :
    (access SELF.vt SELF.cold_1_2_8 0 8 true).bind (fun r1 =>
      (access SELF.vt r1.1 8 8 false).bind (fun r2 =>
        (access SELF.vt r2.1 16 8 false).map (fun r3 =>
          ((SELF.check_tag r3.1 0).2, r3.1.writebacks, r3.1.store.tags))))
      = some (some 0, 0, [VALID ||| DIRTY, VALID ||| 2]) ∧
    (access ORIG.vt ORIG.cold_1_3_8 24 8 false).bind (fun r0 =>
      (access ORIG.vt r0.1 0 8 true).bind (fun r1 =>
        (access ORIG.vt r1.1 8 8 false).bind (fun r2 =>
          (access ORIG.vt r2.1 16 8 false).bind (fun r3 =>
            (access ORIG.vt r3.1 32 8 false).map (fun r4 =>
              ((ORIG.check_tag r4.1 0).2, r4.1.writebacks, r4.1.store.tags))))))
      = some (some 2, 0, [VALID ||| 4, VALID ||| 2, VALID ||| DIRTY]) := by
  decide

theorem valid_dirty_of (w : Nat) (hv : w &&& VALID ≠ 0) (hd : w &&& DIRTY ≠ 0) :
    valid_dirty w := by
  rw [and_VALID_ne_zero] at hv
  rw [and_DIRTY_ne_zero] at hd
  unfold valid_dirty
  apply Nat.eq_of_testBit_eq
  intro i
  simp only [Nat.testBit_and, Nat.testBit_or, testBit_VALID, testBit_DIRTY]
  by_cases h63 : 63 = i
  · subst h63; simp [hv]
  · by_cases h62 : 62 = i
    · subst h62; simp [hd]
    · simp [h63, h62]

/-- The writeback address computed from a victim that holds the block of `A` is the base of the
line of `A`. -/
theorem dirty_addr_eq {τ : Type} (c : cache_sim_t τ) (victim A : Nat) (hg : geom_ok c)
    (hA : A < 2 ^ 64) (hh : holds c.idx_shift victim A) :
    ((victim &&& not64 (VALID ||| DIRTY)) <<< c.idx_shift) % 2 ^ 64
      = A &&& not64 (dec64 c.linesz) := by
  rw [hh.2, hg.2]
  exact block_shift_back c.idx_shift A hA

/-- After the line of `A` has been replaced by the block of `B`, a lookup of `A` misses. -/
theorem lookup_after_evict {τ : Type} (c : cache_sim_t τ) (tags : List Nat)
    (A B way v : Nat) (hg : geom_ok c) (hw : words_ok tags)
    (hlen : tags.length = c.sets * c.ways) (hA : A < 2 ^ 64) (hB : B < 2 ^ 64)
    (hnd : no_dup c tags) (hBn : lookup c tags B = none)
    (hAp : lookup c tags A = some (set_index c B * c.ways + way)) (hway : way < c.ways)
    (hv : v &&& not64 (VALID ||| DIRTY) = B >>> c.idx_shift) (hvlt : v < 2 ^ 64) :
    lookup c (tags.set (set_index c B * c.ways + way) v) A = none := by
  have hnoB := (lookup_none c tags B hg hw hB).mp hBn
  obtain ⟨iA, hiA, hpA, hhA, _⟩ := (lookup_some c tags A _ hg hw hA).mp hAp
  have hb := set_base_le c B hg
  have hpl : set_index c B * c.ways + way < tags.length := by omega
  have hne : A >>> c.idx_shift ≠ B >>> c.idx_shift := by
    intro he
    apply hnoB way hway
    rw [hpA]
    exact ⟨hhA.1, by rw [hhA.2, he]⟩
  rw [lookup_none c _ A hg (words_ok_set _ _ _ hw hvlt) hA]
  intro i hi hh
  by_cases hq : set_index c A * c.ways + i = set_index c B * c.ways + way
  · rw [hq, getD_set_eq _ _ _ hpl] at hh
    exact hne (by rw [← hh.2, hv])
  · rw [getD_set_ne _ _ _ _ hq] at hh
    have hij : i ≠ iA := by
      intro he
      apply hq
      rw [he, ← hpA]
    exact hnd (set_index c A) i iA (set_index_lt c A hg) hi hiA hij hh.1 hhA.1
      (by rw [hh.2, hhA.2])

theorem miss_calls_dirty {τ : Type} (c : cache_sim_t τ) (victim A B : Nat) (hg : geom_ok c)
    (hA : A < 2 ^ 64) (hh : holds c.idx_shift victim A) (hd : victim &&& DIRTY ≠ 0) :
    miss_calls c victim B =
      if c.miss_handler = true then
        [call.access (A &&& not64 (dec64 c.linesz)) c.linesz true,
         call.access (B &&& not64 (dec64 c.linesz)) c.linesz false]
      else [] := by
  rw [miss_calls_eq, if_pos (valid_dirty_of victim hh.1 hd), dirty_addr_eq c victim A hg hA hh]

/-- C3 (amended): in a reachable state of either engine (well formed, no block twice in a set),
when an `access` to a block `B` misses and the way `victimize` chooses holds the dirty line of
`A`, that `access` returns, `writebacks` grows by exactly one (modulo `2 ^ 64`), the calls on
the miss handler, if one is attached, are exactly `access(A & ~(linesz-1), linesz, true)`
followed by the fill `access(B & ~(linesz-1), linesz, false)`, and `A` is no longer resident.
Which way is chosen is the policy's matter: `ways` further accesses need not choose the way
of `A`. -/
theorem writeback_on_eviction (c : cache_sim_t orig_store) (d : cache_sim_t self_store)
    (A B bytes : Nat) (store : Bool) (hA : A < 2 ^ 64) (hB : B < 2 ^ 64) :
    (ORIG.inv c → (ORIG.check_tag c B).2 = none →
      (ORIG.check_tag c A).2 = some (ORIG.victim_index c B) →
      c.store.tags.getD (ORIG.victim_index c B) 0 &&& DIRTY ≠ 0 →
      ∃ c1, access ORIG.vt c B bytes store = some (c1,
          if c.miss_handler = true then
            [call.access (A &&& not64 (dec64 c.linesz)) c.linesz true,
             call.access (B &&& not64 (dec64 c.linesz)) c.linesz false]
          else []) ∧
        c1.writebacks = inc64 c.writebacks ∧ (ORIG.check_tag c1 A).2 = none) ∧
    (SELF.wf d → no_dup d d.store.tags → (SELF.check_tag d B).2 = none →
      (SELF.check_tag d A).2 = some (SELF.miss_index d B) →
      d.store.tags.getD (SELF.miss_index d B) 0 &&& DIRTY ≠ 0 →
      ∃ d1, access SELF.vt d B bytes store = some (d1,
          if d.miss_handler = true then
            [call.access (A &&& not64 (dec64 d.linesz)) d.linesz true,
             call.access (B &&& not64 (dec64 d.linesz)) d.linesz false]
          else []) ∧
        d1.writebacks = inc64 d.writebacks ∧ (SELF.check_tag d1 A).2 = none) := by
  constructor
  · intro hinv hBn hAp hdirty
    obtain ⟨⟨hg, hlt, hwo⟩, hnd⟩ := hinv
    rw [orig_check_tag_eq] at hBn hAp
    obtain ⟨_, _, hh⟩ := lookup_valid c c.store.tags A _ hg hwo hA hAp
    have hway : lfsr_next c.store.lfsr % c.ways < c.ways := Nat.mod_lt _ hg.1.2.1
    have hblk := block_lt B c.idx_shift hB (by have := geom_shift c hg; omega)
    have hnl := new_tag_lt c B hg hB
    have hacc := orig_access_miss c B bytes store ⟨hg, hlt, hwo⟩ hB hBn
    rw [miss_calls_dirty c _ A B hg hA hh hdirty] at hacc
    refine ⟨_, hacc, ?_, ?_⟩
    · show (if valid_dirty _ then _ else _) = _
      rw [if_pos (valid_dirty_of _ hh.1 hdirty)]
    · rw [orig_check_tag_eq]
      show lookup c (c.store.tags.set _ _) A = none
      apply lookup_after_evict c c.store.tags A B _ _ hg hwo hlt hA hB hnd hBn hAp hway
      · split
        · exact or_dirty_mask _ hblk
        · exact or_valid_mask _ hblk
      · split
        · exact or_DIRTY_lt _ hnl
        · exact hnl
  · intro hwf hnd hBn hAp hdirty
    obtain ⟨hg, hlt, hlm, hwo⟩ := hwf
    rw [self_check_tag_snd] at hBn hAp
    obtain ⟨_, _, hh⟩ := lookup_valid d d.store.tags A _ hg hwo hA hAp
    have hway := self_miss_way_lt d B ⟨hg, hlt, hlm, hwo⟩
    have hblk := block_lt B d.idx_shift hB (by have := geom_shift d hg; omega)
    have hnl := new_tag_lt d B hg hB
    have hacc := self_access_miss d B bytes store ⟨hg, hlt, hlm, hwo⟩ hB hBn
    rw [miss_calls_dirty d _ A B hg hA hh hdirty] at hacc
    refine ⟨_, hacc, ?_, ?_⟩
    · show (if valid_dirty _ then _ else _) = _
      rw [if_pos (valid_dirty_of _ hh.1 hdirty)]
    · rw [self_check_tag_snd]
      show lookup d (d.store.tags.set _ _) A = none
      apply lookup_after_evict d d.store.tags A B _ _ hg hwo hlt hA hB hnd hBn hAp hway
      · split
        · exact or_dirty_mask _ hblk
        · exact or_valid_mask _ hblk
      · split
        · exact or_DIRTY_lt _ hnl
        · exact hnl

theorem writeback_on_eviction_witness :
    ∃ c1, access ORIG.vt ORIG.dirty_1_2_8 8 4 false = some (c1,
        if ORIG.dirty_1_2_8.miss_handler = true then
          [call.access (0 &&& not64 (dec64 ORIG.dirty_1_2_8.linesz)) ORIG.dirty_1_2_8.linesz
             true,
           call.access (8 &&& not64 (dec64 ORIG.dirty_1_2_8.linesz)) ORIG.dirty_1_2_8.linesz
             false]
        else []) ∧
      c1.writebacks = inc64 ORIG.dirty_1_2_8.writebacks ∧ (ORIG.check_tag c1 0).2 = none :=
  (writeback_on_eviction ORIG.dirty_1_2_8 SELF.cold_1_2_8 0 8 4 false (by decide)
    (by decide)).1
    (orig_inv_access ORIG.cold_1_2_8 ORIG.dirty_1_2_8 0 8 true []
      (orig_inv_new 1 2 8 ORIG.cold_1_2_8 (by decide) (by decide) (by decide) (by decide))
      (by decide) orig_dirty_1_2_8)
    (by decide) (by decide) (by decide)

/-! ## The timer policy replaces the most recently touched line (C1) -/

/-- C1 (counterexample): on the cold engine with `sets=1, ways=2, linesz=8`, after loads of
the blocks A = 0 and B = 8 both ways are valid and B is the line touched last (timers
`[1, 0]`); the load of C = 16 misses and replaces B, the most recently touched line, and keeps
A, the least recently touched one. -/
theorem cycle_evicts_most_recent :
    (access SELF.vt SELF.cold_1_2_8 0 8 false).bind (fun r1 =>
      (access SELF.vt r1.1 8 8 false).bind (fun r2 =>
        (access SELF.vt r2.1 16 8 false).map (fun r3 =>
          (r2.1.store.tags, r2.1.store.timer, r3.1.store.tags))))
      = some ([VALID, VALID ||| 1], [1, 0], [VALID, VALID ||| 2]) := by
  decide

/-- What one `access` of `SELF_cachesim.cc` leaves in the arrays: the touched line is valid
with timer 0; every other line keeps its tag word and, when valid, has a timer of at least 1
that is still two below the top value. -/
theorem self_access_touched (d : cache_sim_t self_store) (addr bytes : Nat) (store : Bool)
    (hinv : SELF.inv d) (ha : addr < 2 ^ 64)
    (hov : ∀ i, i < d.sets * d.ways → d.store.timer.getD i 0 + 3 < 2 ^ 64) :
    ∃ d1 out, access SELF.vt d addr bytes store = some (d1, out) ∧ SELF.inv d1 ∧
      d1.sets = d.sets ∧ d1.ways = d.ways ∧ d1.idx_shift = d.idx_shift ∧
      SELF.touched d addr < d.sets * d.ways ∧
      d1.store.tags.getD (SELF.touched d addr) 0 &&& VALID ≠ 0 ∧
      d1.store.timer.getD (SELF.touched d addr) 0 = 0 ∧
      ∀ i, i < d.sets * d.ways → i ≠ SELF.touched d addr →
        d1.store.tags.getD i 0 = d.store.tags.getD i 0 ∧
        (d.store.tags.getD i 0 &&& VALID ≠ 0 →
          1 ≤ d1.store.timer.getD i 0 ∧ d1.store.timer.getD i 0 + 1 < 2 ^ 64) := by
  obtain ⟨hg, hlt, hlm, hwo⟩ := hinv.1
  have htl : (SELF.ticked d).length = d.sets * d.ways := by rw [ticked_length]; exact hlm
  have htick : ∀ i, i < d.sets * d.ways → d.store.tags.getD i 0 &&& VALID ≠ 0 →
      (SELF.ticked d).getD i 0 = d.store.timer.getD i 0 + 1 := by
    intro i hi hv
    unfold SELF.ticked
    rw [tick_getD, if_pos ⟨hi, by omega, hv⟩]
    unfold inc64
    exact Nat.mod_eq_of_lt (by have := hov i hi; omega)
  cases hl : lookup d d.store.tags addr with
  | some p =>
    have hacc := self_access_hit d addr bytes p store hl
    obtain ⟨hp, hpv, _⟩ := lookup_valid d d.store.tags addr p hg hwo ha hl
    have ht : SELF.touched d addr = p := by unfold SELF.touched; rw [hl]
    rw [ht]
    refine ⟨_, _, hacc, self_inv_access d _ addr bytes store _ hinv ha hacc, rfl, rfl, rfl,
      hp, ?_, ?_, ?_⟩
    · show (if store = true then _ else _ : List Nat).getD p 0 &&& VALID ≠ 0
      split
      · rw [getD_set_eq _ _ _ (by omega)]
        exact fun hz => hpv ((or_DIRTY_valid _).mp hz)
      · exact hpv
    · exact getD_set_eq _ _ _ (by omega)
    · intro i hi hip
      constructor
      · show (if store = true then _ else _ : List Nat).getD i 0 = _
        split
        · exact getD_set_ne _ _ _ _ hip
        · rfl
      · intro hv
        show 1 ≤ ((SELF.ticked d).set p 0).getD i 0 ∧ ((SELF.ticked d).set p 0).getD i 0 + 1 < _
        rw [getD_set_ne _ _ _ _ hip, htick i hi hv]
        have := hov i hi
        omega
  | none =>
    have hacc := self_access_miss d addr bytes store hinv.1 ha hl
    have hway := self_miss_way_lt d addr hinv.1
    have hb := set_base_le d addr hg
    have hp : SELF.miss_index d addr < d.sets * d.ways := by unfold SELF.miss_index; omega
    have ht : SELF.touched d addr = SELF.miss_index d addr := by unfold SELF.touched; rw [hl]
    rw [ht]
    refine ⟨_, _, hacc, self_inv_access d _ addr bytes store _ hinv ha hacc, rfl, rfl, rfl,
      hp, ?_, ?_, ?_⟩
    · show (d.store.tags.set _ _).getD _ 0 &&& VALID ≠ 0
      rw [getD_set_eq _ _ _ (by omega)]
      split
      · exact fun hz => new_tag_valid _ ((or_DIRTY_valid _).mp hz)
      · exact new_tag_valid _
    · show (if store = true then _ else _ : List Nat).getD _ 0 = 0
      split
      · exact getD_set_eq _ _ _ (by rw [tick_length, List.length_set]; omega)
      · exact getD_set_eq _ _ _ (by omega)
    · intro i hi hip
      constructor
      · exact getD_set_ne _ _ _ _ hip
      · intro hv
        show 1 ≤ (if store = true then _ else _ : List Nat).getD i 0 ∧
          (if store = true then _ else _ : List Nat).getD i 0 + 1 < _
        split
        · rw [getD_set_ne _ _ _ _ hip, tick_getD, getD_set_ne _ _ _ _ hip,
            getD_set_ne _ _ _ _ hip, List.length_set, htl, if_pos ⟨hi, hi, hv⟩, htick i hi hv]
          unfold inc64
          rw [Nat.mod_eq_of_lt (by have := hov i hi; omega)]
          have := hov i hi
          omega
        · rw [getD_set_ne _ _ _ _ hip, htick i hi hv]
          have := hov i hi
          omega

theorem self_one_1_2_8 :
    access SELF.vt SELF.cold_1_2_8 0 8 false = some (SELF.one_1_2_8, []) := by decide

/-- C1 (amended): in every reachable state of `SELF_cachesim.cc` (invariant `SELF.inv`, timers
three below the top value), an `access` returns, and when the `access` that follows it misses
and finds every way of its set valid, with the line touched by the access before in that set
(always so when `sets = 1`), the way it replaces is that line: the line touched most recently,
whether it was hit or installed.  In the sequence A,B,C,A,B,C,... on `sets=1, ways=2` every
miss that finds both ways valid therefore evicts the line of the access just before it and
keeps the other, least recently touched, line. -/
theorem miss_evicts_most_recent (d : cache_sim_t self_store) (x1 b1 x2 b2 : Nat)
    (s1 s2 : Bool) (hinv : SELF.inv d) (h1 : x1 < 2 ^ 64) (h2 : x2 < 2 ^ 64)
    (hov : ∀ i, i < d.sets * d.ways → d.store.timer.getD i 0 + 3 < 2 ^ 64) :
    ∃ d1 out1, access SELF.vt d x1 b1 s1 = some (d1, out1) ∧
      (d1.sets = 1 → set_index d1 x2 * d1.ways ≤ SELF.touched d x1 ∧
        SELF.touched d x1 < (set_index d1 x2 + 1) * d1.ways) ∧
      ((SELF.check_tag d1 x2).2 = none →
        (∀ j, j < d1.ways →
          d1.store.tags.getD (set_index d1 x2 * d1.ways + j) 0 &&& VALID ≠ 0) →
        set_index d1 x2 * d1.ways ≤ SELF.touched d x1 →
        SELF.touched d x1 < (set_index d1 x2 + 1) * d1.ways →
        SELF.miss_index d1 x2 = SELF.touched d x1 ∧
        ∃ d2, access SELF.vt d1 x2 b2 s2
            = some (d2, miss_calls d1 (d1.store.tags.getD (SELF.touched d x1) 0) x2) ∧
          d2.store.tags = d1.store.tags.set (SELF.touched d x1)
            (if s2 then new_tag d1 x2 ||| DIRTY else new_tag d1 x2)) := by
  obtain ⟨d1, out1, hacc, hinv1, es, ew, ei, hp1, hv1, ht1, hrest⟩ :=
    self_access_touched d x1 b1 s1 hinv h1 hov
  refine ⟨d1, out1, hacc, ?_, ?_⟩
  · intro hs1
    have hz : set_index d1 x2 = 0 := by
      unfold set_index
      rw [hs1]
      simp [dec64]
    have hp1b : SELF.touched d x1 < d1.ways := by
      have hn : d1.sets * d1.ways = d.sets * d.ways := by rw [es, ew]
      rw [hs1, Nat.one_mul] at hn
      omega
    rw [hz, Nat.zero_mul, Nat.zero_add, Nat.one_mul]
    exact ⟨Nat.zero_le _, hp1b⟩
  · intro hmiss hall hlo hhi
    rw [self_check_tag_snd] at hmiss
    obtain ⟨hg1, hlt1, hlm1, hwo1⟩ := hinv1.1
    have hb := set_base_le d1 x2 hg1
    have hw : 0 < d1.ways := hg1.1.2.1
    have hn : d1.sets * d1.ways = d.sets * d.ways := by rw [es, ew]
    have htl : (SELF.ticked d1).length = d1.sets * d1.ways := by
      rw [ticked_length]; exact hlm1
    have hl := set_timers_length (SELF.ticked d1) (set_index d1 x2 * d1.ways) d1.ways
      (by omega)
    obtain ⟨m1, m2, _⟩ := min_element_spec
      (((SELF.ticked d1).drop (set_index d1 x2 * d1.ways)).take d1.ways) (by omega)
    rw [hl] at m1 m2
    have hval : ∀ j, j < d1.ways → set_index d1 x2 * d1.ways + j ≠ SELF.touched d x1 →
        2 ≤ (((SELF.ticked d1).drop (set_index d1 x2 * d1.ways)).take d1.ways).getD j 0 := by
      intro j hj hjp
      have hjn : set_index d1 x2 * d1.ways + j < d.sets * d.ways := by omega
      obtain ⟨et, hbound⟩ := hrest _ hjn hjp
      have hvd := hall j hj
      have hb2 := hbound (by rw [← et]; exact hvd)
      rw [set_timers_getD _ _ _ _ hj]
      unfold SELF.ticked
      rw [tick_getD, if_pos ⟨by omega, by omega, hvd⟩]
      unfold inc64
      rw [Nat.mod_eq_of_lt hb2.2]
      omega
    have hw1 : SELF.touched d x1 - set_index d1 x2 * d1.ways < d1.ways := by
      rw [Nat.add_mul, Nat.one_mul] at hhi; omega
    have hS1 : (((SELF.ticked d1).drop (set_index d1 x2 * d1.ways)).take d1.ways).getD
        (SELF.touched d x1 - set_index d1 x2 * d1.ways) 0 = 1 := by
      rw [set_timers_getD _ _ _ _ hw1]
      have e : set_index d1 x2 * d1.ways + (SELF.touched d x1 - set_index d1 x2 * d1.ways)
          = SELF.touched d x1 := by omega
      rw [e]
      unfold SELF.ticked
      rw [tick_getD, if_pos ⟨by omega, by omega, hv1⟩, ht1]
      rfl
    have hidx : SELF.miss_index d1 x2 = SELF.touched d x1 := by
      unfold SELF.miss_index
      have hle := m2 _ hw1
      rw [hS1] at hle
      by_contra hne
      have := hval _ m1 hne
      omega
    have hacc2 := self_access_miss d1 x2 b2 s2 hinv1.1 h2 hmiss
    rw [hidx] at hacc2
    exact ⟨hidx, _, hacc2, rfl⟩

theorem miss_evicts_most_recent_witness :
    ∃ d1 out1, access SELF.vt SELF.one_1_2_8 8 8 false = some (d1, out1) ∧
      (d1.sets = 1 → set_index d1 16 * d1.ways ≤ SELF.touched SELF.one_1_2_8 8 ∧
        SELF.touched SELF.one_1_2_8 8 < (set_index d1 16 + 1) * d1.ways) ∧
      ((SELF.check_tag d1 16).2 = none →
        (∀ j, j < d1.ways →
          d1.store.tags.getD (set_index d1 16 * d1.ways + j) 0 &&& VALID ≠ 0) →
        set_index d1 16 * d1.ways ≤ SELF.touched SELF.one_1_2_8 8 →
        SELF.touched SELF.one_1_2_8 8 < (set_index d1 16 + 1) * d1.ways →
        SELF.miss_index d1 16 = SELF.touched SELF.one_1_2_8 8 ∧
        ∃ d2, access SELF.vt d1 16 8 false
            = some (d2, miss_calls d1
                (d1.store.tags.getD (SELF.touched SELF.one_1_2_8 8) 0) 16) ∧
          d2.store.tags = d1.store.tags.set (SELF.touched SELF.one_1_2_8 8)
            (if false then new_tag d1 16 ||| DIRTY else new_tag d1 16)) :=
  miss_evicts_most_recent SELF.one_1_2_8 8 8 16 8 false false
    (self_inv_access SELF.cold_1_2_8 SELF.one_1_2_8 0 8 false []
      (self_inv_new 1 2 8 SELF.cold_1_2_8 (by decide) (by decide) (by decide) (by decide))
      (by decide) self_one_1_2_8)
    (by decide) (by decide) (by decide)

/-! ## The map of the fully-associative store (C16) -/

theorem mem_map_assign (m : List (Nat × Nat)) (k v : Nat) (e : Nat × Nat)
    (h : e ∈ map_assign m k v) : e = (k, v) ∨ e ∈ m := by
  induction m with
  | nil =>
    simp only [map_assign, List.mem_singleton] at h
    exact Or.inl h
  | cons x m ih =>
    obtain ⟨k1, v1⟩ := x
    simp only [map_assign] at h
    by_cases h1 : k < k1
    · rw [if_pos h1] at h
      rcases List.mem_cons.mp h with h | h
      · exact Or.inl h
      · exact Or.inr h
    · rw [if_neg h1] at h
      by_cases h2 : k = k1
      · rw [if_pos h2] at h
        rcases List.mem_cons.mp h with h | h
        · exact Or.inl h
        · exact Or.inr (List.mem_cons_of_mem _ h)
      · rw [if_neg h2] at h
        rcases List.mem_cons.mp h with h | h
        · exact Or.inr (by rw [h]; exact List.mem_cons_self _ _)
        · rcases ih h with h | h
          · exact Or.inl h
          · exact Or.inr (List.mem_cons_of_mem _ h)

theorem map_assign_length_le (m : List (Nat × Nat)) (k v : Nat) :
    (map_assign m k v).length ≤ m.length + 1 := by
  induction m with
  | nil => simp [map_assign]
  | cons x m ih =>
    obtain ⟨k1, v1⟩ := x
    simp only [map_assign]
    split
    · simp
    · split
      · simp
      · simp only [List.length_cons]; omega

theorem map_assign_sorted (m : List (Nat × Nat)) (k v : Nat)
    (h : m.Pairwise (fun a b => a.1 < b.1)) :
    (map_assign m k v).Pairwise (fun a b => a.1 < b.1) := by
  induction m with
  | nil => simp [map_assign]
  | cons x m ih =>
    obtain ⟨k1, v1⟩ := x
    obtain ⟨hx, hm⟩ := List.pairwise_cons.mp h
    simp only [map_assign]
    by_cases h1 : k < k1
    · rw [if_pos h1]
      apply List.pairwise_cons.mpr
      refine ⟨?_, h⟩
      intro b hb
      rcases List.mem_cons.mp hb with hb | hb
      · rw [hb]; exact h1
      · exact lt_trans h1 (hx b hb)
    · rw [if_neg h1]
      by_cases h2 : k = k1
      · rw [if_pos h2]
        apply List.pairwise_cons.mpr
        refine ⟨?_, hm⟩
        intro b hb
        rw [h2]; exact hx b hb
      · rw [if_neg h2]
        apply List.pairwise_cons.mpr
        refine ⟨?_, ih hm⟩
        intro b hb
        rcases mem_map_assign m k v b hb with hb | hb
        · rw [hb]; show k1 < k; omega
        · exact hx b hb

theorem map_find_mem (m : List (Nat × Nat)) (k w : Nat) (h : map_find m k = some w) :
    (k, w) ∈ m := by
  induction m with
  | nil => simp [map_find] at h
  | cons x m ih =>
    obtain ⟨k1, v1⟩ := x
    simp only [map_find] at h
    by_cases h1 : k = k1
    · rw [if_pos h1] at h
      injection h with h
      rw [h1, h]
      exact List.mem_cons_self _ _
    · rw [if_neg h1] at h
      exact List.mem_cons_of_mem _ (ih h)

/-- Assigning to a key the sorted map already has keeps its size. -/
theorem map_assign_length_present (m : List (Nat × Nat)) (k v w : Nat)
    (hs : m.Pairwise (fun a b => a.1 < b.1)) (h : map_find m k = some w) :
    (map_assign m k v).length = m.length := by
  induction m with
  | nil => simp [map_find] at h
  | cons x m ih =>
    obtain ⟨k1, v1⟩ := x
    obtain ⟨hx, hm⟩ := List.pairwise_cons.mp hs
    simp only [map_find] at h
    simp only [map_assign]
    by_cases h2 : k = k1
    · rw [if_neg (by omega), if_pos h2]
      simp
    · rw [if_neg h2] at h
      have hmem := map_find_mem m k w h
      have hlt : k1 < k := hx _ hmem
      rw [if_neg (by omega), if_neg h2]
      simp only [List.length_cons]
      rw [ih hm h]

theorem map_assign_assign (m : List (Nat × Nat)) (k v v2 : Nat) :
    map_assign (map_assign m k v) k v2 = map_assign m k v2 := by
  induction m with
  | nil => simp [map_assign]
  | cons x m ih =>
    obtain ⟨k1, v1⟩ := x
    simp only [map_assign]
    by_cases h1 : k < k1
    · simp [h1, map_assign]
    · by_cases h2 : k = k1
      · simp [h2, map_assign]
      · simp [h1, h2, map_assign, ih]

theorem map_find_assign_ne (m : List (Nat × Nat)) (k v k2 : Nat) (h : k2 ≠ k) :
    map_find (map_assign m k v) k2 = map_find m k2 := by
  induction m with
  | nil => simp [map_assign, map_find, h]
  | cons x m ih =>
    obtain ⟨k1, v1⟩ := x
    simp only [map_assign]
    by_cases h1 : k < k1
    · simp [h1, map_find, h]
    · by_cases h2 : k = k1
      · subst h2
        simp [map_find, h]
      · simp [h1, h2, map_find, ih]

/-- Writing a word with the same tag bits to a key of the map keeps the map consistent. -/
theorem fa_ok_poke (ways : Nat) (m : List (Nat × Nat)) (k v w : Nat) (h : fa_ok ways m)
    (hf : map_find m k = some w)
    (hv : v &&& not64 (VALID ||| DIRTY) = w &&& not64 (VALID ||| DIRTY)) :
    fa_ok ways (map_assign m k v) := by
  obtain ⟨hlen, hs, he⟩ := h
  refine ⟨?_, map_assign_sorted m k v hs, ?_⟩
  · rw [map_assign_length_present m k v w hs hf]
    exact hlen
  · intro e hmem
    rcases mem_map_assign m k v e hmem with h1 | h1
    · rw [h1]
      show v &&& not64 (VALID ||| DIRTY) = k
      rw [hv]
      exact he _ (map_find_mem m k w hf)
    · exact he e h1

/-- What `victimize` of `fa_cache_sim_t` does to the map keeps it consistent and within
capacity. -/
theorem fa_ok_installed (c : cache_sim_t fa_store) (addr : Nat) (hw : 0 < c.ways)
    (hk : addr >>> c.idx_shift < 2 ^ 62) (h : fa_ok c.ways c.store.tags) :
    fa_ok c.ways (FA.installed c addr) := by
  obtain ⟨hlen, hs, he⟩ := h
  unfold FA.installed FA.victimize
  by_cases hfull : c.store.tags.length = c.ways
  · rw [if_pos hfull]
    have hn : lfsr_next c.store.lfsr % c.ways < c.store.tags.length := by
      rw [hfull]
      exact Nat.mod_lt _ hw
    refine ⟨?_, map_assign_sorted _ _ _ (List.Pairwise.sublist (List.eraseIdx_sublist _ _) hs),
      ?_⟩
    · have h1 := map_assign_length_le (c.store.tags.eraseIdx (lfsr_next c.store.lfsr % c.ways))
        (addr >>> c.idx_shift) ((addr >>> c.idx_shift) ||| VALID)
      have h2 := List.length_eraseIdx_add_one hn
      show (map_assign (c.store.tags.eraseIdx (lfsr_next c.store.lfsr % c.ways))
        (addr >>> c.idx_shift) ((addr >>> c.idx_shift) ||| VALID)).length ≤ c.ways
      omega
    · intro e hmem
      rcases mem_map_assign _ _ _ e hmem with h1 | h1
      · rw [h1]
        exact or_valid_mask _ hk
      · exact he e (List.mem_of_mem_eraseIdx h1)
  · rw [if_neg hfull]
    refine ⟨?_, map_assign_sorted _ _ _ hs, ?_⟩
    · have h1 := map_assign_length_le c.store.tags
        (addr >>> c.idx_shift) ((addr >>> c.idx_shift) ||| VALID)
      show (map_assign c.store.tags
        (addr >>> c.idx_shift) ((addr >>> c.idx_shift) ||| VALID)).length ≤ c.ways
      omega
    · intro e hmem
      rcases mem_map_assign _ _ _ e hmem with h1 | h1
      · rw [h1]
        exact or_valid_mask _ hk
      · exact he e h1

/-- The invariant of `fa_cache_sim_t` holds after `access`. -/
theorem fa_inv_access (c : cache_sim_t fa_store) (addr bytes : Nat) (store : Bool)
    (c1 : cache_sim_t fa_store) (out : List call) (hinv : FA.inv c) (ha : addr < 2 ^ 64)
    (h : access FA.vt c addr bytes store = some (c1, out)) : FA.inv c1 := by
  obtain ⟨hg, hok⟩ := hinv
  have hk : addr >>> c.idx_shift < 2 ^ 62 :=
    block_lt addr c.idx_shift ha (by have := geom_shift c hg; omega)
  cases hf : map_find c.store.tags (addr >>> c.idx_shift) with
  | some w =>
    rw [fa_access_hit c addr bytes w store hf] at h
    injection h with h
    injection h with h1 _
    rw [← h1]
    refine ⟨hg, ?_⟩
    cases store
    · exact hok
    · exact fa_ok_poke _ _ _ _ w hok hf (masked_or_DIRTY w)
  | none =>
    rw [fa_access_miss c addr bytes store hf] at h
    injection h with h
    injection h with h1 _
    rw [← h1]
    refine ⟨hg, ?_⟩
    have hi := fa_ok_installed c addr hg.1.2.1 hk hok
    cases store
    · exact hi
    · exact fa_ok_poke _ _ _ _ _ hi (fa_find_installed c addr) (masked_or_DIRTY _)

/-- The invariant of `fa_cache_sim_t` holds after one iteration of the loop of
`clean_invalidate`. -/
theorem fa_inv_body (clean inval : Bool) (c : cache_sim_t fa_store) (a : Nat)
    (hinv : FA.inv c) : FA.inv (clean_invalidate_body FA.vt clean inval c a) := by
  obtain ⟨hg, hok⟩ := hinv
  cases hf : map_find c.store.tags (a >>> c.idx_shift) with
  | none =>
    simp only [clean_invalidate_body, FA.vt, FA.check_tag, hf]
    exact ⟨hg, hok⟩
  | some w =>
    have h1 := fa_ok_poke _ _ _ _ w hok hf (masked_and_not_DIRTY w)
    have h2 := fa_ok_poke _ _ _ _ w hok hf (masked_and_not_VALID w)
    have h3 := fa_ok_poke _ _ _ _ w hok hf
      ((masked_and_not_VALID (w &&& not64 DIRTY)).trans (masked_and_not_DIRTY w))
    by_cases hd : w &&& DIRTY = 0
    · cases clean <;> cases inval <;>
        simp only [clean_invalidate_body, FA.vt, FA.check_tag, hf, hd, Option.getD_some,
          map_find_assign_self, map_assign_assign, ne_eq, not_true_eq_false, decide_False,
          decide_True, Bool.and_false, Bool.and_true, Bool.false_and, Bool.true_and,
          Bool.false_eq_true, if_false, if_true, not_false_eq_true] <;>
        first
          | exact ⟨hg, hok⟩
          | exact ⟨hg, h1⟩
          | exact ⟨hg, h2⟩
    · cases clean <;> cases inval <;>
        simp only [clean_invalidate_body, FA.vt, FA.check_tag, hf, hd, Option.getD_some,
          map_find_assign_self, map_assign_assign, ne_eq, not_true_eq_false, decide_False,
          decide_True, Bool.and_false, Bool.and_true, Bool.false_and, Bool.true_and,
          Bool.false_eq_true, if_false, if_true, not_false_eq_true] <;>
        first
          | exact ⟨hg, hok⟩
          | exact ⟨hg, h1⟩
          | exact ⟨hg, h2⟩
          | exact ⟨hg, h3⟩
theorem fa_inv_reachable (c0 c : cache_sim_t fa_store) (h0 : FA.inv c0)
    (hr : reachable FA.vt c0 c) : FA.inv c := by
  apply reachable_invariant FA.vt FA.inv c0 h0 _ _ _ _ c hr
  · intro c hc
    obtain ⟨⟨_, _, ⟨k, hk, _, hl⟩, _⟩, _⟩ := hc.1
    exact ⟨k, hk, hl⟩
  · intro c hc
    exact hc
  · intro c addr bytes store c1 out hc ha h
    exact fa_inv_access c addr bytes store c1 out hc ha h
  · intro clean inval c a hc _
    exact fa_inv_body clean inval c a hc

theorem fa_inv_new (ways linesz : Nat) (c0 : cache_sim_t fa_store)
    (hnew : FA.new ways linesz = some c0) (hw : 0 < ways) (hws : ways < 2 ^ 64)
    (hl : linesz < 2 ^ 64) : FA.inv c0 := by
  obtain ⟨hg, hst, _⟩ := init_geom_ok _ 1 ways linesz c0 hnew hw (by omega) hl
  refine ⟨hg, ?_⟩
  rw [hst]
  exact ⟨Nat.zero_le _, List.Pairwise.nil, fun e he => absurd he (List.not_mem_nil e)⟩

theorem map_find_none (m : List (Nat × Nat)) (k : Nat) (h : ∀ e ∈ m, e.1 ≠ k) :
    map_find m k = none := by
  induction m with
  | nil => rfl
  | cons x m ih =>
    obtain ⟨k1, v1⟩ := x
    simp only [map_find]
    rw [if_neg (fun hk => h (k1, v1) (List.mem_cons_self _ _) hk.symm)]
    exact ih (fun e he => h e (List.mem_cons_of_mem _ he))

theorem getD_mem (m : List (Nat × Nat)) (n : Nat) (hn : n < m.length) :
    m.getD n (0, 0) ∈ m := by
  rw [List.getD_eq_getElem _ _ hn]
  exact List.getElem_mem hn

/-- Erasing an entry of the map leaves the entries of the other keys as they are. -/
theorem map_find_eraseIdx_ne (m : List (Nat × Nat)) (n k : Nat) (hn : n < m.length)
    (hk : k ≠ (m.getD n (0, 0)).1) : map_find (m.eraseIdx n) k = map_find m k := by
  induction m generalizing n with
  | nil => rfl
  | cons x m ih =>
    obtain ⟨k1, v1⟩ := x
    cases n with
    | zero =>
      simp only [List.getD_cons_zero] at hk
      simp only [List.eraseIdx_cons_zero, map_find]
      rw [if_neg hk]
    | succ n =>
      simp only [List.getD_cons_succ] at hk
      simp only [List.eraseIdx_cons_succ, map_find]
      rw [ih n (by simpa using hn) hk]

/-- Erasing an entry of the sorted map leaves no entry with its key. -/
theorem map_find_eraseIdx_self (m : List (Nat × Nat)) (n : Nat) (hn : n < m.length)
    (hs : m.Pairwise (fun a b => a.1 < b.1)) :
    map_find (m.eraseIdx n) (m.getD n (0, 0)).1 = none := by
  induction m generalizing n with
  | nil => rfl
  | cons x m ih =>
    obtain ⟨k1, v1⟩ := x
    obtain ⟨hx, hm⟩ := List.pairwise_cons.mp hs
    cases n with
    | zero =>
      simp only [List.getD_cons_zero, List.eraseIdx_cons_zero]
      apply map_find_none
      intro e he
      have := hx e he
      show e.1 ≠ k1
      omega
    | succ n =>
      have hn2 : n < m.length := by simpa using hn
      simp only [List.getD_cons_succ, List.eraseIdx_cons_succ, map_find]
      have hlt : k1 < (m.getD n (0, 0)).1 := hx _ (getD_mem m n hn2)
      rw [if_neg (by omega)]
      exact ih n hn2 hm

theorem fa_one_1_8 : access FA.vt FA.cold_1_8 0 8 true = some (FA.one_1_8, []) := by decide

theorem fa_new_1_8 : FA.new 1 8 = some FA.cold_1_8 := by decide

/-- C16: in every state of `fa_cache_sim_t` reachable from the freshly constructed one (at
least one way, 64-bit sizes) by `access` and `clean_invalidate` calls, the map holds at most
`ways` entries and the key of every entry is its value with VALID and DIRTY masked off.  There,
`victimize(addr)` on a map of fewer than `ways` entries returns 0 and leaves the entry of every
other key as it is; on a map of exactly `ways` entries it returns the value of one entry of the
map, no entry with the key of that one is left unless it is the key of `addr`, and the entry of
every further key is as it was; in both cases the map afterwards has the key `addr >> idx_shift`
with the value `(addr >> idx_shift) | VALID`. -/
theorem fa_capacity_and_snapshot (ways linesz : Nat) (c0 c : cache_sim_t fa_store) (addr : Nat)
    (hnew : FA.new ways linesz = some c0) (hw : 1 ≤ ways) (hws : ways < 2 ^ 64)
    (hl : linesz < 2 ^ 64) (hr : reachable FA.vt c0 c) :
    c.store.tags.length ≤ c.ways ∧
    (∀ e ∈ c.store.tags, e.2 &&& not64 (VALID ||| DIRTY) = e.1) ∧
    (c.store.tags.length < c.ways →
      (FA.victimize c addr).2 = 0 ∧
      ∀ k, k ≠ addr >>> c.idx_shift →
        map_find (FA.installed c addr) k = map_find c.store.tags k) ∧
    (c.store.tags.length = c.ways →
      ∃ e ∈ c.store.tags, (FA.victimize c addr).2 = e.2 ∧
        (e.1 ≠ addr >>> c.idx_shift → map_find (FA.installed c addr) e.1 = none) ∧
        ∀ k, k ≠ addr >>> c.idx_shift → k ≠ e.1 →
          map_find (FA.installed c addr) k = map_find c.store.tags k) ∧
    map_find (FA.installed c addr) (addr >>> c.idx_shift)
      = some ((addr >>> c.idx_shift) ||| VALID) := by
  obtain ⟨hg, hlen, hs, he⟩ := fa_inv_reachable c0 c (fa_inv_new ways linesz c0 hnew hw hws hl) hr
  refine ⟨hlen, he, ?_, ?_, fa_find_installed c addr⟩
  · intro hlt
    have hne : ¬ c.store.tags.length = c.ways := by omega
    unfold FA.installed FA.victimize
    rw [if_neg hne]
    exact ⟨rfl, fun k hk => map_find_assign_ne _ _ _ k hk⟩
  · intro hfull
    have hn : lfsr_next c.store.lfsr % c.ways < c.store.tags.length := by
      rw [hfull]
      exact Nat.mod_lt _ hg.1.2.1
    refine ⟨c.store.tags.getD (lfsr_next c.store.lfsr % c.ways) (0, 0), getD_mem _ _ hn, ?_⟩
    unfold FA.installed FA.victimize
    rw [if_pos hfull]
    refine ⟨rfl, ?_, ?_⟩
    · intro hk
      show map_find (map_assign (c.store.tags.eraseIdx (lfsr_next c.store.lfsr % c.ways))
        (addr >>> c.idx_shift) ((addr >>> c.idx_shift) ||| VALID)) _ = none
      rw [map_find_assign_ne _ _ _ _ hk]
      exact map_find_eraseIdx_self _ _ hn hs
    · intro k hk hk2
      show map_find (map_assign (c.store.tags.eraseIdx (lfsr_next c.store.lfsr % c.ways))
        (addr >>> c.idx_shift) ((addr >>> c.idx_shift) ||| VALID)) k = map_find c.store.tags k
      rw [map_find_assign_ne _ _ _ _ hk]
      exact map_find_eraseIdx_ne _ _ _ hn hk2

theorem fa_capacity_and_snapshot_witness :
    FA.one_1_8.store.tags.length ≤ FA.one_1_8.ways ∧
    (∀ e ∈ FA.one_1_8.store.tags, e.2 &&& not64 (VALID ||| DIRTY) = e.1) ∧
    (FA.one_1_8.store.tags.length < FA.one_1_8.ways →
      (FA.victimize FA.one_1_8 8).2 = 0 ∧
      ∀ k, k ≠ 8 >>> FA.one_1_8.idx_shift →
        map_find (FA.installed FA.one_1_8 8) k = map_find FA.one_1_8.store.tags k) ∧
    (FA.one_1_8.store.tags.length = FA.one_1_8.ways →
      ∃ e ∈ FA.one_1_8.store.tags, (FA.victimize FA.one_1_8 8).2 = e.2 ∧
        (e.1 ≠ 8 >>> FA.one_1_8.idx_shift → map_find (FA.installed FA.one_1_8 8) e.1 = none) ∧
        ∀ k, k ≠ 8 >>> FA.one_1_8.idx_shift → k ≠ e.1 →
          map_find (FA.installed FA.one_1_8 8) k = map_find FA.one_1_8.store.tags k) ∧
    map_find (FA.installed FA.one_1_8 8) (8 >>> FA.one_1_8.idx_shift)
      = some ((8 >>> FA.one_1_8.idx_shift) ||| VALID) :=
  fa_capacity_and_snapshot 1 8 FA.cold_1_8 FA.one_1_8 8 (by decide) (by decide) (by decide)
    (by decide)
    (reachable.step (call.access 0 8 true) reachable.start ⟨by decide, by decide⟩ fa_one_1_8)

/-! ## The effect of `clean_invalidate` on the set-associative store (C9) -/

/-- The way search sees the tag array only through `holds`. -/
theorem lookup_congr {τ : Type} (c : cache_sim_t τ) (T1 T : List Nat) (x : Nat)
    (hg : geom_ok c) (hw1 : words_ok T1) (hw : words_ok T) (hx : x < 2 ^ 64)
    (h : ∀ q, holds c.idx_shift (T1.getD q 0) x ↔ holds c.idx_shift (T.getD q 0) x) :
    lookup c T1 x = lookup c T x := by
  cases hl : lookup c T x with
  | none =>
    rw [lookup_none c T1 x hg hw1 hx]
    intro i hi hh
    exact (lookup_none c T x hg hw hx).mp hl i hi ((h _).mp hh)
  | some p =>
    obtain ⟨i, hi, hp, hh, hfirst⟩ := (lookup_some c T x p hg hw hx).mp hl
    rw [lookup_some c T1 x p hg hw1 hx]
    exact ⟨i, hi, hp, (h _).mpr hh, fun j hj hjh => hfirst j hj ((h _).mp hjh)⟩

theorem lookup_geom {τ : Type} (c1 c : cache_sim_t τ) (T : List Nat) (x : Nat)
    (h1 : c1.sets = c.sets) (h2 : c1.ways = c.ways) (h3 : c1.idx_shift = c.idx_shift) :
    lookup c1 T x = lookup c T x := by
  unfold lookup set_index
  rw [h1, h2, h3]

/-- What one iteration of the loop of `clean_invalidate` leaves: the geometry, `writebacks`
counted up for a dirty hit that is cleaned, and the word of the line hit rewritten. -/
theorem orig_body_facts (c : cache_sim_t orig_store) (a : Nat) (clean inval : Bool)
    (hinv : ORIG.inv c) (ha : a < 2 ^ 64) :
    (clean_invalidate_body ORIG.vt clean inval c a).sets = c.sets ∧
    (clean_invalidate_body ORIG.vt clean inval c a).ways = c.ways ∧
    (clean_invalidate_body ORIG.vt clean inval c a).idx_shift = c.idx_shift ∧
    (clean_invalidate_body ORIG.vt clean inval c a).writebacks
      = (if clean = true ∧ dirty_hit c c.store.tags a = true
         then inc64 c.writebacks else c.writebacks) ∧
    ∀ q, (clean_invalidate_body ORIG.vt clean inval c a).store.tags.getD q 0
      = if lookup c c.store.tags a = some q
        then clean_word clean inval (c.store.tags.getD q 0) else c.store.tags.getD q 0 := by
  obtain ⟨⟨hg, hlt, hwo⟩, _⟩ := hinv
  cases hl : lookup c c.store.tags a with
  | none =>
    rw [orig_body_miss c a clean inval hl]
    refine ⟨rfl, rfl, rfl, ?_, ?_⟩
    · simp [dirty_hit, hl]
    · intro q
      simp
  | some p =>
    have hp : p < c.store.tags.length := by
      rw [hlt]
      exact (lookup_valid c c.store.tags a p hg hwo ha hl).1
    rw [orig_body_hit c a p clean inval hp hl]
    refine ⟨rfl, rfl, rfl, ?_, ?_⟩
    · simp [dirty_hit, hl]
    · intro q
      show (c.store.tags.set p (clean_word clean inval (c.store.tags.getD p 0))).getD q 0 = _
      by_cases hq : q = p
      · subst hq
        rw [getD_set_eq _ _ _ hp, if_pos rfl]
      · rw [getD_set_ne _ _ _ _ hq, if_neg (fun h => hq (Option.some.inj h).symm)]

/-- A word rewritten by the loop of `clean_invalidate` holds a block only if it did before. -/
theorem holds_clean_word (s w x : Nat) (clean inval : Bool)
    (h : holds s (clean_word clean inval w) x) : holds s w x :=
  ⟨valid_clean_word clean inval w h.1, (masked_clean_word clean inval w).symm.trans h.2⟩

/-- An iteration of the loop for the block of `a` leaves the lookup of an address of another
block as it was. -/
theorem orig_body_lookup (c : cache_sim_t orig_store) (a x : Nat) (clean inval : Bool)
    (hinv : ORIG.inv c) (ha : a < 2 ^ 64) (hx : x < 2 ^ 64)
    (hne : a >>> c.idx_shift ≠ x >>> c.idx_shift) :
    lookup (clean_invalidate_body ORIG.vt clean inval c a)
        (clean_invalidate_body ORIG.vt clean inval c a).store.tags x
      = lookup c c.store.tags x ∧
    dirty_hit (clean_invalidate_body ORIG.vt clean inval c a)
        (clean_invalidate_body ORIG.vt clean inval c a).store.tags x
      = dirty_hit c c.store.tags x := by
  obtain ⟨h1, h2, h3, _, hq⟩ := orig_body_facts c a clean inval hinv ha
  have hinv1 := orig_inv_body clean inval c a hinv ha
  obtain ⟨⟨hg, hlt, hwo⟩, _⟩ := hinv
  have hnot : ∀ q, lookup c c.store.tags a = some q →
      ¬ holds c.idx_shift (c.store.tags.getD q 0) x := by
    intro q hl hh
    have := (lookup_valid c c.store.tags a q hg hwo ha hl).2.2
    exact hne (this.2.symm.trans hh.2)
  have hlk : lookup (clean_invalidate_body ORIG.vt clean inval c a)
        (clean_invalidate_body ORIG.vt clean inval c a).store.tags x
      = lookup c c.store.tags x := by
    rw [lookup_geom _ c _ x h1 h2 h3]
    apply lookup_congr c _ _ x hg hinv1.1.2.2 hwo hx
    intro q
    rw [hq q]
    by_cases hl : lookup c c.store.tags a = some q
    · rw [if_pos hl]
      constructor
      · intro hh
        exact holds_clean_word _ _ _ _ _ hh
      · intro hh
        exact absurd hh (hnot q hl)
    · rw [if_neg hl]
  refine ⟨hlk, ?_⟩
  unfold dirty_hit
  rw [hlk]
  cases hl : lookup c c.store.tags x with
  | none => rfl
  | some p =>
    show decide (_ ≠ 0) = decide (_ ≠ 0)
    rw [hq p]
    have hpx := (lookup_valid c c.store.tags x p hg hwo hx hl).2.2
    rw [if_neg (fun h => hnot p h hpx)]

/-- The loop of `clean_invalidate` over addresses of pairwise different blocks: every line that
the lookup of a visited address finds in the state before the loop is rewritten once, every
other word is as it was, and `writebacks` counts the dirty hits that are cleaned. -/
theorem orig_fold_facts (clean inval : Bool) (l : List Nat) (c : cache_sim_t orig_store)
    (hinv : ORIG.inv c) (hwb : c.writebacks < 2 ^ 64) (hl : ∀ x ∈ l, x < 2 ^ 64)
    (hd : l.Pairwise (fun x y => x >>> c.idx_shift ≠ y >>> c.idx_shift)) :
    ORIG.inv (l.foldl (clean_invalidate_body ORIG.vt clean inval) c) ∧
    (l.foldl (clean_invalidate_body ORIG.vt clean inval) c).sets = c.sets ∧
    (l.foldl (clean_invalidate_body ORIG.vt clean inval) c).ways = c.ways ∧
    (l.foldl (clean_invalidate_body ORIG.vt clean inval) c).idx_shift = c.idx_shift ∧
    (l.foldl (clean_invalidate_body ORIG.vt clean inval) c).writebacks
      = (c.writebacks + if clean = true then l.countP (dirty_hit c c.store.tags) else 0)
          % 2 ^ 64 ∧
    ∀ q, (l.foldl (clean_invalidate_body ORIG.vt clean inval) c).store.tags.getD q 0
      = if ∃ x ∈ l, lookup c c.store.tags x = some q
        then clean_word clean inval (c.store.tags.getD q 0) else c.store.tags.getD q 0 := by
  induction l generalizing c with
  | nil =>
    refine ⟨hinv, rfl, rfl, rfl, ?_, ?_⟩
    · simp only [List.foldl_nil, List.countP_nil, ite_self, Nat.add_zero]
      exact (Nat.mod_eq_of_lt hwb).symm
    · intro q
      simp
  | cons a l ih =>
    obtain ⟨hda, hdl⟩ := List.pairwise_cons.mp hd
    have ha : a < 2 ^ 64 := hl a (List.mem_cons_self _ _)
    have hl2 : ∀ x ∈ l, x < 2 ^ 64 := fun x hx => hl x (List.mem_cons_of_mem _ hx)
    obtain ⟨h1, h2, h3, h4, h5⟩ := orig_body_facts c a clean inval hinv ha
    have hinv1 := orig_inv_body clean inval c a hinv ha
    have hwb1 : (clean_invalidate_body ORIG.vt clean inval c a).writebacks < 2 ^ 64 := by
      rw [h4]
      split
      · exact Nat.mod_lt _ (by norm_num)
      · exact hwb
    have hlk : ∀ x ∈ l,
        lookup (clean_invalidate_body ORIG.vt clean inval c a)
            (clean_invalidate_body ORIG.vt clean inval c a).store.tags x
          = lookup c c.store.tags x ∧
        dirty_hit (clean_invalidate_body ORIG.vt clean inval c a)
            (clean_invalidate_body ORIG.vt clean inval c a).store.tags x
          = dirty_hit c c.store.tags x :=
      fun x hx => orig_body_lookup c a x clean inval hinv ha (hl2 x hx) (hda x hx)
    obtain ⟨i1, i2, i3, i4, i5, i6⟩ := ih (clean_invalidate_body ORIG.vt clean inval c a)
      hinv1 hwb1 hl2 (by rw [h3]; exact hdl)
    rw [List.foldl_cons]
    refine ⟨i1, i2.trans h1, i3.trans h2, i4.trans h3, ?_, ?_⟩
    · rw [i5, h4, List.countP_congr (fun x hx => by rw [(hlk x hx).2]), List.countP_cons]
      cases clean
      · simp
      · by_cases hdh : dirty_hit c c.store.tags a = true
        · simp only [hdh, and_self, if_true, inc64]
          omega
        · simp only [hdh, and_false, if_false, Bool.false_eq_true, Nat.add_zero]
    · intro q
      rw [i6 q, h5 q]
      obtain ⟨⟨hg, hlt, hwo⟩, _⟩ := hinv
      by_cases hex : ∃ x ∈ l, lookup c c.store.tags x = some q
      · obtain ⟨x, hx, hxq⟩ := hex
        have hqa : ¬ lookup c c.store.tags a = some q := by
          intro haq
          have e1 := (lookup_valid c c.store.tags a q hg hwo ha haq).2.2
          have e2 := (lookup_valid c c.store.tags x q hg hwo (hl2 x hx) hxq).2.2
          exact hda x hx (e1.2.symm.trans e2.2)
        rw [if_pos ⟨x, hx, by rw [(hlk x hx).1]; exact hxq⟩, if_neg hqa,
          if_pos ⟨x, List.mem_cons_of_mem _ hx, hxq⟩]
      · have hex1 : ¬ ∃ x ∈ l, lookup (clean_invalidate_body ORIG.vt clean inval c a)
            (clean_invalidate_body ORIG.vt clean inval c a).store.tags x = some q := by
          rintro ⟨x, hx, hxq⟩
          exact hex ⟨x, hx, by rw [← (hlk x hx).1]; exact hxq⟩
        rw [if_neg hex1]
        by_cases haq : lookup c c.store.tags a = some q
        · rw [if_pos haq, if_pos ⟨a, List.mem_cons_self _ _, haq⟩]
        · rw [if_neg haq, if_neg]
          rintro ⟨x, hx, hxq⟩
          rcases List.mem_cons.mp hx with hxa | hxl
          · exact haq (hxa ▸ hxq)
          · exact hex ⟨x, hxl, hxq⟩

theorem dirty_and_not_DIRTY (w : Nat) : (w &&& not64 DIRTY) &&& DIRTY = 0 := by
  apply Nat.eq_of_testBit_eq
  intro i
  simp only [Nat.testBit_and, testBit_not64, testBit_DIRTY, Nat.zero_testBit]
  by_cases h62 : 62 = i
  · subst h62; simp
  · simp [h62]

theorem dirty_and_not_VALID (w : Nat) : (w &&& not64 VALID) &&& DIRTY = w &&& DIRTY := by
  apply Nat.eq_of_testBit_eq
  intro i
  simp only [Nat.testBit_and, testBit_not64, testBit_VALID, testBit_DIRTY]
  by_cases h62 : 62 = i
  · subst h62; simp
  · simp [h62]

/-- A word rewritten by the loop with `clean` set has DIRTY clear. -/
theorem clean_word_clean (inval : Bool) (w : Nat) : clean_word true inval w &&& DIRTY = 0 := by
  unfold clean_word
  by_cases hd : w &&& DIRTY = 0
  · cases inval
    · simp [hd]
    · simp [hd, dirty_and_not_VALID]
  · cases inval
    · simp [hd, dirty_and_not_DIRTY]
    · simp [hd, dirty_and_not_VALID, dirty_and_not_DIRTY]

/-- A word rewritten by the loop with `inval` set has VALID clear. -/
theorem clean_word_inval (clean : Bool) (w : Nat) : clean_word clean true w &&& VALID = 0 := by
  unfold clean_word
  rw [if_pos rfl]
  exact valid_and_not_VALID _

theorem range_addr_block (k m i : Nat) : (m * 2 ^ k + i * 2 ^ k) >>> k = m + i := by
  rw [Nat.shiftRight_eq_div_pow, Nat.add_mul_div_right _ _ (Nat.two_pow_pos k),
    Nat.mul_div_cancel _ (Nat.two_pow_pos k)]

/-- The addresses the loop visits are of pairwise different blocks. -/
theorem range_blocks_distinct (k addr bytes : Nat) (hk : k < 64) (ha : addr < 2 ^ 64) :
    (range_addrs (2 ^ k) (start_addr (2 ^ k) addr) (iterations (2 ^ k) addr bytes)).Pairwise
      (fun x y => x >>> k ≠ y >>> k) := by
  unfold range_addrs
  rw [List.pairwise_map, start_addr_eq k addr hk ha]
  apply List.Pairwise.imp _ (List.pairwise_lt_range _)
  intro i j hij
  rw [range_addr_block, range_addr_block]
  omega

/-- Every address of the range `[start_addr, end_addr)` is in the block of a visited address. -/
theorem range_block_visited (k addr bytes y : Nat) (hk : k < 64) (ha : addr < 2 ^ 64)
    (h1 : start_addr (2 ^ k) addr ≤ y) (h2 : y < end_addr (2 ^ k) addr bytes) :
    ∃ x ∈ range_addrs (2 ^ k) (start_addr (2 ^ k) addr) (iterations (2 ^ k) addr bytes),
      x >>> k = y >>> k := by
  have hpos : 0 < 2 ^ k := Nat.two_pow_pos k
  have hm := iterations_mul k addr bytes hk ha (by omega)
  have hs := start_addr_eq k addr hk ha
  rw [hs] at h1 hm
  have hlo : addr / 2 ^ k ≤ y / 2 ^ k := (Nat.le_div_iff_mul_le hpos).mpr h1
  have hhi : y / 2 ^ k < addr / 2 ^ k + iterations (2 ^ k) addr bytes := by
    rw [Nat.div_lt_iff_lt_mul hpos, Nat.add_mul, hm]
    exact h2
  refine ⟨addr / 2 ^ k * 2 ^ k + (y / 2 ^ k - addr / 2 ^ k) * 2 ^ k, ?_, ?_⟩
  · rw [mem_range_addrs, hs]
    exact ⟨y / 2 ^ k - addr / 2 ^ k, by omega, rfl⟩
  · rw [range_addr_block, Nat.shiftRight_eq_div_pow]
    omega

/-- A visited address is an aligned address of the range `[start_addr, end_addr)`. -/
theorem range_addrs_in_range (k addr bytes x : Nat) (hk : k < 64) (ha : addr < 2 ^ 64)
    (hx : x ∈ range_addrs (2 ^ k) (start_addr (2 ^ k) addr) (iterations (2 ^ k) addr bytes)) :
    start_addr (2 ^ k) addr ≤ x ∧ x < end_addr (2 ^ k) addr bytes ∧ (x >>> k) <<< k = x := by
  obtain ⟨i, hi, rfl⟩ := (mem_range_addrs _ _ _ _).mp hx
  have hpos : 0 < 2 ^ k := Nat.two_pow_pos k
  have hlt : start_addr (2 ^ k) addr < end_addr (2 ^ k) addr bytes := by
    by_contra h
    unfold iterations at hi
    rw [if_neg h] at hi
    omega
  have hm := iterations_mul k addr bytes hk ha hlt
  have h1 : (i + 1) * 2 ^ k ≤ iterations (2 ^ k) addr bytes * 2 ^ k :=
    Nat.mul_le_mul_right _ hi
  refine ⟨Nat.le_add_right _ _, ?_, ?_⟩
  · rw [Nat.add_mul, Nat.one_mul] at h1
    omega
  · rw [start_addr_eq k addr hk ha, range_addr_block, Nat.shiftLeft_eq, Nat.add_mul]

theorem init_writebacks {τ : Type} (store : τ) (sets ways linesz : Nat) (c : cache_sim_t τ)
    (h : init store sets ways linesz = some c) : c.writebacks = 0 := by
  unfold init at h
  split at h
  · cases h
  split at h
  · cases h
  injection h with h
  subst h
  rfl

/-- In the reachable states of the engine of `ORIG_cachesim.cc` the invariant holds and
`writebacks` is a 64-bit value. -/
theorem orig_wb_reachable (c0 c : cache_sim_t orig_store) (h0 : ORIG.inv c0)
    (hwb0 : c0.writebacks < 2 ^ 64) (hr : reachable ORIG.vt c0 c) :
    ORIG.inv c ∧ c.writebacks < 2 ^ 64 := by
  apply reachable_invariant ORIG.vt (fun c => ORIG.inv c ∧ c.writebacks < 2 ^ 64) c0
    ⟨h0, hwb0⟩ _ _ _ _ c hr
  · intro c hc
    obtain ⟨⟨_, _, ⟨k, hk, _, hl⟩, _⟩, _⟩ := hc.1.1.1
    exact ⟨k, hk, hl⟩
  · intro c hc
    exact hc
  · intro c addr bytes store c1 out hc ha h
    refine ⟨orig_inv_access c c1 addr bytes store out hc.1 ha h, ?_⟩
    cases hl : lookup c c.store.tags addr with
    | some p =>
      rw [orig_access_hit c addr bytes p store hl] at h
      injection h with h
      injection h with h1 _
      rw [← h1]
      exact hc.2
    | none =>
      rw [orig_access_miss c addr bytes store hc.1.1 ha hl] at h
      injection h with h
      injection h with h1 _
      rw [← h1]
      show (if _ then _ else _ : Nat) < 2 ^ 64
      split
      · exact Nat.mod_lt _ (by norm_num)
      · exact hc.2
  · intro clean inval c a hc ha
    refine ⟨orig_inv_body clean inval c a hc.1 ha, ?_⟩
    rw [(orig_body_facts c a clean inval hc.1 ha).2.2.2.1]
    split
    · exact Nat.mod_lt _ (by norm_num)
    · exact hc.2

/-- In a set without duplicates, a way that holds the block of `x` is the line the lookup of
`x` finds. -/
theorem lookup_of_holds {τ : Type} (c : cache_sim_t τ) (T : List Nat) (x i : Nat)
    (hg : geom_ok c) (hw : words_ok T) (hx : x < 2 ^ 64) (hnd : no_dup c T) (hi : i < c.ways)
    (hh : holds c.idx_shift (T.getD (set_index c x * c.ways + i) 0) x) :
    lookup c T x = some (set_index c x * c.ways + i) := by
  cases hl : lookup c T x with
  | none => exact absurd hh ((lookup_none c T x hg hw hx).mp hl i hi)
  | some p =>
    obtain ⟨i0, hi0, hp, hh0, _⟩ := (lookup_some c T x p hg hw hx).mp hl
    by_cases he : i0 = i
    · rw [hp, he]
    · exact absurd (hh0.2.trans hh.2.symm)
        (hnd (set_index c x) i0 i (set_index_lt c x hg) hi0 hi he hh0.1 hh.1)

theorem holds_block (s w x y : Nat) (h : x >>> s = y >>> s) : holds s w y ↔ holds s w x := by
  unfold holds
  rw [h]

theorem set_index_block {τ : Type} (c : cache_sim_t τ) (x y : Nat)
    (h : x >>> c.idx_shift = y >>> c.idx_shift) : set_index c y = set_index c x := by
  unfold set_index
  rw [h]

theorem lookup_block {τ : Type} (c : cache_sim_t τ) (T : List Nat) (x y : Nat)
    (h : x >>> c.idx_shift = y >>> c.idx_shift) : lookup c T y = lookup c T x := by
  unfold lookup set_index
  rw [h]

/-- The closed form of `end_addr` when `addr + bytes + linesz - 1` does not wrap: the sum of
`addr` and `bytes` rounded up to a multiple of the line size. -/
theorem end_addr_round_up (k addr bytes : Nat) (hk : k < 64)
    (hsum : addr + bytes + 2 ^ k - 1 < 2 ^ 64) :
    end_addr (2 ^ k) addr bytes = (addr + bytes + 2 ^ k - 1) / 2 ^ k * 2 ^ k := by
  have hpos : 0 < 2 ^ k := Nat.two_pow_pos k
  rw [end_addr_eq k addr bytes hk]
  have e : (addr + bytes + 2 ^ k + (2 ^ 64 - 1)) % 2 ^ 64 = addr + bytes + 2 ^ k - 1 := by
    have : addr + bytes + 2 ^ k + (2 ^ 64 - 1) = (addr + bytes + 2 ^ k - 1) + 2 ^ 64 := by omega
    rw [this, Nat.add_mod_right, Nat.mod_eq_of_lt hsum]
  rw [e]

/-- C9: in every state of the engine of `ORIG_cachesim.cc` reachable from the freshly
constructed one (at least one way, 64-bit sizes), for `addr` and `bytes` with
`addr + bytes + linesz - 1 < 2 ^ 64`, `clean_invalidate(addr, bytes, clean, inval)` returns, and
with the range `[start_addr, end_addr)`, which is `[addr / linesz * linesz,
(addr + bytes + linesz - 1) / linesz * linesz)`: (1) with `clean`, afterwards no way that holds
the block of an address of the range has DIRTY set, and `writebacks` has grown, as a 64-bit
counter, by the number of blocks of the range whose line was resident and dirty before the
call; without `clean`, `writebacks` is as before; (2) with `inval`, the lookup of every address
of the range misses afterwards; (3) every tag word other than those of the valid lines whose
block address lies in the range is as it was. -/
theorem clean_invalidate_effect (sets ways linesz : Nat) (c0 c : cache_sim_t orig_store)
    (addr bytes : Nat) (clean inval : Bool)
    (hnew : ORIG.new sets ways linesz = some c0) (hw : 1 ≤ ways) (hs : sets * ways < 2 ^ 64)
    (hl : linesz < 2 ^ 64) (hr : reachable ORIG.vt c0 c)
    (hsum : addr + bytes + c.linesz - 1 < 2 ^ 64) :
    ∃ c1 out, clean_invalidate ORIG.vt c addr bytes clean inval = some (c1, out) ∧
      start_addr c.linesz addr = addr / c.linesz * c.linesz ∧
      end_addr c.linesz addr bytes = (addr + bytes + c.linesz - 1) / c.linesz * c.linesz ∧
      (clean = true →
        (∀ y i, start_addr c.linesz addr ≤ y → y < end_addr c.linesz addr bytes → i < c1.ways →
          holds c1.idx_shift (c1.store.tags.getD (set_index c1 y * c1.ways + i) 0) y →
          c1.store.tags.getD (set_index c1 y * c1.ways + i) 0 &&& DIRTY = 0) ∧
        c1.writebacks
          = (c.writebacks
              + (range_addrs c.linesz (start_addr c.linesz addr)
                  (iterations c.linesz addr bytes)).countP (dirty_hit c c.store.tags))
            % 2 ^ 64) ∧
      (clean = false → c1.writebacks = c.writebacks) ∧
      (inval = true →
        ∀ y, start_addr c.linesz addr ≤ y → y < end_addr c.linesz addr bytes →
          lookup c1 c1.store.tags y = none) ∧
      (∀ q, ¬ (c.store.tags.getD q 0 &&& VALID ≠ 0 ∧
            start_addr c.linesz addr
              ≤ (c.store.tags.getD q 0 &&& not64 (VALID ||| DIRTY)) <<< c.idx_shift ∧
            (c.store.tags.getD q 0 &&& not64 (VALID ||| DIRTY)) <<< c.idx_shift
              < end_addr c.linesz addr bytes) →
        c1.store.tags.getD q 0 = c.store.tags.getD q 0) := by
  obtain ⟨hinv, hwb⟩ := orig_wb_reachable c0 c (orig_inv_new sets ways linesz c0 hnew hw hs hl)
    (by rw [init_writebacks _ sets ways linesz c0 hnew]; norm_num) hr
  have hg : geom_ok c := hinv.1.1
  have hwo : words_ok c.store.tags := hinv.1.2.2
  have hnd : no_dup c c.store.tags := hinv.2
  have hk64 : c.idx_shift < 64 := (geom_shift c hg).2
  have hlz : c.linesz = 2 ^ c.idx_shift := hg.2
  have hpos : 0 < 2 ^ c.idx_shift := Nat.two_pow_pos _
  rw [hlz] at hsum ⊢
  have ha : addr < 2 ^ 64 := by omega
  have hR := range_addrs_lt c.idx_shift addr bytes
  obtain ⟨i1, i2, i3, i4, i5, i6⟩ := orig_fold_facts clean inval
    (range_addrs (2 ^ c.idx_shift) (start_addr (2 ^ c.idx_shift) addr)
      (iterations (2 ^ c.idx_shift) addr bytes)) c hinv hwb
    (fun x hx => hR x hk64 ha hx) (range_blocks_distinct c.idx_shift addr bytes hk64 ha)
  rw [clean_invalidate_eq ORIG.vt c c.idx_shift addr bytes clean inval hk64 hlz ha]
  refine ⟨_, _, rfl, start_addr_eq _ addr hk64 ha, end_addr_round_up _ addr bytes hk64 hsum,
    ?_, ?_, ?_, ?_⟩
  · intro hc
    refine ⟨?_, ?_⟩
    · intro y i hy1 hy2 hi hh
      obtain ⟨x, hx, hxy⟩ := range_block_visited c.idx_shift addr bytes y hk64 ha hy1 hy2
      rw [i3] at hi
      rw [i4, holds_block _ _ x y hxy] at hh
      have hsi : set_index (List.foldl (clean_invalidate_body ORIG.vt clean inval) c
          (range_addrs (2 ^ c.idx_shift) (start_addr (2 ^ c.idx_shift) addr)
            (iterations (2 ^ c.idx_shift) addr bytes))) y = set_index c x := by
        rw [← set_index_block c x y hxy]
        unfold set_index
        rw [i2, i4]
      rw [hsi, i3] at hh ⊢
      have hh0 : holds c.idx_shift (c.store.tags.getD (set_index c x * c.ways + i) 0) x := by
        rw [i6] at hh
        split at hh
        · exact holds_clean_word _ _ _ _ _ hh
        · exact hh
      have hlk := lookup_of_holds c c.store.tags x i hg hwo (hR x hk64 ha hx) hnd hi hh0
      rw [i6, if_pos ⟨x, hx, hlk⟩, hc]
      exact clean_word_clean _ _
    · rw [i5, if_pos hc]
  · intro hc
    rw [i5, if_neg (by rw [hc]; exact Bool.false_ne_true), Nat.add_zero, Nat.mod_eq_of_lt hwb]
  · intro hc y hy1 hy2
    obtain ⟨x, hx, hxy⟩ := range_block_visited c.idx_shift addr bytes y hk64 ha hy1 hy2
    rw [lookup_geom _ c _ y i2 i3 i4, lookup_block c _ x y hxy,
      lookup_none c _ x hg i1.1.2.2 (hR x hk64 ha hx)]
    intro i hi hh
    have hh0 : holds c.idx_shift (c.store.tags.getD (set_index c x * c.ways + i) 0) x := by
      rw [i6] at hh
      split at hh
      · exact holds_clean_word _ _ _ _ _ hh
      · exact hh
    have hlk := lookup_of_holds c c.store.tags x i hg hwo (hR x hk64 ha hx) hnd hi hh0
    rw [i6, if_pos ⟨x, hx, hlk⟩, hc] at hh
    exact hh.1 (clean_word_inval _ _)
  · intro q hq
    rw [i6, if_neg]
    rintro ⟨x, hx, hlk⟩
    apply hq
    obtain ⟨_, hv, hh⟩ := lookup_valid c c.store.tags x q hg hwo (hR x hk64 ha hx) hlk
    obtain ⟨r1, r2, r3⟩ := range_addrs_in_range c.idx_shift addr bytes x hk64 ha hx
    rw [hh.2, r3]
    exact ⟨hv, r1, r2⟩

theorem clean_invalidate_effect_witness :
    ∃ c1 out, clean_invalidate ORIG.vt ORIG.dirty_1_2_8 0 8 true true = some (c1, out) ∧
      start_addr ORIG.dirty_1_2_8.linesz 0 = 0 / ORIG.dirty_1_2_8.linesz * ORIG.dirty_1_2_8.linesz ∧
      end_addr ORIG.dirty_1_2_8.linesz 0 8
        = (0 + 8 + ORIG.dirty_1_2_8.linesz - 1) / ORIG.dirty_1_2_8.linesz
            * ORIG.dirty_1_2_8.linesz ∧
      (true = true →
        (∀ y i, start_addr ORIG.dirty_1_2_8.linesz 0 ≤ y →
          y < end_addr ORIG.dirty_1_2_8.linesz 0 8 → i < c1.ways →
          holds c1.idx_shift (c1.store.tags.getD (set_index c1 y * c1.ways + i) 0) y →
          c1.store.tags.getD (set_index c1 y * c1.ways + i) 0 &&& DIRTY = 0) ∧
        c1.writebacks
          = (ORIG.dirty_1_2_8.writebacks
              + (range_addrs ORIG.dirty_1_2_8.linesz (start_addr ORIG.dirty_1_2_8.linesz 0)
                  (iterations ORIG.dirty_1_2_8.linesz 0 8)).countP
                    (dirty_hit ORIG.dirty_1_2_8 ORIG.dirty_1_2_8.store.tags))
            % 2 ^ 64) ∧
      (true = false → c1.writebacks = ORIG.dirty_1_2_8.writebacks) ∧
      (true = true →
        ∀ y, start_addr ORIG.dirty_1_2_8.linesz 0 ≤ y →
          y < end_addr ORIG.dirty_1_2_8.linesz 0 8 → lookup c1 c1.store.tags y = none) ∧
      (∀ q, ¬ (ORIG.dirty_1_2_8.store.tags.getD q 0 &&& VALID ≠ 0 ∧
            start_addr ORIG.dirty_1_2_8.linesz 0
              ≤ (ORIG.dirty_1_2_8.store.tags.getD q 0 &&& not64 (VALID ||| DIRTY))
                  <<< ORIG.dirty_1_2_8.idx_shift ∧
            (ORIG.dirty_1_2_8.store.tags.getD q 0 &&& not64 (VALID ||| DIRTY))
                <<< ORIG.dirty_1_2_8.idx_shift
              < end_addr ORIG.dirty_1_2_8.linesz 0 8) →
        c1.store.tags.getD q 0 = ORIG.dirty_1_2_8.store.tags.getD q 0) :=
  clean_invalidate_effect 1 2 8 ORIG.cold_1_2_8 ORIG.dirty_1_2_8 0 8 true true
    (by decide) (by decide) (by decide) (by decide)
    (reachable.step (call.access 0 8 true) reachable.start ⟨by decide, by decide⟩
      orig_dirty_1_2_8)
    (by decide)

/-! ## Warm example engines -/

/-- A sequence of calls with 64-bit arguments that returns leads to a reachable state. -/
theorem reachable_replay {τ : Type} (vt : vtable τ) (c0 : cache_sim_t τ) (xs : List call) :
    ∀ (c c1 : cache_sim_t τ) (out : List call), reachable vt c0 c → (∀ x ∈ xs, x.fits) →
      replay vt c xs = some (c1, out) → reachable vt c0 c1 := by
  induction xs with
  | nil =>
    intro c c1 out hr _ h
    rw [replay_nil vt c c1 out h]
    exact hr
  | cons x xs ih =>
    intro c c1 out hr hx h
    obtain ⟨ca, o1, o2, hd, hrest⟩ := replay_cons vt c c1 x xs out h
    exact ih ca c1 o2 (reachable.step x hr (hx x (List.mem_cons_self _ _)) hd)
      (fun y hy => hx y (List.mem_cons_of_mem _ hy)) hrest

theorem orig_warm_1_3_8 :
    replay ORIG.vt ORIG.cold_1_3_8
        [call.access 0 8 false, call.access 8 8 false, call.access 16 8 false]
      = some (ORIG.warm_1_3_8, []) := by decide

theorem self_two_1_2_8 :
    replay SELF.vt SELF.cold_1_2_8 [call.access 0 8 false, call.access 8 8 false]
      = some (SELF.two_1_2_8, []) := by decide

theorem self_inval_1_2_8 :
    replay SELF.vt SELF.cold_1_2_8
        [call.access 0 8 false, call.access 8 8 false, call.clean_invalidate 0 8 false true]
      = some (SELF.inval_1_2_8, []) := by decide

theorem orig_warm_reachable : reachable ORIG.vt ORIG.cold_1_3_8 ORIG.warm_1_3_8 :=
  reachable_replay ORIG.vt ORIG.cold_1_3_8 _ _ _ _ reachable.start
    (by simp [call.fits]) orig_warm_1_3_8

theorem self_two_reachable : reachable SELF.vt SELF.cold_1_2_8 SELF.two_1_2_8 :=
  reachable_replay SELF.vt SELF.cold_1_2_8 _ _ _ _ reachable.start
    (by simp [call.fits]) self_two_1_2_8

theorem self_inval_reachable : reachable SELF.vt SELF.cold_1_2_8 SELF.inval_1_2_8 :=
  reachable_replay SELF.vt SELF.cold_1_2_8 _ _ _ _ reachable.start
    (by simp [call.fits]) self_inval_1_2_8

theorem self_one_reachable : reachable SELF.vt SELF.cold_1_2_8 SELF.one_1_2_8 :=
  reachable.step (call.access 0 8 false) reachable.start ⟨by decide, by decide⟩ self_one_1_2_8

/-! ## Witnesses on warm engines (C14, C19, C20, C22) -/

theorem check_tag_is_lookup_witness :
    (is_lookup_of ORIG.dirty_1_2_8 ORIG.dirty_1_2_8.store.tags 0
        (ORIG.check_tag ORIG.dirty_1_2_8 0).2 ∧
      is_lookup_of SELF.two_1_2_8 SELF.two_1_2_8.store.tags 0
        (SELF.check_tag SELF.two_1_2_8 0).2 ∧
      (∀ p, (ORIG.check_tag ORIG.dirty_1_2_8 0).2 = some p →
        set_index ORIG.dirty_1_2_8 0 * ORIG.dirty_1_2_8.ways ≤ p ∧
        p < (set_index ORIG.dirty_1_2_8 0 + 1) * ORIG.dirty_1_2_8.ways) ∧
      (∀ p, (SELF.check_tag SELF.two_1_2_8 0).2 = some p →
        set_index SELF.two_1_2_8 0 * SELF.two_1_2_8.ways ≤ p ∧
        p < (set_index SELF.two_1_2_8 0 + 1) * SELF.two_1_2_8.ways)) ∧
    (ORIG.check_tag ORIG.dirty_1_2_8 0).2 = some 1 ∧
    (SELF.check_tag SELF.two_1_2_8 0).2 = some 0 ∧
    (is_lookup_of SELF.two_1_2_8 SELF.two_1_2_8.store.tags 8
        (SELF.check_tag SELF.two_1_2_8 8).2 ∧
      (SELF.check_tag SELF.two_1_2_8 8).2 = some 1) :=
  ⟨check_tag_is_lookup ORIG.dirty_1_2_8 SELF.two_1_2_8 0 (by decide) (by decide) (by decide),
   by decide, by decide,
   (check_tag_is_lookup ORIG.dirty_1_2_8 SELF.two_1_2_8 8 (by decide) (by decide)
      (by decide)).2.1,
   by decide⟩

theorem no_duplicate_block_witness :
    no_dup ORIG.warm_1_3_8 ORIG.warm_1_3_8.store.tags ∧
    ORIG.warm_1_3_8.store.tags.getD (0 * ORIG.warm_1_3_8.ways + 0) 0 &&& VALID ≠ 0 ∧
    ORIG.warm_1_3_8.store.tags.getD (0 * ORIG.warm_1_3_8.ways + 2) 0 &&& VALID ≠ 0 ∧
    ORIG.warm_1_3_8.store.tags.getD (0 * ORIG.warm_1_3_8.ways + 0) 0 &&& not64 (VALID ||| DIRTY)
      ≠ ORIG.warm_1_3_8.store.tags.getD (0 * ORIG.warm_1_3_8.ways + 2) 0
          &&& not64 (VALID ||| DIRTY) :=
  ⟨no_duplicate_block 1 3 8 ORIG.cold_1_3_8 ORIG.warm_1_3_8 (by decide) (by decide) (by decide)
      (by decide) orig_warm_reachable,
   by decide, by decide,
   no_duplicate_block 1 3 8 ORIG.cold_1_3_8 ORIG.warm_1_3_8 (by decide) (by decide) (by decide)
      (by decide) orig_warm_reachable 0 0 2 (by decide) (by decide) (by decide) (by decide)
      (by decide) (by decide)⟩

theorem check_tag_sweep_witness :
    (SELF.check_tag SELF.two_1_2_8 0).1.tags = SELF.two_1_2_8.store.tags ∧
    (SELF.check_tag SELF.two_1_2_8 0).2 = some 0 ∧
    (SELF.check_tag SELF.two_1_2_8 0).1.timer.getD 1 0
      = (if SELF.two_1_2_8.store.tags.getD 1 0 &&& VALID ≠ 0
         then inc64 (SELF.two_1_2_8.store.timer.getD 1 0)
         else SELF.two_1_2_8.store.timer.getD 1 0) ∧
    (0 < SELF.two_1_2_8.sets * SELF.two_1_2_8.ways ∧
      (SELF.check_tag SELF.two_1_2_8 0).1.timer.getD 0 0 = 0) ∧
    SELF.two_1_2_8.store.timer = [1, 0] ∧
    (SELF.check_tag SELF.two_1_2_8 0).1.timer = [0, 1] ∧
    (SELF.check_tag SELF.two_1_2_8 16).2 = none ∧
    (SELF.check_tag SELF.two_1_2_8 16).1.timer = [2, 1] ∧
    (∃ d1, access SELF.vt SELF.two_1_2_8 16 8 true
        = some (d1, miss_calls SELF.two_1_2_8
            (SELF.two_1_2_8.store.tags.getD (SELF.miss_index SELF.two_1_2_8 16) 0) 16) ∧
      d1.store.timer.getD (SELF.miss_index SELF.two_1_2_8 16) 0 = 0 ∧
      ∀ i, i < SELF.two_1_2_8.sets * SELF.two_1_2_8.ways →
        i ≠ SELF.miss_index SELF.two_1_2_8 16 →
        d1.store.timer.getD i 0
          = if SELF.two_1_2_8.store.tags.getD i 0 &&& VALID ≠ 0
            then inc64 (inc64 (SELF.two_1_2_8.store.timer.getD i 0))
            else SELF.two_1_2_8.store.timer.getD i 0) ∧
    (access SELF.vt SELF.two_1_2_8 16 8 true).map (fun r => r.1.store.timer) = some [3, 0] :=
  ⟨(check_tag_sweep SELF.two_1_2_8 0 8 (by decide) (by decide)).1,
   by decide,
   (check_tag_sweep SELF.two_1_2_8 0 8 (by decide) (by decide)).2.1 1 (by decide) (by decide),
   (check_tag_sweep SELF.two_1_2_8 0 8 (by decide) (by decide)).2.2.1 0 (by decide),
   by decide, by decide, by decide, by decide,
   (check_tag_sweep SELF.two_1_2_8 16 8 (by decide) (by decide)).2.2.2.2 (by decide),
   by decide⟩

theorem free_ways_first_witness :
    SELF.idle_zero SELF.inval_1_2_8 ∧
    SELF.inval_1_2_8.store.tags.getD 1 0 &&& VALID ≠ 0 ∧
    SELF.miss_index SELF.inval_1_2_8 16 = 0 ∧
    (∃ r, r ≤ 0 ∧ SELF.miss_index SELF.inval_1_2_8 16
          = set_index SELF.inval_1_2_8 16 * SELF.inval_1_2_8.ways + r ∧
        SELF.inval_1_2_8.store.tags.getD
            (set_index SELF.inval_1_2_8 16 * SELF.inval_1_2_8.ways + r) 0 &&& VALID = 0 ∧
        (∀ j', j' < r →
          SELF.inval_1_2_8.store.tags.getD
              (set_index SELF.inval_1_2_8 16 * SELF.inval_1_2_8.ways + j') 0 &&& VALID ≠ 0) ∧
        ∃ d1, access SELF.vt SELF.inval_1_2_8 16 8 true
            = some (d1, miss_calls SELF.inval_1_2_8
                (SELF.inval_1_2_8.store.tags.getD
                  (set_index SELF.inval_1_2_8 16 * SELF.inval_1_2_8.ways + r) 0) 16) ∧
          d1.writebacks = SELF.inval_1_2_8.writebacks ∧
          d1.store.tags.getD (set_index SELF.inval_1_2_8 16 * SELF.inval_1_2_8.ways + r) 0
            = (if true then new_tag SELF.inval_1_2_8 16 ||| DIRTY
               else new_tag SELF.inval_1_2_8 16)) ∧
    SELF.idle_zero SELF.one_1_2_8 ∧
    SELF.one_1_2_8.store.tags.getD 0 0 &&& VALID ≠ 0 ∧
    SELF.miss_index SELF.one_1_2_8 16 = 1 ∧
    (∃ r, r ≤ 1 ∧ SELF.miss_index SELF.one_1_2_8 16
          = set_index SELF.one_1_2_8 16 * SELF.one_1_2_8.ways + r ∧
        SELF.one_1_2_8.store.tags.getD
            (set_index SELF.one_1_2_8 16 * SELF.one_1_2_8.ways + r) 0 &&& VALID = 0 ∧
        (∀ j', j' < r →
          SELF.one_1_2_8.store.tags.getD
              (set_index SELF.one_1_2_8 16 * SELF.one_1_2_8.ways + j') 0 &&& VALID ≠ 0) ∧
        ∃ d1, access SELF.vt SELF.one_1_2_8 16 8 false
            = some (d1, miss_calls SELF.one_1_2_8
                (SELF.one_1_2_8.store.tags.getD
                  (set_index SELF.one_1_2_8 16 * SELF.one_1_2_8.ways + r) 0) 16) ∧
          d1.writebacks = SELF.one_1_2_8.writebacks ∧
          d1.store.tags.getD (set_index SELF.one_1_2_8 16 * SELF.one_1_2_8.ways + r) 0
            = (if false then new_tag SELF.one_1_2_8 16 ||| DIRTY
               else new_tag SELF.one_1_2_8 16)) :=
  ⟨(free_ways_first 1 2 8 SELF.cold_1_2_8 SELF.inval_1_2_8 16 8 0 true (by decide) (by decide)
      (by decide) (by decide) self_inval_reachable (by decide)).1,
   by decide, by decide,
   (free_ways_first 1 2 8 SELF.cold_1_2_8 SELF.inval_1_2_8 16 8 0 true (by decide) (by decide)
      (by decide) (by decide) self_inval_reachable (by decide)).2 (by decide) (by decide)
      (by decide) (by decide),
   (free_ways_first 1 2 8 SELF.cold_1_2_8 SELF.one_1_2_8 16 8 1 false (by decide) (by decide)
      (by decide) (by decide) self_one_reachable (by decide)).1,
   by decide, by decide,
   (free_ways_first 1 2 8 SELF.cold_1_2_8 SELF.one_1_2_8 16 8 1 false (by decide) (by decide)
      (by decide) (by decide) self_one_reachable (by decide)).2 (by decide) (by decide)
      (by decide) (by decide)⟩

/-! ## A chain of two engines returns (C23) -/

theorem init_counters_zero {τ : Type} (store : τ) (sets ways linesz : Nat) (c : cache_sim_t τ)
    (h : init store sets ways linesz = some c) : counters_zero c := by
  unfold init at h
  split at h
  · cases h
  split at h
  · cases h
  injection h with h
  subst h
  exact ⟨rfl, rfl, rfl, rfl, rfl, rfl, rfl⟩

/-- In a state with the invariant, `access` of `ORIG_cachesim.cc` returns and keeps it. -/
theorem orig_access_total (c : cache_sim_t orig_store) (addr bytes : Nat) (store : Bool)
    (hinv : ORIG.inv c) (ha : addr < 2 ^ 64) :
    ∃ c1 out, access ORIG.vt c addr bytes store = some (c1, out) ∧ ORIG.inv c1 := by
  cases hl : lookup c c.store.tags addr with
  | some p =>
    have h := orig_access_hit c addr bytes p store hl
    exact ⟨_, _, h, orig_inv_access c _ addr bytes store _ hinv ha h⟩
  | none =>
    have h := orig_access_miss c addr bytes store hinv.1 ha hl
    exact ⟨_, _, h, orig_inv_access c _ addr bytes store _ hinv ha h⟩

/-- In a state with the invariant, `access` of `SELF_cachesim.cc` returns and keeps it. -/
theorem self_access_total (c : cache_sim_t self_store) (addr bytes : Nat) (store : Bool)
    (hinv : SELF.inv c) (ha : addr < 2 ^ 64) :
    ∃ c1 out, access SELF.vt c addr bytes store = some (c1, out) ∧ SELF.inv c1 := by
  cases hl : lookup c c.store.tags addr with
  | some p =>
    have h := self_access_hit c addr bytes p store hl
    exact ⟨_, _, h, self_inv_access c _ addr bytes store _ hinv ha h⟩
  | none =>
    have h := self_access_miss c addr bytes store hinv.1 ha hl
    exact ⟨_, _, h, self_inv_access c _ addr bytes store _ hinv ha h⟩

/-- In a state with the invariant, `access` of `fa_cache_sim_t` returns and keeps it. -/
theorem fa_access_total (c : cache_sim_t fa_store) (addr bytes : Nat) (store : Bool)
    (hinv : FA.inv c) (ha : addr < 2 ^ 64) :
    ∃ c1 out, access FA.vt c addr bytes store = some (c1, out) ∧ FA.inv c1 := by
  cases hl : map_find c.store.tags (addr >>> c.idx_shift) with
  | some w =>
    have h := fa_access_hit c addr bytes w store hl
    exact ⟨_, _, h, fa_inv_access c addr bytes store _ _ hinv ha h⟩
  | none =>
    have h := fa_access_miss c addr bytes store hl
    exact ⟨_, _, h, fa_inv_access c addr bytes store _ _ hinv ha h⟩

/-- The calls `access` makes on its miss handler are `access` calls with 64-bit addresses. -/
theorem miss_calls_fit {τ : Type} (c : cache_sim_t τ) (victim addr : Nat) (ha : addr < 2 ^ 64) :
    ∀ x ∈ miss_calls c victim addr, ∃ a b s, x = call.access a b s ∧ a < 2 ^ 64 := by
  have h1 : ((victim &&& not64 (VALID ||| DIRTY)) <<< c.idx_shift) % 2 ^ 64 < 2 ^ 64 :=
    Nat.mod_lt _ (by norm_num)
  have h2 : addr &&& not64 (dec64 c.linesz) < 2 ^ 64 := lt_of_le_of_lt Nat.and_le_left ha
  intro x hx
  rw [miss_calls_eq] at hx
  split at hx
  · split at hx
    · rcases List.mem_cons.mp hx with hx | hx
      · exact ⟨_, _, _, hx, h1⟩
      · rcases List.mem_cons.mp hx with hx | hx
        · exact ⟨_, _, _, hx, h2⟩
        · exact absurd hx (List.not_mem_nil _)
    · rcases List.mem_cons.mp hx with hx | hx
      · exact ⟨_, _, _, hx, h2⟩
      · exact absurd hx (List.not_mem_nil _)
  · exact absurd hx (List.not_mem_nil _)

/-- An engine whose `access` returns in every state with the invariant `P` executes every
list of `access` calls with 64-bit addresses. -/
theorem replay_total {τ : Type} (vt : vtable τ) (P : cache_sim_t τ → Prop)
    (ht : ∀ c addr bytes store, P c → addr < 2 ^ 64 →
      ∃ c1 out, access vt c addr bytes store = some (c1, out) ∧ P c1)
    (l : List call) :
    ∀ c, P c → (∀ x ∈ l, ∃ a b s, x = call.access a b s ∧ a < 2 ^ 64) →
      ∃ c1 out, replay vt c l = some (c1, out) ∧ P c1 := by
  induction l with
  | nil =>
    intro c hc _
    exact ⟨c, [], rfl, hc⟩
  | cons x l ih =>
    intro c hc hl
    obtain ⟨a, b, s, hx, ha⟩ := hl x (List.mem_cons_self _ _)
    subst hx
    obtain ⟨c1, o1, h1, hp1⟩ := ht c a b s hc ha
    obtain ⟨c2, o2, h2, hp2⟩ := ih c1 hp1 (fun y hy => hl y (List.mem_cons_of_mem _ hy))
    refine ⟨c2, o1 ++ o2, ?_, hp2⟩
    simp only [replay, dispatch, h1, h2]

/-- A chain of two engines whose `access` returns in every state with their invariants
executes every sequence of `access` calls with 64-bit addresses. -/
theorem chain_run_total {τ1 τ2 : Type} (vt1 : vtable τ1) (vt2 : vtable τ2)
    (P1 : cache_sim_t τ1 → Prop) (P2 : cache_sim_t τ2 → Prop)
    (ht1 : ∀ c addr bytes store, P1 c → addr < 2 ^ 64 →
      ∃ c1 out, access vt1 c addr bytes store = some (c1, out) ∧ P1 c1)
    (ht2 : ∀ c addr bytes store, P2 c → addr < 2 ^ 64 →
      ∃ c1 out, access vt2 c addr bytes store = some (c1, out) ∧ P2 c1)
    (xs : List call) (hx : ∀ x ∈ xs, x.is_access ∧ x.fits) :
    ∀ l1 l2, P1 l1 → P2 l2 → ∃ r, chain_run vt1 vt2 l1 l2 xs = some r := by
  induction xs with
  | nil =>
    intro l1 l2 _ _
    exact ⟨(l1, l2), rfl⟩
  | cons x xs ih =>
    intro l1 l2 hp1 hp2
    obtain ⟨hxa, hxf⟩ := hx x (List.mem_cons_self _ _)
    cases x with
    | clean_invalidate a b c d => exact absurd hxa (by simp [call.is_access])
    | access addr bytes store =>
      obtain ⟨l1a, out1, h1, hp1a⟩ := ht1 l1 addr bytes store hp1 hxf.1
      have hout : ∀ y ∈ out1, ∃ a b s, y = call.access a b s ∧ a < 2 ^ 64 := by
        obtain ⟨_, _, _, _, _, _, _, _, _, hcase⟩ :=
          access_shape vt1 l1 l1a addr bytes store out1 h1
        rcases hcase with ⟨_, ho, _⟩ | ⟨_, victim, ho, _⟩
        · rw [ho]
          intro y hy
          exact absurd hy (List.not_mem_nil _)
        · rw [ho]
          exact miss_calls_fit l1 victim addr hxf.1
      obtain ⟨l2a, out2, h2, hp2a⟩ := replay_total vt2 P2 ht2 out1 l2 hp2 hout
      obtain ⟨r, hr⟩ := ih (fun y hy => hx y (List.mem_cons_of_mem _ hy)) l1a l2a hp1a hp2a
      refine ⟨r, ?_⟩
      simp only [chain_run, chain2, dispatch, h1, h2, Option.some_bind]
      exact hr

/-- The counter relation of a chain of two engines whose `access` returns in every state with
their invariants. -/
theorem chain_relation_total {τ1 τ2 : Type} (vt1 : vtable τ1) (vt2 : vtable τ2)
    (P1 : cache_sim_t τ1 → Prop) (P2 : cache_sim_t τ2 → Prop)
    (ht1 : ∀ c addr bytes store, P1 c → addr < 2 ^ 64 →
      ∃ c1 out, access vt1 c addr bytes store = some (c1, out) ∧ P1 c1)
    (ht2 : ∀ c addr bytes store, P2 c → addr < 2 ^ 64 →
      ∃ c1 out, access vt2 c addr bytes store = some (c1, out) ∧ P2 c1)
    (l1 : cache_sim_t τ1) (l2 : cache_sim_t τ2) (xs : List call)
    (hp1 : P1 l1) (hp2 : P2 l2) (hm : l1.miss_handler = true)
    (h1 : counters_zero l1) (h2 : counters_zero l2) (hx : ∀ x ∈ xs, x.is_access ∧ x.fits) :
    chain_relation vt1 vt2 l1 l2 xs := by
  obtain ⟨r, hr⟩ := chain_run_total vt1 vt2 P1 P2 ht1 ht2 xs hx l1 l2 hp1 hp2
  have h0 : chain_counters l1 l2 := by
    obtain ⟨_, a2, _, _, a5, _, a7⟩ := h1
    obtain ⟨b1, _, b3, b4, _, b6, _⟩ := h2
    refine ⟨?_, ?_, ?_, ?_⟩
    · rw [b1, a2, a5]; rfl
    · rw [b4, a7]; rfl
    · rw [b3, b1, Nat.mul_zero]; rfl
    · rw [b6, b4, Nat.mul_zero]; rfl
  obtain ⟨c1, c2, c3, c4⟩ :=
    chain_counters_run vt1 vt2 xs (fun x hx2 => (hx x hx2).1) l1 l2 r hm h0 hr
  refine ⟨r, hr, ⟨c1, c2, c3, c4⟩, ?_, ?_, ?_, ?_⟩
  · intro hlt; rw [c1, Nat.mod_eq_of_lt hlt]
  · intro hlt; rw [c2, Nat.mod_eq_of_lt hlt]
  · intro hlt; rw [c3, Nat.mod_eq_of_lt hlt]
  · intro hlt; rw [c4, Nat.mod_eq_of_lt hlt]

/-- C23: for a chain `l1 -> l2` in which each of `l1` and `l2` is an engine of
`ORIG_cachesim.cc`, an engine of `SELF_cachesim.cc` or a `fa_cache_sim_t`, each in a state
with its invariant and all counters at zero (the freshly constructed engines are such states),
`l1` with its miss handler attached and `l2` called only through `l1`: every finite sequence of
`access` calls with 64-bit arguments on `l1` returns, and afterwards the counters of `l2` are
those of `l1` as 64-bit values (`chain_counters`); so, when the sums and products do not pass
`2 ^ 64`, `l2.read_accesses = l1.read_misses + l1.write_misses`,
`l2.write_accesses = l1.writebacks`, `l2.bytes_read = l1.linesz * l2.read_accesses` and
`l2.bytes_written = l1.linesz * l2.write_accesses`. -/
theorem chain_counter_relation (c1 c2 : cache_sim_t orig_store) (d1 d2 : cache_sim_t self_store)
    (f1 f2 : cache_sim_t fa_store) (xs : List call)
    (hc1 : ORIG.inv c1) (hc2 : ORIG.inv c2) (hd1 : SELF.inv d1) (hd2 : SELF.inv d2)
    (hf1 : FA.inv f1) (hf2 : FA.inv f2)
    (mc : c1.miss_handler = true) (md : d1.miss_handler = true) (mf : f1.miss_handler = true)
    (zc1 : counters_zero c1) (zc2 : counters_zero c2) (zd1 : counters_zero d1)
    (zd2 : counters_zero d2) (zf1 : counters_zero f1) (zf2 : counters_zero f2)
    (hx : ∀ x ∈ xs, x.is_access ∧ x.fits) :
    chain_relation ORIG.vt ORIG.vt c1 c2 xs ∧ chain_relation ORIG.vt SELF.vt c1 d2 xs ∧
    chain_relation ORIG.vt FA.vt c1 f2 xs ∧
    chain_relation SELF.vt ORIG.vt d1 c2 xs ∧ chain_relation SELF.vt SELF.vt d1 d2 xs ∧
    chain_relation SELF.vt FA.vt d1 f2 xs ∧
    chain_relation FA.vt ORIG.vt f1 c2 xs ∧ chain_relation FA.vt SELF.vt f1 d2 xs ∧
    chain_relation FA.vt FA.vt f1 f2 xs :=
  ⟨chain_relation_total ORIG.vt ORIG.vt ORIG.inv ORIG.inv orig_access_total orig_access_total
      c1 c2 xs hc1 hc2 mc zc1 zc2 hx,
   chain_relation_total ORIG.vt SELF.vt ORIG.inv SELF.inv orig_access_total self_access_total
      c1 d2 xs hc1 hd2 mc zc1 zd2 hx,
   chain_relation_total ORIG.vt FA.vt ORIG.inv FA.inv orig_access_total fa_access_total
      c1 f2 xs hc1 hf2 mc zc1 zf2 hx,
   chain_relation_total SELF.vt ORIG.vt SELF.inv ORIG.inv self_access_total orig_access_total
      d1 c2 xs hd1 hc2 md zd1 zc2 hx,
   chain_relation_total SELF.vt SELF.vt SELF.inv SELF.inv self_access_total self_access_total
      d1 d2 xs hd1 hd2 md zd1 zd2 hx,
   chain_relation_total SELF.vt FA.vt SELF.inv FA.inv self_access_total fa_access_total
      d1 f2 xs hd1 hf2 md zd1 zf2 hx,
   chain_relation_total FA.vt ORIG.vt FA.inv ORIG.inv fa_access_total orig_access_total
      f1 c2 xs hf1 hc2 mf zf1 zc2 hx,
   chain_relation_total FA.vt SELF.vt FA.inv SELF.inv fa_access_total self_access_total
      f1 d2 xs hf1 hd2 mf zf1 zd2 hx,
   chain_relation_total FA.vt FA.vt FA.inv FA.inv fa_access_total fa_access_total
      f1 f2 xs hf1 hf2 mf zf1 zf2 hx⟩

theorem chain_counter_relation_witness :
    (chain_relation ORIG.vt ORIG.vt (set_miss_handler ORIG.cold_1_2_8) ORIG.cold_1_2_8
        [call.access 0 8 true, call.access 8 8 false, call.access 16 8 false] ∧
      chain_relation ORIG.vt SELF.vt (set_miss_handler ORIG.cold_1_2_8) SELF.cold_1_2_8
        [call.access 0 8 true, call.access 8 8 false, call.access 16 8 false] ∧
      chain_relation ORIG.vt FA.vt (set_miss_handler ORIG.cold_1_2_8) FA.cold_8_64
        [call.access 0 8 true, call.access 8 8 false, call.access 16 8 false] ∧
      chain_relation SELF.vt ORIG.vt (set_miss_handler SELF.cold_1_2_8) ORIG.cold_1_2_8
        [call.access 0 8 true, call.access 8 8 false, call.access 16 8 false] ∧
      chain_relation SELF.vt SELF.vt (set_miss_handler SELF.cold_1_2_8) SELF.cold_1_2_8
        [call.access 0 8 true, call.access 8 8 false, call.access 16 8 false] ∧
      chain_relation SELF.vt FA.vt (set_miss_handler SELF.cold_1_2_8) FA.cold_8_64
        [call.access 0 8 true, call.access 8 8 false, call.access 16 8 false] ∧
      chain_relation FA.vt ORIG.vt (set_miss_handler FA.cold_8_64) ORIG.cold_1_2_8
        [call.access 0 8 true, call.access 8 8 false, call.access 16 8 false] ∧
      chain_relation FA.vt SELF.vt (set_miss_handler FA.cold_8_64) SELF.cold_1_2_8
        [call.access 0 8 true, call.access 8 8 false, call.access 16 8 false] ∧
      chain_relation FA.vt FA.vt (set_miss_handler FA.cold_8_64) FA.cold_8_64
        [call.access 0 8 true, call.access 8 8 false, call.access 16 8 false]) ∧
    (chain_run ORIG.vt FA.vt (set_miss_handler ORIG.cold_1_2_8) FA.cold_8_64
        [call.access 0 8 true, call.access 8 8 false, call.access 16 8 false]).map (fun r =>
          ((r.1.read_misses, r.1.write_misses, r.1.writebacks),
           (r.2.read_accesses, r.2.write_accesses, r.2.bytes_read, r.2.bytes_written)))
      = some ((2, 1, 1), (3, 1, 24, 8)) :=
  ⟨chain_counter_relation (set_miss_handler ORIG.cold_1_2_8) ORIG.cold_1_2_8
      (set_miss_handler SELF.cold_1_2_8) SELF.cold_1_2_8
      (set_miss_handler FA.cold_8_64) FA.cold_8_64
      [call.access 0 8 true, call.access 8 8 false, call.access 16 8 false]
      (orig_inv_new 1 2 8 ORIG.cold_1_2_8 orig_new_1_2_8 (by decide) (by decide) (by decide))
      (orig_inv_new 1 2 8 ORIG.cold_1_2_8 orig_new_1_2_8 (by decide) (by decide) (by decide))
      (self_inv_new 1 2 8 SELF.cold_1_2_8 self_new_1_2_8 (by decide) (by decide) (by decide))
      (self_inv_new 1 2 8 SELF.cold_1_2_8 self_new_1_2_8 (by decide) (by decide) (by decide))
      (fa_inv_new 8 64 FA.cold_8_64 fa_new_8_64 (by decide) (by decide) (by decide))
      (fa_inv_new 8 64 FA.cold_8_64 fa_new_8_64 (by decide) (by decide) (by decide))
      rfl rfl rfl (by decide) (by decide) (by decide) (by decide) (by decide) (by decide)
      (by simp [call.is_access, call.fits]),
   by decide⟩

end CacheSim
